import Mathlib

/-!
# libclashes (branch refactor-lib): embedding of `pdb.c` and `clashes.c`

The C sources work on fixed-column PDB text lines.  An atom line is embedded as a
record of the columns the code reads: the characters at offsets 12..15 (atom name),
17..19 (residue name), 76..77 (element), and the three coordinates that `atof`
parses at offsets 30, 38 and 46.

Numbers.  A C `double` is embedded as a rational number.  In the box test and the
distance test of `calc_contacts`, in `find_node` and in the grid computation of `main`
every arithmetic operation is followed by the rounding of the machine, a parameter `fl`
of these functions; `round_double` is the rounding of IEEE 754 binary64, with overflow
to an infinity.  The sum of squares inside `get_dist` and the bond-length tests of
`assign_atom_type` are taken exactly, and the library function `sqrt`, which is not part
of the repository, is a parameter of `get_dist`.  A C `int` is embedded as an integer of
the 32-bit range: `wrap_int` is applied after every `int` operation of `find_node` and of
the grid computation, and `c_int` is the cast of a `double`.

The functions `get_minmax`, `find_node` and `calc_intersection` do not parse a line in
place: they copy eight bytes into `char sub[8]` and call `atof(sub)`, and the copy has
no terminator.  What `atof` returns then also depends on the bytes that follow `sub` in
memory; these reads are a parameter of the three functions (see `SubRead`).
-/

set_option autoImplicit false

namespace Clashes

/-! ## Data model -/

/-- One PDB text line, reduced to the columns read by the code. -/
structure AtomLine where
  /-- Characters at offsets 12, 13, 14, 15: the atom name. -/
  c12 : Char
  c13 : Char
  c14 : Char
  c15 : Char
  /-- Characters at offsets 17, 18, 19: the residue name. -/
  r17 : Char
  r18 : Char
  r19 : Char
  /-- Value of `atof(line + 30)`. -/
  x : ℚ
  /-- Value of `atof(line + 38)`. -/
  y : ℚ
  /-- Value of `atof(line + 46)`. -/
  z : ℚ
  /-- Characters at offsets 76 and 77: the element code. -/
  c76 : Char
  c77 : Char
deriving DecidableEq

/-- Value of `#define NONE 0` in `pdb.h`. -/
def NONE : Int := 0
/-- Value of `#define DONOR 1` in `pdb.h`. -/
def DONOR : Int := 1
/-- Value of `#define ACCEPTOR 2` in `pdb.h`. -/
def ACCEPTOR : Int := 2
/-- Value of `#define BOTH 3` in `pdb.h`. -/
def BOTH : Int := 3

/-- Constant `upper_limit = 1.8` of `pdb.c`. -/
def upper_limit : ℚ := 18 / 10
/-- Constant `c_o_2 = 1.413` of `pdb.c`. -/
def c_o_2 : ℚ := 1413 / 1000
/-- Constant `c_o_1 = 1.216` of `pdb.c`. -/
def c_o_1 : ℚ := 1216 / 1000
/-- Constant `co_carb = 1.250` of `pdb.c`. -/
def co_carb : ℚ := 1250 / 1000
/-- Constant `n_2_o_2 = 1.396` of `pdb.c`. -/
def n_2_o_2 : ℚ := 1396 / 1000
/-- Constant `no3_minus = 1.239` of `pdb.c`. -/
def no3_minus : ℚ := 1239 / 1000
/-- Constant `c_sp3_n_3 = 1.482` of `pdb.c`. -/
def c_sp3_n_3 : ℚ := 1482 / 1000
/-- Constant `c_ar_sp3_n_4_2 = 1.474` of `pdb.c`. -/
def c_ar_sp3_n_4_2 : ℚ := 1474 / 1000

/-- The `float.h` constant `DBL_MAX` of IEEE binary64: `(2^53 - 1) * 2^971`. -/
def DBL_MAX : ℚ := (2 ^ 53 - 1) * 2 ^ 971
/-- The `float.h` constant `DBL_MIN` of IEEE binary64: the smallest positive normal
number `2^(-1022)`.  It is positive. -/
def DBL_MIN : ℚ := 1 / 2 ^ 1022

/-- The `limits.h` constant `INT_MIN` of a 32-bit `int`. -/
def INT_MIN : Int := -2147483648
/-- The `limits.h` constant `INT_MAX` of a 32-bit `int`. -/
def INT_MAX : Int := 2147483647

/-- The value a 32-bit `int` holds after an arithmetic operation with the exact result
`n`: the result modulo `2^32`, in two's complement.  (C leaves signed overflow
undefined; this is what the machine instruction computes.) -/
def wrap_int (n : Int) : Int := (n + 2147483648) % 4294967296 - 2147483648

/-- Truncation toward zero. -/
def trunc (q : ℚ) : Int := if 0 ≤ q then ⌊q⌋ else ⌈q⌉

/-- The C cast `(int)` applied to a `double`: truncation toward zero.  When the truncated
value does not fit in an `int` the result is `INT_MIN`, the value the x86-64 conversion
instruction delivers (C leaves the case undefined). -/
def c_int (q : ℚ) : Int :=
  if INT_MIN ≤ trunc q ∧ trunc q ≤ INT_MAX then trunc q else INT_MIN

/-! ## Rounding to binary64 -/

/-- Floor of the binary logarithm, by repeated halving with a step budget. -/
def log2_fuel : Nat → Nat → Nat
  | 0, _ => 0
  | fuel + 1, n => if n < 2 then 0 else log2_fuel fuel (n / 2) + 1

/-- The power `2 ^ k` for an integer exponent. -/
def pow2 (k : Int) : ℚ :=
  if 0 ≤ k then ((2 ^ k.toNat : Nat) : ℚ) else 1 / ((2 ^ (-k).toNat : Nat) : ℚ)

/-- The binary exponent of a positive number: the `e` with `2 ^ e ≤ q < 2 ^ (e + 1)`. -/
def expo (q : ℚ) : Int :=
  if pow2 ((log2_fuel q.num.natAbs q.num.natAbs : Int) - (log2_fuel q.den q.den : Int)) ≤ q
  then (log2_fuel q.num.natAbs q.num.natAbs : Int) - (log2_fuel q.den q.den : Int)
  else (log2_fuel q.num.natAbs q.num.natAbs : Int) - (log2_fuel q.den q.den : Int) - 1

/-- Rounding to the nearest integer, ties to the even one. -/
def round_even (q : ℚ) : Int :=
  if q - ⌊q⌋ < 1 / 2 then ⌊q⌋
  else if 1 / 2 < q - ⌊q⌋ then ⌊q⌋ + 1
  else if ⌊q⌋ % 2 = 0 then ⌊q⌋ else ⌊q⌋ + 1

/-- The spacing of the binary64 numbers around a positive `q`: `2 ^ (e - 52)` for the binary
exponent `e` of `q`, and `2 ^ (-1074)` below `2 ^ (-1022)`. -/
def ulp (q : ℚ) : ℚ := pow2 (max (expo q) (-1022) - 52)

/-- Rounding of a positive number to the nearest binary64 number, ties to even. -/
def round_pos (q : ℚ) : ℚ := (round_even (q / ulp q) : ℚ) * ulp q

/-- Rounding to the nearest number of the binary64 grid, ties to even, with the exponent
range not bounded above. -/
def round_nearest (q : ℚ) : ℚ :=
  if 0 < q then round_pos q else if q < 0 then - round_pos (-q) else 0

/-- The number that stands for the infinity of binary64, `2 ^ 4096`.  It is so large that
its sum and its difference with a finite double, and its product and its quotient with a
finite double other than 0, lie beyond `DBL_MAX` again, as those of the infinity do. -/
def DBL_INF : ℚ := 2 ^ 4096

/-- The rounding of IEEE 754 binary64 arithmetic, to nearest and ties to even: the value
a `double` operation stores for the exact result `q`.  A result that rounds beyond
`DBL_MAX` becomes the infinity of its sign.  The operations without a value
(`inf - inf`, `0 * inf`, a division by zero) are not embedded; they do not occur in the
functions below for finite coordinates and a positive step. -/
def round_double (q : ℚ) : ℚ :=
  if DBL_MAX < round_nearest q then DBL_INF
  else if round_nearest q < -DBL_MAX then -DBL_INF
  else round_nearest q

/-! ## `pdb.c` -/

/-- The three numbers that `atof(sub)` returns for one line in `get_minmax`, `find_node`
or `calc_intersection`.  `sub` is declared `char sub[8]` and filled by
`strncpy(sub, line + 30, 8)` (then `+ 38`, `+ 46`): the copy has no terminator, and `atof`
reads on into the bytes that follow `sub` in memory.  The numbers are those of the line
when a byte that ends the number follows the copy, and other numbers when digits
follow. -/
structure SubRead where
  x : ℚ
  y : ℚ
  z : ℚ
deriving DecidableEq

/-- The read of a line when each copy is followed by a byte that ends the number: the
three coordinates of the line. -/
def AtomLine.sub (s : AtomLine) : SubRead := { x := s.x, y := s.y, z := s.z }

/-- The reads of a run in which every copy is followed by a byte that ends the number.
A read is given for the iteration `it` of the loop and the line it copies. -/
def terminated : Nat → AtomLine → SubRead := fun _ s => s.sub

/-- The array `double minmax[6]` filled by `get_minmax`: `minx` is `minmax[0]`,
`maxx` is `minmax[1]`, `miny` is `minmax[2]`, `maxy` is `minmax[3]`, `minz` is
`minmax[4]` and `maxz` is `minmax[5]`. -/
structure MinMax where
  minx : ℚ
  maxx : ℚ
  miny : ℚ
  maxy : ℚ
  minz : ℚ
  maxz : ℚ
deriving DecidableEq

/-- Body of the `for` loop of `get_minmax` (pdb.c lines 28-44) for one line; `r` holds
the values `x`, `y`, `z` that `atof(sub)` returned (lines 30-36). -/
def get_minmax_step (m : MinMax) (r : SubRead) : MinMax :=
  { minx := if r.x < m.minx then r.x else m.minx
    maxx := if r.x > m.maxx then r.x else m.maxx
    miny := if r.y < m.miny then r.y else m.miny
    maxy := if r.y > m.maxy then r.y else m.maxy
    minz := if r.z < m.minz then r.z else m.minz
    maxz := if r.z > m.maxz then r.z else m.maxz }

/-- The loop `for(it = 0; it < size; it++)` of `get_minmax`, run on the lines from index
`it` on; `sub it s` is what the three calls of `atof(sub)` return for the line `s` in
iteration `it`. -/
def get_minmax_loop (sub : Nat → AtomLine → SubRead) :
    Nat → List AtomLine → MinMax → MinMax
  | _, [], m => m
  | it, s :: rest, m => get_minmax_loop sub (it + 1) rest (get_minmax_step m (sub it s))

/-- The function `get_minmax` of pdb.c (lines 19-52): the six running values start at
`DBL_MAX` (minima) and `DBL_MIN` (maxima) and the loop visits the lines in order. -/
def get_minmax (sub : Nat → AtomLine → SubRead) (set : List AtomLine) : MinMax :=
  get_minmax_loop sub 0 set ⟨DBL_MAX, DBL_MIN, DBL_MAX, DBL_MIN, DBL_MAX, DBL_MIN⟩

/-- The three offsets `offset_x`, `offset_y`, `offset_z` computed by `find_node`
(pdb.c lines 63-65) from the values `r` that `atof(sub)` returned (lines 55-61): a
`double` subtraction, a `double` division and the cast to `int`. -/
def find_node_offsets (fl : ℚ → ℚ) (r : SubRead) (minx miny minz step : ℚ) :
    Int × Int × Int :=
  (c_int (fl (fl (r.x - minx) / step)), c_int (fl (fl (r.y - miny) / step)),
    c_int (fl (fl (r.z - minz) / step)))

/-- The function `find_node` of pdb.c (lines 54-68); `r` holds the values that
`atof(sub)` returned for the line passed as `s`.  The index of line 67 is computed in
`int` arithmetic, four operations. -/
def find_node (fl : ℚ → ℚ) (r : SubRead) (minx miny minz step : ℚ)
    (size_x size_y _size_z : Int) : Int :=
  let o := find_node_offsets fl r minx miny minz step
  wrap_int (wrap_int (wrap_int (wrap_int (o.2.2 * size_y) + o.2.1) * size_x) + o.1)

/-- The function `get_dist` of pdb.c (lines 70-78); `sqrt` is the library square root. -/
def get_dist (sqrt : ℚ → ℚ) (line1 line2 : AtomLine) : ℚ :=
  sqrt ((line1.x - line2.x) * (line1.x - line2.x) + (line1.y - line2.y) * (line1.y - line2.y)
    + (line1.z - line2.z) * (line1.z - line2.z))

/-- The local variables of the neighbour loop of `assign_atom_type` (pdb.c lines 86-90).
The C arrays `bonds` and `dist` are embedded as the list of the entries written so far,
entry `k` of the list being `bonds[k]` resp. `dist[k]`; the arrays are declared with three
elements, and an entry with index 3 in the list is the write to `bonds[3]`, `dist[3]`. -/
structure BondScan where
  num_bonds : Int
  bonds : List Char
  dist : List ℚ
  contains_h : Int
  strange_atoms : Int
deriving DecidableEq

/-- Values of the locals before the neighbour loop (pdb.c lines 86-90). -/
def BondScan.init : BondScan :=
  { num_bonds := 0, bonds := [], dist := [], contains_h := 0, strange_atoms := 0 }

/-- Body of the neighbour loop for one line `het[it_h2]` with `it_h2 != it_h`
(pdb.c lines 93-101); line 102-104 only prints. -/
def scan_step (sqrt : ℚ → ℚ) (self : AtomLine) (st : BondScan) (other : AtomLine) : BondScan :=
  let dist_c := get_dist sqrt self other
  if st.num_bonds < 4 ∧ dist_c < upper_limit then
    let b := other.c13
    { num_bonds := st.num_bonds + 1
      bonds := st.bonds ++ [b]
      dist := st.dist ++ [dist_c]
      contains_h := if b = 'H' then 1 else st.contains_h
      strange_atoms :=
        if b ≠ 'C' ∧ b ≠ 'N' ∧ b ≠ 'O' ∧ b ≠ 'P' ∧ b ≠ 'F' ∧ b ≠ 'L' ∧ b ≠ 'I' ∧ b ≠ 'R'
        then 1 else st.strange_atoms }
  else st

/-- The neighbour loop `for(it_h2 = 0; it_h2 < size_h; it_h2++)` (pdb.c lines 91-106),
run on the lines from index `it_h2` on; the line with index `it_h` is skipped. -/
def scan_loop (sqrt : ℚ → ℚ) (self : AtomLine) (it_h : Nat) :
    Nat → List AtomLine → BondScan → BondScan
  | _, [], st => st
  | it_h2, other :: rest, st =>
    scan_loop sqrt self it_h (it_h2 + 1) rest
      (if it_h2 ≠ it_h then scan_step sqrt self st other else st)

/-- The decision of `assign_atom_type` for a nitrogen or an oxygen once the neighbour loop
is done (pdb.c lines 108-146).  The result is the value written to `atom_type[it_h]`, or
`none` on the two paths that only print and write nothing (lines 130 and 142). -/
def classify_n_o (self : AtomLine) (st : BondScan) : Option Int :=
  let bonds0 := st.bonds.headD (Char.ofNat 0)
  let dist0 := st.dist.headD 0
  if (self.c12 = ' ' ∧ self.c13 = 'F') ∨ (self.c12 = 'C' ∧ self.c13 = 'L')
      ∨ (self.c12 = ' ' ∧ self.c13 = 'I') ∨ (self.c12 = 'B' ∧ self.c13 = 'R') then some ACCEPTOR
  else if (self.c13 = 'N' ∧ st.num_bonds = 3 ∧ st.contains_h = 0)
      ∨ (self.c13 = 'O' ∧ st.num_bonds = 2 ∧ st.contains_h = 0) then some NONE
  else if st.num_bonds = 0 then some NONE
  else if st.strange_atoms = 1 then some NONE
  else if self.c13 = 'O' then
    if st.num_bonds = 1 then
      if bonds0 = 'C' then
        if c_o_2 - dist0 < dist0 - co_carb then some DONOR else some ACCEPTOR
      else if bonds0 = 'O' then some NONE
      else if bonds0 = 'N' then
        if n_2_o_2 - dist0 < dist0 - no3_minus then some DONOR else some ACCEPTOR
      else if bonds0 = 'P' then some ACCEPTOR
      else none
    else some NONE
  else if self.c13 = 'N' then
    if st.num_bonds = 2 then some BOTH
    else if bonds0 = 'C' then
      if c_sp3_n_3 - dist0 < dist0 - c_ar_sp3_n_4_2 then some DONOR else some BOTH
    else if bonds0 = 'O' then some NONE
    else if bonds0 = 'N' then some NONE
    else none
  else none

/-- Body of the outer loop of `assign_atom_type` for the line `het[it_h]`
(pdb.c lines 83-147): the value written to `atom_type[it_h]`, or `none` when no
value is written. -/
def classify (sqrt : ℚ → ℚ) (het : List AtomLine) (it_h : Nat) (self : AtomLine) : Option Int :=
  if self.c13 = 'C' then some NONE
  else if self.c13 = 'N' ∨ self.c13 = 'O' then
    classify_n_o self (scan_loop sqrt self it_h 0 het BondScan.init)
  else some NONE

/-- The outer loop `for(it_h = 0; it_h < size_h; it_h++)` of `assign_atom_type`, run on
the lines from index `it_h` on.  `atom_type` is the caller's array; an entry for which
nothing is written keeps the value it had. -/
def assign_loop (sqrt : ℚ → ℚ) (het : List AtomLine) :
    Nat → List AtomLine → List Int → List Int
  | _, [], atom_type => atom_type
  | it_h, self :: rest, atom_type =>
    assign_loop sqrt het (it_h + 1) rest
      (match classify sqrt het it_h self with
       | some t => atom_type.set it_h t
       | none => atom_type)

/-- The function `assign_atom_type` of pdb.c (lines 80-150).  The first argument is the
content of the array `atom_type` on entry, the result is its content on return. -/
def assign_atom_type (sqrt : ℚ → ℚ) (atom_type : List Int) (het : List AtomLine) : List Int :=
  assign_loop sqrt het 0 het atom_type

/-! ## `clashes.c` -/

/-- The atom name `prot_atom_name`: the four characters at offsets 12..15. -/
def prot_atom_name (prot_line : AtomLine) : List Char :=
  [prot_line.c12, prot_line.c13, prot_line.c14, prot_line.c15]

/-- The residue name `prot_aa`: the three characters at offsets 17..19. -/
def prot_aa (prot_line : AtomLine) : List Char :=
  [prot_line.r17, prot_line.r18, prot_line.r19]

/-- The value of the local `prot_atom_type` of `is_h_bond` (clashes.c lines 96-111).
`strcmp(a, b) == 0` on the copied names is equality of the character lists. -/
def prot_atom_type (prot_line : AtomLine) : Int :=
  let name := prot_atom_name prot_line
  let aa := prot_aa prot_line
  if prot_line.c13 = 'C' ∨ prot_line.c13 = 'S' then NONE
  else if prot_line.c13 = 'N' then
    if name = " N  ".toList
        ∨ ((name = " NH1".toList ∨ name = " NH2".toList) ∧ aa = "ARG".toList)
        ∨ (name = " ND2".toList ∧ aa = "ASN".toList)
        ∨ (name = " NE2".toList ∧ aa = "GLN".toList) then DONOR
    else if (name = " NE1".toList ∧ aa = "TRP".toList)
        ∨ (name = " NE2".toList ∧ aa = "HIS".toList) then NONE
    else if name = " ND1".toList ∧ aa = "HIS".toList then DONOR
    else if name = " NZ ".toList ∧ aa = "LYS".toList then DONOR
    else if name = " NE ".toList ∧ aa = "ARG".toList then DONOR
    else if (name = " NE1".toList ∧ aa = "TRP".toList)
        ∨ (name = " NE2".toList ∧ aa = "HIS".toList) then DONOR
    else NONE
  else if prot_line.c13 = 'O' then
    if name = " O  ".toList
        ∨ (name = " OD1".toList ∧ aa = "ASN".toList)
        ∨ (name = " OE1".toList ∧ aa = "GLN".toList) then ACCEPTOR
    else if (name = " OG ".toList ∧ aa = "SER".toList)
        ∨ (name = " OG1".toList ∧ aa = "THR".toList)
        ∨ (name = " OH ".toList ∧ aa = "TYR".toList) then DONOR
    else if name = " OXT".toList
        ∨ ((name = " OD1".toList ∨ name = " OD2".toList) ∧ aa = "ASP".toList)
        ∨ ((name = " OE1".toList ∨ name = " OE2".toList) ∧ aa = "GLU".toList) then ACCEPTOR
    else NONE
  else NONE

/-- The function `is_h_bond` of clashes.c (lines 88-116). -/
def is_h_bond (_het_line prot_line : AtomLine) (het_atom_type : Int) : Int :=
  let prot_atom_type := prot_atom_type prot_line
  if (het_atom_type = DONOR ∧ prot_atom_type = ACCEPTOR)
      ∨ (het_atom_type = ACCEPTOR ∧ prot_atom_type = DONOR) then 1
  else if het_atom_type = BOTH
      ∧ (prot_atom_type = DONOR ∨ prot_atom_type = ACCEPTOR ∨ prot_atom_type = BOTH) then 1
  else if prot_atom_type = BOTH
      ∧ (het_atom_type = DONOR ∨ het_atom_type = ACCEPTOR ∨ het_atom_type = BOTH) then 1
  else 0

/-- Reading `nodes[i]` for an `int` index: defined inside the allocated block only. -/
def nodes_read (nodes : List Int) (i : Int) : Option Int :=
  if 0 ≤ i ∧ i < nodes.length then nodes[i.toNat]? else none

/-- Writing `nodes[i] = v` for an `int` index: defined inside the allocated block only. -/
def nodes_write (nodes : List Int) (i : Int) (v : Int) : Option (List Int) :=
  if 0 ≤ i ∧ i < nodes.length then some (nodes.set i.toNat v) else none

/-- The loop of `calc_intersection` (clashes.c lines 13-28) on the protein lines from
index `it_p` on, `intersection` being the running count.  `sub it_p p` is what
`atof(sub)` returns in lines 14-20 and `sub_node it_p p` what it returns inside the call
of `find_node`.  The result is `none` when `nodes` is read outside its block. -/
def calc_intersection_loop (fl : ℚ → ℚ) (sub sub_node : Nat → AtomLine → SubRead)
    (nodes : List Int) (step : ℚ) (size_x size_y size_z : Int) (minmax : MinMax) :
    Nat → List AtomLine → Int → Option Int
  | _, [], intersection => some intersection
  | it_p, p :: rest, intersection =>
    if (sub it_p p).x > minmax.minx ∧ (sub it_p p).x < minmax.maxx
        ∧ (sub it_p p).y > minmax.miny ∧ (sub it_p p).y < minmax.maxy
        ∧ (sub it_p p).z > minmax.minz ∧ (sub it_p p).z < minmax.maxz then
      match nodes_read nodes
          (find_node fl (sub_node it_p p) minmax.minx minmax.miny minmax.minz step
            size_x size_y size_z) with
      | none => none
      | some v =>
        calc_intersection_loop fl sub sub_node nodes step size_x size_y size_z minmax
          (it_p + 1) rest (if v = 1 then intersection + 1 else intersection)
    else
      calc_intersection_loop fl sub sub_node nodes step size_x size_y size_z minmax
        (it_p + 1) rest intersection

/-- The function `calc_intersection` of clashes.c (lines 10-30). -/
def calc_intersection (fl : ℚ → ℚ) (sub sub_node : Nat → AtomLine → SubRead)
    (prot : List AtomLine) (nodes : List Int) (step : ℚ) (size_x size_y size_z : Int)
    (minmax : MinMax) : Option Int :=
  calc_intersection_loop fl sub sub_node nodes step size_x size_y size_z minmax 0 prot 0

/-- The locals of `calc_contacts` that the double loop updates (clashes.c lines 33-44). -/
structure ContactState where
  contacts : Int
  h_bonds : Int
  vdw : Int
  het_h_bonds : List Int
  prot_h_bonds : List Int
deriving DecidableEq

/-- Body of the double loop of `calc_contacts` for the pair `prot[it_p]`, `het[it_h]`
(clashes.c lines 47-77).  The coordinates are parsed in place by `atof(line + 30)`; the
bounds `minmax[..] - cutoff`, `minmax[..] + cutoff`, the squared distance `d` and
`cutoff * cutoff` are computed in `double` arithmetic, one rounding `fl` per operation. -/
def contact_step (fl : ℚ → ℚ) (atom_type : List Int) (cutoff : ℚ) (minmax : MinMax)
    (it_p : Nat) (p : AtomLine) (it_h : Nat) (h : AtomLine) (st : ContactState) :
    ContactState :=
  if p.c76 = ' ' ∧ p.x > fl (minmax.minx - cutoff) ∧ p.x < fl (minmax.maxx + cutoff)
      ∧ p.y > fl (minmax.miny - cutoff) ∧ p.y < fl (minmax.maxy + cutoff)
      ∧ p.z > fl (minmax.minz - cutoff) ∧ p.z < fl (minmax.maxz + cutoff) then
    let d := fl (fl (fl (fl (p.x - h.x) * fl (p.x - h.x))
        + fl (fl (p.y - h.y) * fl (p.y - h.y))) + fl (fl (p.z - h.z) * fl (p.z - h.z)))
    if d < fl (cutoff * cutoff) then
      let st1 := { st with contacts := st.contacts + 1 }
      if h.c76 = ' ' ∧ p.c76 = ' ' ∧ h.c77 = 'C' ∧ p.c77 = 'C' then
        { st1 with vdw := st1.vdw + 1 }
      else if st1.het_h_bonds.getD it_h 0 = 0 ∧ st1.prot_h_bonds.getD it_p 0 = 0 then
        { st1 with
          h_bonds := st1.h_bonds + is_h_bond h p (atom_type.getD it_h 0)
          het_h_bonds := st1.het_h_bonds.set it_h 1
          prot_h_bonds := st1.prot_h_bonds.set it_p 1 }
      else st1
    else st
  else st

/-- The inner loop `for(it_h = 0; it_h < size_h; it_h++)` of `calc_contacts` for one
protein line, run on the ligand lines from index `it_h` on. -/
def contacts_loop_h (fl : ℚ → ℚ) (atom_type : List Int) (cutoff : ℚ) (minmax : MinMax)
    (it_p : Nat) (p : AtomLine) : Nat → List AtomLine → ContactState → ContactState
  | _, [], st => st
  | it_h, h :: rest, st =>
    contacts_loop_h fl atom_type cutoff minmax it_p p (it_h + 1) rest
      (contact_step fl atom_type cutoff minmax it_p p it_h h st)

/-- The outer loop `for(it_p = 0; it_p < size_p; it_p++)` of `calc_contacts`, run on the
protein lines from index `it_p` on. -/
def contacts_loop_p (fl : ℚ → ℚ) (atom_type : List Int) (het : List AtomLine) (cutoff : ℚ)
    (minmax : MinMax) : Nat → List AtomLine → ContactState → ContactState
  | _, [], st => st
  | it_p, p :: rest, st =>
    contacts_loop_p fl atom_type het cutoff minmax (it_p + 1) rest
      (contacts_loop_h fl atom_type cutoff minmax it_p p 0 het st)

/-- The function `calc_contacts` of clashes.c (lines 32-86).  `uninit k` is the value the
freshly allocated block `atom_type` holds at index `k` before `assign_atom_type` runs.
The result is the triple written to `*cont_p`, `*h_bond_p`, `*vdw_p`. -/
def calc_contacts (fl sqrt : ℚ → ℚ) (uninit : Nat → Int) (prot het : List AtomLine)
    (cutoff : ℚ) (minmax : MinMax) : Int × Int × Int :=
  let atom_type := assign_atom_type sqrt ((List.range het.length).map uninit) het
  let st := contacts_loop_p fl atom_type het cutoff minmax 0 prot
    { contacts := 0, h_bonds := 0, vdw := 0
      het_h_bonds := List.replicate het.length 0
      prot_h_bonds := List.replicate prot.length 0 }
  (st.contacts, st.h_bonds, st.vdw)

/-- The grid of `main`: the three sizes and the array `nodes`. -/
structure Grid where
  size_x : Int
  size_y : Int
  size_z : Int
  nodes : List Int
deriving DecidableEq

/-- The reads of `atof(sub)` in one run of `main`, one family for each loop that copies
lines into `sub`: `get_minmax` on the ligand, `find_node` called by `main` on the ligand,
`calc_intersection` on the protein, and `find_node` called by `calc_intersection`. -/
structure Reads where
  minmax : Nat → AtomLine → SubRead
  mark : Nat → AtomLine → SubRead
  box : Nat → AtomLine → SubRead
  node : Nat → AtomLine → SubRead

/-- The reads of a run in which every copy is followed by a byte that ends the number. -/
def terminated_reads : Reads :=
  { minmax := terminated, mark := terminated, box := terminated, node := terminated }

/-- The loop of `main` that marks the cell of every ligand line (clashes.c lines
229-231), on the lines from index `it_h` on; `sub it_h h` is what `atof(sub)` returns
inside the call of `find_node`.  The result is `none` when `nodes` is written outside its
block. -/
def main_mark (fl : ℚ → ℚ) (sub : Nat → AtomLine → SubRead) (minmax : MinMax) (step : ℚ)
    (size_x size_y size_z : Int) : Nat → List AtomLine → List Int → Option (List Int)
  | _, [], nodes => some nodes
  | it_h, h :: rest, nodes =>
    match nodes_write nodes
        (find_node fl (sub it_h h) minmax.minx minmax.miny minmax.minz step
          size_x size_y size_z) 1 with
    | none => none
    | some nodes1 => main_mark fl sub minmax step size_x size_y size_z (it_h + 1) rest nodes1

/-- The grid construction of `main` (clashes.c lines 218-231) from the ligand lines.  The
sizes and `node_num` are computed in `int` arithmetic; `nodes` is a block of `node_num`
cells, and of no cell when `node_num` is negative (`malloc` fails then, and the code does
not test its result).  `malloc` is taken to return a block whenever `node_num` is not
negative. -/
def main_grid (fl : ℚ → ℚ) (reads : Reads) (het : List AtomLine) (step : ℚ) : Option Grid :=
  let minmax := get_minmax reads.minmax het
  let size_x := wrap_int (c_int (fl (fl (minmax.maxx - minmax.minx) / step)) + 2)
  let size_y := wrap_int (c_int (fl (fl (minmax.maxy - minmax.miny) / step)) + 2)
  let size_z := wrap_int (c_int (fl (fl (minmax.maxz - minmax.minz) / step)) + 2)
  let node_num := wrap_int (wrap_int (size_x * size_y) * size_z)
  match main_mark fl reads.mark minmax step size_x size_y size_z 0 het
      (List.replicate node_num.toNat 0) with
  | none => none
  | some nodes => some { size_x := size_x, size_y := size_y, size_z := size_z, nodes := nodes }

/-- The value of `intersection` in `main` after line 234 of clashes.c: the count of
`calc_intersection` on the grid of `main`, and the `double` product of that count with
`step`, three times. -/
def main_intersection (fl : ℚ → ℚ) (reads : Reads) (prot het : List AtomLine) (step : ℚ) :
    Option (Int × ℚ) :=
  match main_grid fl reads het step with
  | none => none
  | some g =>
    match calc_intersection fl reads.box reads.node prot g.nodes step
        g.size_x g.size_y g.size_z (get_minmax reads.minmax het) with
    | none => none
    | some n => some (n, fl (fl (fl ((n : ℚ) * step) * step) * step))

/-- The scoring step of `main` after `intersection` is known (clashes.c lines 235-241):
the three values start at -1 and `calc_contacts` runs only when
`intersection / size_h < 2`, `size_h` being the number of ligand lines.  The quotient is
the one of rational numbers; for `size_h = 0` the C code divides by zero. -/
def main_contacts (fl sqrt : ℚ → ℚ) (uninit : Nat → Int) (prot het : List AtomLine)
    (cutoff : ℚ) (minmax : MinMax) (intersection : ℚ) : Int × Int × Int :=
  if intersection / (het.length : ℚ) < 2 then
    calc_contacts fl sqrt uninit prot het cutoff minmax
  else (-1, -1, -1)

/-- The computation of `main` from the two lists of lines to the four values handed to
`append_result` (clashes.c lines 218-241): `intersection`, `contacts`, `h_bonds`, `vdw`. -/
def main_score (fl sqrt : ℚ → ℚ) (uninit : Nat → Int) (reads : Reads)
    (prot het : List AtomLine) (step cutoff : ℚ) : Option (ℚ × Int × Int × Int) :=
  match main_intersection fl reads prot het step with
  | none => none
  | some r =>
    some (r.2,
      main_contacts fl sqrt uninit prot het cutoff (get_minmax reads.minmax het) r.2)

/-! ## A concrete square root for running the code on examples -/

/-- Newton iteration for the integer square root, with a step budget. -/
def isqrt_iter : Nat → Nat → Nat → Nat
  | 0, _, x => x
  | fuel + 1, n, x =>
    let y := (x + n / x) / 2
    if y < x then isqrt_iter fuel n y else x

/-- Integer square root by Newton iteration from `n`, with a budget of 200 steps. -/
def isqrt (n : Nat) : Nat := if n = 0 then 0 else isqrt_iter 200 n n

/-- Square root computed to six decimals with `isqrt`.  It stands for the library `sqrt`
when the code is run on an example; the examples use distances that it returns exactly. -/
def sqrt6 (q : ℚ) : ℚ := (isqrt (⌊q * 1000000000000⌋).toNat : ℚ) / 1000000

/-! ## A concrete `atof` for running the code on examples -/

/-- Reading of decimal digits: `n` is the number read so far and `k` the count of digits
read; the result is the number, the count and the text that is left. -/
def read_digits : List Char → Nat → Nat → Nat × Nat × List Char
  | [], n, k => (n, k, [])
  | c :: cs, n, k =>
    if c.isDigit then read_digits cs (10 * n + (c.toNat - 48)) (k + 1) else (n, k, c :: cs)

/-- The decimal number that the library function `atof` reads from text of the form:
blanks, an optional sign, digits, an optional point and digits.  Reading stops at the
first byte that does not continue the number; `atof` returns the double nearest to the
number read.  Exponents and the other forms that `atof` accepts are left out. -/
def atof_decimal (s : List Char) : ℚ :=
  let t := s.dropWhile (fun c => c = ' ')
  let sign_rest : Bool × List Char :=
    match t with
    | '-' :: r => (true, r)
    | '+' :: r => (false, r)
    | r => (false, r)
  let int_part := read_digits sign_rest.2 0 0
  let frac_part : Nat × Nat × List Char :=
    match int_part.2.2 with
    | '.' :: r => read_digits r 0 0
    | _ => (0, 0, [])
  let v : ℚ := (int_part.1 : ℚ) + (frac_part.1 : ℚ) / (10 : ℚ) ^ frac_part.2.1
  if sign_rest.1 then -v else v

end Clashes


namespace Clashes

/-! ## Example inputs -/

/-- A line with the atom name `n` (four characters), the residue name `r` (three
characters), the coordinates `x`, `y`, `z` and the element character `e` in column 77;
column 76 is blank. -/
def line (n r : String) (x y z : ℚ) (e : Char) : AtomLine :=
  { c12 := n.toList.getD 0 ' ', c13 := n.toList.getD 1 ' ', c14 := n.toList.getD 2 ' '
    c15 := n.toList.getD 3 ' '
    r17 := r.toList.getD 0 ' ', r18 := r.toList.getD 1 ' ', r19 := r.toList.getD 2 ' '
    x := x, y := y, z := z, c76 := ' ', c77 := e }

/-- A ligand of one oxygen whose three coordinates are negative. -/
def negative_ligand : List AtomLine := [line " O1 " "LIG" (-1) (-2) (-3) 'O']

/-- A ligand of one fluorine, its code ` F` in columns 12-13. -/
def fluorine_ligand : List AtomLine := [line " F  " "LIG" 0 0 0 'F']

/-- A ligand of one chlorine, its code `CL` in columns 12-13. -/
def chlorine_ligand : List AtomLine := [line "CL  " "LIG" 0 0 0 'L']

/-- A ligand of an oxygen and a carbon at distance 1.413, the value of `c_o_2`. -/
def hydroxyl_ligand : List AtomLine :=
  [line " O1 " "LIG" 0 0 0 'O', line " C1 " "LIG" (1413 / 1000) 0 0 'C']

/-- A ligand of an oxygen and a carbon at distance 1.4: the oxygen is a `DONOR`. -/
def donor_ligand : List AtomLine :=
  [line " O1 " "LIG" 0 0 0 'O', line " C1 " "LIG" (14 / 10) 0 0 'C']

/-- Two protein atoms at distance 3 of the oxygen of `donor_ligand`: an alpha carbon
first, a backbone carbonyl oxygen second. -/
def carbon_then_carbonyl : List AtomLine :=
  [line " CA " "ALA" 0 3 0 'C', line " O  " "ALA" 0 (-3) 0 'O']

/-- A ligand of a nitrogen with four atoms at distance 1.5, the carbon first. -/
def crowded_ligand : List AtomLine :=
  [line " N1 " "LIG" 0 0 0 'N', line " C1 " "LIG" (3 / 2) 0 0 'C',
    line " O1 " "LIG" (-3 / 2) 0 0 'O', line " O2 " "LIG" 0 (3 / 2) 0 'O',
    line " O3 " "LIG" 0 (-3 / 2) 0 'O']

/-- The lines of `crowded_ligand` with the carbon and the first oxygen exchanged. -/
def crowded_ligand_swapped : List AtomLine :=
  [line " N1 " "LIG" 0 0 0 'N', line " O1 " "LIG" (-3 / 2) 0 0 'O',
    line " C1 " "LIG" (3 / 2) 0 0 'C', line " O2 " "LIG" 0 (3 / 2) 0 'O',
    line " O3 " "LIG" 0 (-3 / 2) 0 'O']

/-- A ligand of two atoms whose coordinates are negative, between -10 and -5. -/
def corner_ligand : List AtomLine :=
  [line " O1 " "LIG" (-10) (-10) (-10) 'O', line " C1 " "LIG" (-5) (-5) (-5) 'C']

/-- A protein of one atom at -4.5 on each axis, beyond every atom of `corner_ligand`. -/
def outside_protein : List AtomLine := [line " CA " "ALA" (-9 / 2) (-9 / 2) (-9 / 2) 'C']

/-- A protein of one iron atom, element code `FE` in columns 76-77, at distance 1 of
the origin. -/
def iron_protein : List AtomLine :=
  [{ line "FE  " "HEM" 1 0 0 'E' with c76 := 'F' }]

/-- A ligand of one carbon at the origin. -/
def carbon_ligand : List AtomLine := [line " C1 " "LIG" 0 0 0 'C']

/-- A protein of one alpha carbon at distance 1 of the origin. -/
def carbon_protein : List AtomLine := [line " CA " "ALA" 1 0 0 'C']

/-- A ligand of an oxygen and a fluorine at distance 1.4. -/
def fluoro_oxygen_ligand : List AtomLine :=
  [line " O1 " "LIG" 0 0 0 'O', line " F1 " "LIG" (14 / 10) 0 0 'F']

/-- A ligand of a nitrogen and a phosphorus at distance 1.5. -/
def phospho_nitrogen_ligand : List AtomLine :=
  [line " N1 " "LIG" 0 0 0 'N', line " P1 " "LIG" (3 / 2) 0 0 'P']

/-- A ligand of a nitrogen, a hydrogen at distance 1 and a carbon at distance 1.5. -/
def amine_ligand : List AtomLine :=
  [line " N1 " "LIG" 0 0 0 'N', line " H1 " "LIG" 1 0 0 'H',
    line " C1 " "LIG" 0 (3 / 2) 0 'C']

/-! ### Inputs held as doubles

The examples below give a coordinate, a step or a cutoff that is not a dyadic number
through `round_double`, as the machine holds it after `atof`. -/

/-- A ligand of one carbon at (1.000, 1.200, 0.000): columns 31-38 of the line hold the
text `   1.000`. -/
def unit_ligand : List AtomLine := [line " C1 " "LIG" 1 (round_double (12 / 10)) 0 'C']

/-- The eight bytes of the double 1.2 in memory (little endian): six bytes `0x33`, the
character `3`, then `0xF3` and `0x3F`. -/
def bytes_of_1_2 : List Char :=
  ['3', '3', '3', '3', '3', '3', Char.ofNat 0xF3, Char.ofNat 0x3F]

/-- The reads of a run of `get_minmax` in which the bytes of the double 1.2 follow `sub`
when the x field `   1.000` has been copied: `atof(sub)` reads `   1.000333333` and stops
at the byte `0xF3`.  The y and the z read are the numbers of the line. -/
def leaked_read : Nat → AtomLine → SubRead := fun _ s =>
  { x := round_double (atof_decimal ("   1.000".toList ++ bytes_of_1_2)), y := s.y, z := s.z }

/-- A ligand of two carbons at (0, 0, 0) and (20.000, 20.000, 20.000). -/
def far_ligand : List AtomLine :=
  [line " C1 " "LIG" 0 0 0 'C', line " C2 " "LIG" 20 20 20 'C']

/-- The step 0.01 as the machine holds it: the double nearest to 1/100. -/
def step_0_01 : ℚ := round_double (1 / 100)

/-- A ligand of three atoms whose box is 0.1875 wide on x and y and 59652325 long on z. -/
def long_ligand : List AtomLine :=
  [line " C1 " "LIG" 0 0 0 'C', line " C2 " "LIG" 0 0 (1 / 2) 'C',
    line " C3 " "LIG" (1875 / 10000) (1875 / 10000) 59652325 'C']

/-- A protein of one atom strictly inside the box of `long_ligand`, one unit of z below
its far corner. -/
def long_protein : List AtomLine := [line " CA " "ALA" (1 / 8) (1 / 8) 59652324 'C']

/-- A ligand of one carbon at (-20.000, 0.000, 0.000). -/
def edge_ligand : List AtomLine := [line " C1 " "LIG" (-20) 0 0 'C']

/-- A protein of one alpha carbon whose x is the double nearest to -23.2, as `atof`
returns it for the text ` -23.200`. -/
def edge_protein : List AtomLine := [line " CA " "ALA" (round_double (-232 / 10)) 0 0 'C']

/-- The cutoff 3.2 as the machine holds it: the double nearest to 32/10. -/
def cutoff_3_2 : ℚ := round_double (32 / 10)

/-- A protein of one atom at the double nearest to -4.995 on each axis. -/
def inside_protein : List AtomLine :=
  [line " CA " "ALA" (round_double (-4995 / 1000)) (round_double (-4995 / 1000))
    (round_double (-4995 / 1000)) 'C']

/-! ## Statement side -/

/-- The three properties of the rounding of the machine that the theorems use: it is
monotone, it leaves its own results unchanged and it commutes with negation. -/
structure IsRounding (fl : ℚ → ℚ) : Prop where
  mono : ∀ a b : ℚ, a ≤ b → fl a ≤ fl b
  idem : ∀ a : ℚ, fl (fl a) = fl a
  neg : ∀ a : ℚ, fl (-a) = - fl a

/-- Statement side of C5, C7 and C17: the size of the grid on one axis when the `int`
computation does not overflow, `trunc((hi - lo) / step) + 2` with the quotient computed in
`double` arithmetic. -/
def axis_cells (fl : ℚ → ℚ) (lo hi step : ℚ) : Int := trunc (fl (fl (hi - lo) / step)) + 2

/-- Statement side of C5, C7 and C17: the number of cells of the grid, the product of
the three sizes as integers. -/
def grid_cells (fl : ℚ → ℚ) (minmax : MinMax) (step : ℚ) : Int :=
  axis_cells fl minmax.minx minmax.maxx step * axis_cells fl minmax.miny minmax.maxy step
    * axis_cells fl minmax.minz minmax.maxz step

/-- Statement side of C5, C7 and C17: the number of cells of the grid is a value of a
32-bit `int`. -/
def grid_fits (fl : ℚ → ℚ) (minmax : MinMax) (step : ℚ) : Bool :=
  decide (grid_cells fl minmax step ≤ INT_MAX)

/-- Statement side of C7: the line lies strictly inside the box on all three axes. -/
def strictly_inside (minmax : MinMax) (p : AtomLine) : Bool :=
  decide (p.x > minmax.minx ∧ p.x < minmax.maxx ∧ p.y > minmax.miny ∧ p.y < minmax.maxy
    ∧ p.z > minmax.minz ∧ p.z < minmax.maxz)

/-- Statement side of C7: the cell of the line `p`, a triple of offsets, is the cell of at
least one ligand line. -/
def in_ligand_cell (fl : ℚ → ℚ) (het : List AtomLine) (minmax : MinMax) (step : ℚ)
    (p : AtomLine) : Bool :=
  het.any (fun l =>
    decide (find_node_offsets fl l.sub minmax.minx minmax.miny minmax.minz step
      = find_node_offsets fl p.sub minmax.minx minmax.miny minmax.minz step))

/-- Statement side of C7: the number of protein lines strictly inside the box of the
ligand whose cell is the cell of at least one ligand line. -/
def overlap_count (fl : ℚ → ℚ) (prot het : List AtomLine) (step : ℚ) : Nat :=
  prot.countP (fun p =>
    strictly_inside (get_minmax terminated het) p
      && in_ligand_cell fl het (get_minmax terminated het) step p)

/-- Statement side of C11 and C19 as they are written: the protein line lies strictly
inside the box expanded by `cutoff` on all six sides. -/
def in_expanded_box (minmax : MinMax) (cutoff : ℚ) (p : AtomLine) : Bool :=
  decide (p.x > minmax.minx - cutoff ∧ p.x < minmax.maxx + cutoff
    ∧ p.y > minmax.miny - cutoff ∧ p.y < minmax.maxy + cutoff
    ∧ p.z > minmax.minz - cutoff ∧ p.z < minmax.maxz + cutoff)

/-- Statement side of C11 and C19 as they are written: the squared Euclidean distance of
the two lines is strictly less than `cutoff * cutoff`. -/
def within_cutoff (cutoff : ℚ) (p h : AtomLine) : Bool :=
  decide ((p.x - h.x) * (p.x - h.x) + (p.y - h.y) * (p.y - h.y)
    + (p.z - h.z) * (p.z - h.z) < cutoff * cutoff)

/-- Statement side: the number of pairs of a protein line and a ligand line that satisfy
the test `f`. -/
def pair_count (f : AtomLine → AtomLine → Bool) (prot het : List AtomLine) : Nat :=
  (prot.map (fun p => het.countP (f p))).sum

/-- Statement side of C11 as it is written: a pair counts when the protein line is inside
the expanded box and the pair is within the cutoff. -/
def box_pair (minmax : MinMax) (cutoff : ℚ) (p h : AtomLine) : Bool :=
  in_expanded_box minmax cutoff p && within_cutoff cutoff p h

/-- Statement side of the amended C11, C13 and C19: the protein line lies strictly between
the six bounds `minmax[..] - cutoff` and `minmax[..] + cutoff`, each bound a `double`
difference or sum. -/
def in_rounded_box (fl : ℚ → ℚ) (minmax : MinMax) (cutoff : ℚ) (p : AtomLine) : Bool :=
  decide (p.x > fl (minmax.minx - cutoff) ∧ p.x < fl (minmax.maxx + cutoff)
    ∧ p.y > fl (minmax.miny - cutoff) ∧ p.y < fl (minmax.maxy + cutoff)
    ∧ p.z > fl (minmax.minz - cutoff) ∧ p.z < fl (minmax.maxz + cutoff))

/-- Statement side of the amended C11, C13 and C19: the squared distance of the two
lines, a sum of three `double` squares of `double` differences, is strictly less than the
`double` product `cutoff * cutoff`. -/
def within_rounded_cutoff (fl : ℚ → ℚ) (cutoff : ℚ) (p h : AtomLine) : Bool :=
  decide (fl (fl (fl (fl (p.x - h.x) * fl (p.x - h.x))
      + fl (fl (p.y - h.y) * fl (p.y - h.y))) + fl (fl (p.z - h.z) * fl (p.z - h.z)))
    < fl (cutoff * cutoff))

/-- Statement side of the amended C11, and the counted contact pairs of C13: column 76 of
the protein line is blank, the protein line is inside the box of `in_rounded_box` and the
pair passes the test of `within_rounded_cutoff`. -/
def contact_pair (fl : ℚ → ℚ) (minmax : MinMax) (cutoff : ℚ) (p h : AtomLine) : Bool :=
  decide (p.c76 = ' ')
    && (in_rounded_box fl minmax cutoff p && within_rounded_cutoff fl cutoff p h)

/-- Statement side of C13: both lines have the element code ` C` in columns 76-77. -/
def both_carbon (p h : AtomLine) : Bool :=
  decide (h.c76 = ' ' ∧ p.c76 = ' ' ∧ h.c77 = 'C' ∧ p.c77 = 'C')

/-- Statement side of C12: the log of the pairs of indices `(it_p, it_h)` at which the loop
body changes `h_bonds`, after the loop body has run for this pair. -/
def h_bond_log_step (fl : ℚ → ℚ) (atom_type : List Int) (cutoff : ℚ) (minmax : MinMax)
    (it_p : Nat) (p : AtomLine) (it_h : Nat) (h : AtomLine) (st : ContactState)
    (log : List (Nat × Nat)) : List (Nat × Nat) :=
  if (contact_step fl atom_type cutoff minmax it_p p it_h h st).h_bonds ≠ st.h_bonds then
    log ++ [(it_p, it_h)]
  else log

/-- Statement side of C12: the inner loop of `calc_contacts` together with the log. -/
def contacts_loop_h_log (fl : ℚ → ℚ) (atom_type : List Int) (cutoff : ℚ) (minmax : MinMax)
    (it_p : Nat) (p : AtomLine) :
    Nat → List AtomLine → ContactState × List (Nat × Nat) → ContactState × List (Nat × Nat)
  | _, [], s => s
  | it_h, h :: rest, s =>
    contacts_loop_h_log fl atom_type cutoff minmax it_p p (it_h + 1) rest
      (contact_step fl atom_type cutoff minmax it_p p it_h h s.1,
        h_bond_log_step fl atom_type cutoff minmax it_p p it_h h s.1 s.2)

/-- Statement side of C12: the outer loop of `calc_contacts` together with the log. -/
def contacts_loop_p_log (fl : ℚ → ℚ) (atom_type : List Int) (het : List AtomLine)
    (cutoff : ℚ) (minmax : MinMax) :
    Nat → List AtomLine → ContactState × List (Nat × Nat) → ContactState × List (Nat × Nat)
  | _, [], s => s
  | it_p, p :: rest, s =>
    contacts_loop_p_log fl atom_type het cutoff minmax (it_p + 1) rest
      (contacts_loop_h_log fl atom_type cutoff minmax it_p p 0 het s)

/-- Statement side of C12: the pairs of indices `(it_p, it_h)` at which a run of
`calc_contacts` increments `h_bonds`, in the order of the run. -/
def h_bond_pairs (fl sqrt : ℚ → ℚ) (uninit : Nat → Int) (prot het : List AtomLine)
    (cutoff : ℚ) (minmax : MinMax) : List (Nat × Nat) :=
  (contacts_loop_p_log fl (assign_atom_type sqrt ((List.range het.length).map uninit) het)
    het cutoff minmax 0 prot
    ({ contacts := 0, h_bonds := 0, vdw := 0
       het_h_bonds := List.replicate het.length 0
       prot_h_bonds := List.replicate prot.length 0 }, [])).2

/-- Proof side of C12: what the double loop of `calc_contacts` keeps true of its locals and
of the log, `np` and `nh` being the numbers of protein and of ligand lines.  Every logged
pair is inside the two lists and both its atoms are marked; no index occurs twice on
either side of the log; `h_bonds` is the length of the log. -/
def h_bond_inv (np nh : Nat) (st : ContactState) (log : List (Nat × Nat)) : Prop :=
  st.prot_h_bonds.length = np ∧ st.het_h_bonds.length = nh
  ∧ (∀ pr ∈ log, pr.1 < np ∧ pr.2 < nh
      ∧ st.prot_h_bonds.getD pr.1 0 = 1 ∧ st.het_h_bonds.getD pr.2 0 = 1)
  ∧ (log.map Prod.fst).Nodup ∧ (log.map Prod.snd).Nodup
  ∧ st.h_bonds = (log.length : Int)

/-! # Theorems -/

/-! ## Rounding to binary64 -/

theorem log2_fuel_spec (fuel n : Nat) (h : n ≤ fuel) (h1 : 1 ≤ n) :
    2 ^ log2_fuel fuel n ≤ n ∧ n < 2 ^ (log2_fuel fuel n + 1) := by
  induction fuel generalizing n with
  | zero => omega
  | succ fuel ih =>
    show 2 ^ (if n < 2 then 0 else log2_fuel fuel (n / 2) + 1) ≤ n
      ∧ n < 2 ^ ((if n < 2 then 0 else log2_fuel fuel (n / 2) + 1) + 1)
    by_cases hn : n < 2
    · rw [if_pos hn]
      constructor <;> simp <;> omega
    · rw [if_neg hn]
      obtain ⟨i1, i2⟩ := ih (n / 2) (by omega) (by omega)
      have e1 : 2 ^ (log2_fuel fuel (n / 2) + 1) = 2 ^ log2_fuel fuel (n / 2) * 2 :=
        pow_succ 2 _
      have e2 : 2 ^ (log2_fuel fuel (n / 2) + 1 + 1) = 2 ^ log2_fuel fuel (n / 2) * 2 * 2 := by
        rw [pow_succ, pow_succ]
      rw [e1] at i2
      rw [e1, e2]
      constructor <;> omega

theorem pow2_eq (k : Int) : pow2 k = (2 : ℚ) ^ k := by
  unfold pow2
  by_cases hk : 0 ≤ k
  · rw [if_pos hk]
    obtain ⟨n, rfl⟩ := Int.eq_ofNat_of_zero_le hk
    simp
  · rw [if_neg hk]
    obtain ⟨n, hn⟩ := Int.eq_ofNat_of_zero_le (show 0 ≤ -k by omega)
    have hk2 : k = -(n : Int) := by omega
    subst hk2
    simp

theorem two_zpow_pos (k : Int) : (0 : ℚ) < 2 ^ k := zpow_pos (by norm_num) k

theorem two_zpow_le {m n : Int} (h : m ≤ n) : (2 : ℚ) ^ m ≤ 2 ^ n :=
  zpow_le_zpow_right₀ (by norm_num) h

theorem two_zpow_lt_iff {m n : Int} : (2 : ℚ) ^ m < 2 ^ n ↔ m < n :=
  zpow_lt_zpow_iff_right₀ (by norm_num)

theorem two_zpow_add (m n : Int) : (2 : ℚ) ^ (m + n) = 2 ^ m * 2 ^ n :=
  zpow_add₀ (by norm_num) m n

/-- The binary exponent brackets a positive number. -/
theorem expo_spec (q : ℚ) (hq : 0 < q) : (2 : ℚ) ^ expo q ≤ q ∧ q < 2 ^ (expo q + 1) := by
  have hnum : 0 < q.num := Rat.num_pos.mpr hq
  have hden : 0 < q.den := q.den_pos
  obtain ⟨a1, a2⟩ := log2_fuel_spec q.num.natAbs q.num.natAbs (le_refl _) (by omega)
  obtain ⟨b1, b2⟩ := log2_fuel_spec q.den q.den (le_refl _) hden
  have hq2 : q = (q.num.natAbs : ℚ) / (q.den : ℚ) := by
    have h1 : ((q.num.natAbs : Int) : ℚ) = (q.num : ℚ) := by
      rw [Int.natAbs_of_nonneg hnum.le]
    have h2 : ((q.num.natAbs : Int) : ℚ) = (q.num.natAbs : ℚ) := Int.cast_natCast _
    rw [← h2, h1]
    exact (Rat.num_div_den q).symm
  have hd0 : (0 : ℚ) < (q.den : ℚ) := by exact_mod_cast hden
  have a1q : (2 : ℚ) ^ (log2_fuel q.num.natAbs q.num.natAbs : Int) ≤ (q.num.natAbs : ℚ) := by
    rw [zpow_natCast]; exact_mod_cast a1
  have a2q : (q.num.natAbs : ℚ) < 2 ^ ((log2_fuel q.num.natAbs q.num.natAbs : Int) + 1) := by
    have : ((log2_fuel q.num.natAbs q.num.natAbs : Int) + 1)
        = ((log2_fuel q.num.natAbs q.num.natAbs + 1 : Nat) : Int) := by push_cast; rfl
    rw [this, zpow_natCast]; exact_mod_cast a2
  have b1q : (2 : ℚ) ^ (log2_fuel q.den q.den : Int) ≤ (q.den : ℚ) := by
    rw [zpow_natCast]; exact_mod_cast b1
  have b2q : (q.den : ℚ) < 2 ^ ((log2_fuel q.den q.den : Int) + 1) := by
    have : ((log2_fuel q.den q.den : Int) + 1)
        = ((log2_fuel q.den q.den + 1 : Nat) : Int) := by push_cast; rfl
    rw [this, zpow_natCast]; exact_mod_cast b2
  unfold expo
  generalize (log2_fuel q.num.natAbs q.num.natAbs : Int) = a at a1q a2q ⊢
  generalize (log2_fuel q.den q.den : Int) = b at b1q b2q ⊢
  generalize (q.num.natAbs : ℚ) = n at hq2 a1q a2q
  generalize (q.den : ℚ) = d at hq2 hd0 b1q b2q
  -- upper bound `q < 2 ^ (a - b + 1)` and lower bound `2 ^ (a - b - 1) < q`
  have hup : q < 2 ^ (a - b + 1) := by
    rw [hq2, div_lt_iff₀ hd0]
    calc n < 2 ^ (a + 1) := a2q
      _ = 2 ^ (a - b + 1) * 2 ^ b := by rw [← two_zpow_add]; congr 1; ring
      _ ≤ 2 ^ (a - b + 1) * d := by
        apply mul_le_mul_of_nonneg_left b1q (two_zpow_pos _).le
  have hlo : (2 : ℚ) ^ (a - b - 1) ≤ q := by
    rw [hq2, le_div_iff₀ hd0]
    calc (2 : ℚ) ^ (a - b - 1) * d ≤ 2 ^ (a - b - 1) * 2 ^ (b + 1) := by
          apply mul_le_mul_of_nonneg_left b2q.le (two_zpow_pos _).le
      _ = 2 ^ a := by rw [← two_zpow_add]; congr 1; ring
      _ ≤ n := a1q
  split_ifs with hc
  · rw [pow2_eq] at hc
    exact ⟨hc, hup⟩
  · rw [pow2_eq] at hc
    refine ⟨hlo, ?_⟩
    rw [show a - b - 1 + 1 = a - b by ring]
    exact not_le.mp hc

theorem expo_unique (q : ℚ) (hq : 0 < q) (k : Int) (h1 : (2 : ℚ) ^ k ≤ q)
    (h2 : q < 2 ^ (k + 1)) : expo q = k := by
  obtain ⟨e1, e2⟩ := expo_spec q hq
  have a : k < expo q + 1 := two_zpow_lt_iff.mp (h1.trans_lt e2)
  have b : expo q < k + 1 := two_zpow_lt_iff.mp (e1.trans_lt h2)
  omega

theorem expo_mono (a b : ℚ) (ha : 0 < a) (hab : a ≤ b) : expo a ≤ expo b := by
  obtain ⟨a1, -⟩ := expo_spec a ha
  obtain ⟨-, b2⟩ := expo_spec b (ha.trans_le hab)
  have : expo a < expo b + 1 := two_zpow_lt_iff.mp ((a1.trans hab).trans_lt b2)
  omega

theorem round_even_bounds (q : ℚ) : ⌊q⌋ ≤ round_even q ∧ round_even q ≤ ⌊q⌋ + 1 := by
  unfold round_even
  split_ifs <;> constructor <;> omega

theorem round_even_intCast (n : Int) : round_even (n : ℚ) = n := by
  unfold round_even
  rw [Int.floor_intCast, sub_self, if_pos (by norm_num)]

theorem round_even_mono (a b : ℚ) (hab : a ≤ b) : round_even a ≤ round_even b := by
  have hf : ⌊a⌋ ≤ ⌊b⌋ := Int.floor_mono hab
  rcases hf.lt_or_eq with hlt | heq
  · have h1 := (round_even_bounds a).2
    have h2 := (round_even_bounds b).1
    omega
  · unfold round_even
    rw [← heq]
    have hr : a - ⌊a⌋ ≤ b - ⌊a⌋ := by linarith
    split_ifs <;> first | omega | (exfalso; linarith)

theorem ulp_pos (q : ℚ) : 0 < ulp q := by
  unfold ulp; rw [pow2_eq]; exact two_zpow_pos _

theorem ulp_eq (q : ℚ) : ulp q = (2 : ℚ) ^ (max (expo q) (-1022) - 52) := by
  unfold ulp; rw [pow2_eq]

theorem two_pow_53 : (((2 : Int) ^ 53 : Int) : ℚ) = (2 : ℚ) ^ (53 : Int) := by norm_num

theorem two_pow_52 : (((2 : Int) ^ 52 : Int) : ℚ) = (2 : ℚ) ^ (52 : Int) := by norm_num

/-- The quotient of a positive number by its spacing lies below `2 ^ 53`, and at or above
`2 ^ 52` for a number in the normal range. -/
theorem div_ulp_bounds (q : ℚ) (hq : 0 < q) :
    0 < q / ulp q ∧ q / ulp q < 2 ^ (53 : Int)
    ∧ (-1022 ≤ expo q → (2 : ℚ) ^ (52 : Int) ≤ q / ulp q) := by
  obtain ⟨e1, e2⟩ := expo_spec q hq
  have hu := ulp_pos q
  refine ⟨div_pos hq hu, ?_, ?_⟩
  · rw [div_lt_iff₀ hu, ulp_eq, ← two_zpow_add]
    apply e2.trans_le
    apply two_zpow_le
    have := le_max_left (expo q) (-1022)
    omega
  · intro he
    rw [le_div_iff₀ hu, ulp_eq, ← two_zpow_add, max_eq_left he]
    rw [show (52 : Int) + (expo q - 52) = expo q by ring]
    exact e1

theorem round_pos_bounds (q : ℚ) (hq : 0 < q) :
    0 ≤ round_pos q ∧ round_pos q ≤ 2 ^ (max (expo q) (-1022) + 1)
    ∧ (-1022 ≤ expo q → (2 : ℚ) ^ expo q ≤ round_pos q) := by
  obtain ⟨d0, d1, d2⟩ := div_ulp_bounds q hq
  have hu := ulp_pos q
  have n0 : (0 : Int) ≤ round_even (q / ulp q) := by
    have := (round_even_bounds (q / ulp q)).1
    have := Int.floor_nonneg.mpr d0.le
    omega
  have n1 : round_even (q / ulp q) ≤ (2 : Int) ^ 53 := by
    have := round_even_mono _ _ d1.le
    rw [← two_pow_53, round_even_intCast] at this
    exact this
  refine ⟨?_, ?_, ?_⟩
  · exact mul_nonneg (by exact_mod_cast n0) hu.le
  · have h1 : (round_even (q / ulp q) : ℚ) ≤ 2 ^ (53 : Int) := by
      rw [← two_pow_53]; exact_mod_cast n1
    calc round_pos q = (round_even (q / ulp q) : ℚ) * ulp q := rfl
      _ ≤ 2 ^ (53 : Int) * ulp q := mul_le_mul_of_nonneg_right h1 hu.le
      _ = 2 ^ (max (expo q) (-1022) + 1) := by
        rw [ulp_eq, ← two_zpow_add]; congr 1; ring
  · intro he
    have n2 : (2 : Int) ^ 52 ≤ round_even (q / ulp q) := by
      have := round_even_mono _ _ (d2 he)
      rw [← two_pow_52, round_even_intCast] at this
      exact this
    have h1 : (2 : ℚ) ^ (52 : Int) ≤ (round_even (q / ulp q) : ℚ) := by
      rw [← two_pow_52]; exact_mod_cast n2
    calc (2 : ℚ) ^ expo q = 2 ^ (52 : Int) * ulp q := by
          rw [ulp_eq, max_eq_left he, ← two_zpow_add]; congr 1; ring
      _ ≤ (round_even (q / ulp q) : ℚ) * ulp q := mul_le_mul_of_nonneg_right h1 hu.le
      _ = round_pos q := rfl

theorem round_pos_mono (a b : ℚ) (ha : 0 < a) (hab : a ≤ b) : round_pos a ≤ round_pos b := by
  have hb : 0 < b := ha.trans_le hab
  have he := expo_mono a b ha hab
  have he2 : max (expo a) (-1022) ≤ max (expo b) (-1022) := max_le_max he (le_refl _)
  rcases he2.lt_or_eq with hlt | heq
  · have hbn : -1022 ≤ expo b := by
      rcases le_total (expo b) (-1022) with h | h
      · rw [max_eq_right h] at hlt
        have := le_max_right (expo a) (-1022)
        omega
      · exact h
    have h1 := (round_pos_bounds a ha).2.1
    have h2 := (round_pos_bounds b hb).2.2 hbn
    rw [max_eq_left hbn] at hlt
    exact h1.trans ((two_zpow_le (by omega)).trans h2)
  · have hu : ulp a = ulp b := by rw [ulp_eq, ulp_eq, heq]
    unfold round_pos
    rw [hu]
    apply mul_le_mul_of_nonneg_right _ (ulp_pos b).le
    have := round_even_mono (a / ulp b) (b / ulp b)
      (div_le_div_of_nonneg_right hab (ulp_pos b).le)
    exact_mod_cast this

/-- Rounding a positive number gives zero or a positive number that rounding leaves
unchanged. -/
theorem round_pos_idem (q : ℚ) (hq : 0 < q) :
    round_pos q = 0 ∨ (0 < round_pos q ∧ round_pos (round_pos q) = round_pos q) := by
  obtain ⟨d0, d1, d2⟩ := div_ulp_bounds q hq
  have hu := ulp_pos q
  have n0 : (0 : Int) ≤ round_even (q / ulp q) := by
    have := (round_even_bounds (q / ulp q)).1
    have := Int.floor_nonneg.mpr d0.le
    omega
  have n1 : round_even (q / ulp q) ≤ (2 : Int) ^ 53 := by
    have := round_even_mono _ _ d1.le
    rw [← two_pow_53, round_even_intCast] at this
    exact this
  have n2 : -1022 ≤ expo q → (2 : Int) ^ 52 ≤ round_even (q / ulp q) := by
    intro he
    have := round_even_mono _ _ (d2 he)
    rw [← two_pow_52, round_even_intCast] at this
    exact this
  have hr : round_pos q = (round_even (q / ulp q) : ℚ) * ulp q := rfl
  have hm := le_max_right (expo q) (-1022)
  rcases n0.lt_or_eq with npos | nzero
  swap
  · left; rw [hr, ← nzero]; simp
  right
  have rpos : 0 < round_pos q := by
    rw [hr]; exact mul_pos (by exact_mod_cast npos) hu
  refine ⟨rpos, ?_⟩
  rcases n1.lt_or_eq with nlt | neq
  · -- the rounded number has the spacing of `q`
    have rlt : round_pos q < 2 ^ (max (expo q) (-1022) + 1) := by
      have h1 : (round_even (q / ulp q) : ℚ) < 2 ^ (53 : Int) := by
        rw [← two_pow_53]; exact_mod_cast nlt
      calc round_pos q = (round_even (q / ulp q) : ℚ) * ulp q := rfl
        _ < 2 ^ (53 : Int) * ulp q := mul_lt_mul_of_pos_right h1 hu
        _ = 2 ^ (max (expo q) (-1022) + 1) := by
          rw [ulp_eq, ← two_zpow_add]; congr 1; ring
    have e1 : expo (round_pos q) ≤ max (expo q) (-1022) := by
      have := two_zpow_lt_iff.mp ((expo_spec _ rpos).1.trans_lt rlt)
      omega
    have e2 : -1022 < max (expo q) (-1022) → max (expo q) (-1022) ≤ expo (round_pos q) := by
      intro h
      have he : -1022 ≤ expo q := by
        rcases le_total (expo q) (-1022) with h1 | h1
        · rw [max_eq_right h1] at h; omega
        · exact h1
      have := (round_pos_bounds q hq).2.2 he
      rw [max_eq_left he]
      have := two_zpow_lt_iff.mp (this.trans_lt (expo_spec _ rpos).2)
      omega
    have e3 : max (expo (round_pos q)) (-1022) = max (expo q) (-1022) := by
      rcases hm.lt_or_eq with h | h
      · have := e2 h
        rw [max_eq_left (by omega)]
        omega
      · rw [← h] at e1 ⊢
        exact max_eq_right e1
    have hu2 : ulp (round_pos q) = ulp q := by rw [ulp_eq, ulp_eq, e3]
    show (round_even (round_pos q / ulp (round_pos q)) : ℚ) * ulp (round_pos q) = round_pos q
    rw [hu2]
    have : round_pos q / ulp q = (round_even (q / ulp q) : ℚ) := by
      rw [hr]; field_simp
    rw [this, round_even_intCast]
    exact hr.symm
  · -- the rounded number is the next power of two
    have rv : round_pos q = 2 ^ (max (expo q) (-1022) + 1) := by
      rw [hr, neq, two_pow_53, ulp_eq, ← two_zpow_add]; congr 1; ring
    have e3 : expo (round_pos q) = max (expo q) (-1022) + 1 := by
      apply expo_unique _ rpos
      · rw [rv]
      · rw [rv]; exact two_zpow_lt_iff.mpr (by omega)
    have hu2 : ulp (round_pos q) = 2 ^ (max (expo q) (-1022) + 1 - 52) := by
      rw [ulp_eq, e3, max_eq_left (by omega)]
    show (round_even (round_pos q / ulp (round_pos q)) : ℚ) * ulp (round_pos q) = round_pos q
    have hq52 : round_pos q / ulp (round_pos q) = (((2 : Int) ^ 52 : Int) : ℚ) := by
      rw [hu2, rv, two_pow_52, ← zpow_sub₀ (by norm_num)]
      congr 1; ring
    rw [hq52, round_even_intCast, hu2, two_pow_52, rv, ← two_zpow_add]
    congr 1; ring

theorem round_nearest_neg (q : ℚ) : round_nearest (-q) = - round_nearest q := by
  unfold round_nearest
  rcases lt_trichotomy q 0 with h | h | h
  · rw [if_pos (by linarith), if_neg (by linarith), if_pos h, neg_neg]
  · subst h; simp
  · rw [if_neg (by linarith), if_pos (by linarith), if_pos h, neg_neg]

theorem round_nearest_zero : round_nearest 0 = 0 := by
  unfold round_nearest; simp

theorem round_nearest_mono (a b : ℚ) (hab : a ≤ b) : round_nearest a ≤ round_nearest b := by
  unfold round_nearest
  rcases lt_trichotomy a 0 with ha | ha | ha
  · rw [if_neg (by linarith), if_pos ha]
    rcases lt_trichotomy b 0 with hb | hb | hb
    · rw [if_neg (by linarith), if_pos hb]
      exact neg_le_neg (round_pos_mono (-b) (-a) (by linarith) (by linarith))
    · subst hb
      rw [if_neg (lt_irrefl _), if_neg (lt_irrefl _)]
      have := (round_pos_bounds (-a) (by linarith)).1
      linarith
    · rw [if_pos hb]
      have := (round_pos_bounds (-a) (by linarith)).1
      have := (round_pos_bounds b hb).1
      linarith
  · subst ha
    rw [if_neg (lt_irrefl _), if_neg (lt_irrefl _)]
    rcases hab.lt_or_eq with hb | hb
    · rw [if_pos hb]; exact (round_pos_bounds b hb).1
    · rw [← hb, if_neg (lt_irrefl _), if_neg (lt_irrefl _)]
  · rw [if_pos ha, if_pos (ha.trans_le hab)]
    exact round_pos_mono a b ha hab

theorem round_nearest_idem (q : ℚ) : round_nearest (round_nearest q) = round_nearest q := by
  rcases lt_trichotomy q 0 with h | h | h
  · have hq : round_nearest q = - round_pos (-q) := by
      unfold round_nearest; rw [if_neg (by linarith), if_pos h]
    rw [hq, round_nearest_neg]
    congr 1
    rcases round_pos_idem (-q) (by linarith) with h0 | ⟨hp, hi⟩
    · rw [h0, round_nearest_zero]
    · unfold round_nearest; rw [if_pos hp, hi]
  · subst h; rw [round_nearest_zero, round_nearest_zero]
  · have hq : round_nearest q = round_pos q := by
      unfold round_nearest; rw [if_pos h]
    rw [hq]
    rcases round_pos_idem q h with h0 | ⟨hp, hi⟩
    · rw [h0, round_nearest_zero]
    · unfold round_nearest; rw [if_pos hp, hi]

theorem DBL_MAX_pos : (0 : ℚ) < DBL_MAX := by
  unfold DBL_MAX; norm_num

theorem DBL_MAX_lt_INF : DBL_MAX < DBL_INF := by
  unfold DBL_MAX DBL_INF; norm_num

theorem round_nearest_INF : round_nearest DBL_INF = DBL_INF := by
  decide!

theorem round_double_neg (q : ℚ) : round_double (-q) = - round_double q := by
  have hM := DBL_MAX_pos
  unfold round_double
  rw [round_nearest_neg]
  by_cases h1 : DBL_MAX < round_nearest q
  · rw [if_pos h1, if_neg (by linarith), if_pos (by linarith)]
  · rw [if_neg h1]
    by_cases h2 : round_nearest q < -DBL_MAX
    · rw [if_pos h2, if_pos (by linarith), neg_neg]
    · rw [if_neg h2, if_neg (by linarith), if_neg (by linarith)]

theorem round_double_zero : round_double 0 = 0 := by
  have h := round_double_neg 0
  rw [neg_zero] at h
  linarith

theorem round_double_mono (a b : ℚ) (hab : a ≤ b) : round_double a ≤ round_double b := by
  have hM := DBL_MAX_pos
  have hI := DBL_MAX_lt_INF
  have h := round_nearest_mono a b hab
  unfold round_double
  by_cases b1 : DBL_MAX < round_nearest b
  · rw [if_pos b1]
    by_cases a1 : DBL_MAX < round_nearest a
    · rw [if_pos a1]
    · rw [if_neg a1]
      by_cases a2 : round_nearest a < -DBL_MAX
      · rw [if_pos a2]; linarith
      · rw [if_neg a2]; linarith
  · rw [if_neg b1, if_neg (by linarith)]
    by_cases b2 : round_nearest b < -DBL_MAX
    · rw [if_pos b2, if_pos (by linarith)]
    · rw [if_neg b2]
      by_cases a2 : round_nearest a < -DBL_MAX
      · rw [if_pos a2]; linarith
      · rw [if_neg a2]; exact h

theorem round_double_idem (q : ℚ) : round_double (round_double q) = round_double q := by
  have hM := DBL_MAX_pos
  have hI := DBL_MAX_lt_INF
  have e1 : round_double DBL_INF = DBL_INF := by
    unfold round_double
    rw [round_nearest_INF, if_pos hI]
  by_cases h1 : DBL_MAX < round_nearest q
  · have e : round_double q = DBL_INF := by unfold round_double; rw [if_pos h1]
    rw [e, e1]
  · by_cases h2 : round_nearest q < -DBL_MAX
    · have e : round_double q = -DBL_INF := by
        unfold round_double; rw [if_neg h1, if_pos h2]
      rw [e, round_double_neg, e1]
    · have e : round_double q = round_nearest q := by
        unfold round_double; rw [if_neg h1, if_neg h2]
      rw [e]
      unfold round_double
      rw [round_nearest_idem, if_neg h1, if_neg h2]

/-- The rounding of binary64 has the three properties of `IsRounding`. -/
theorem round_double_isRounding : IsRounding round_double :=
  ⟨round_double_mono, round_double_idem, round_double_neg⟩

theorem IsRounding.zero {fl : ℚ → ℚ} (hfl : IsRounding fl) : fl 0 = 0 := by
  have h := hfl.neg 0
  rw [neg_zero] at h
  linarith

theorem IsRounding.nonneg {fl : ℚ → ℚ} (hfl : IsRounding fl) (a : ℚ) (ha : 0 ≤ a) :
    0 ≤ fl a := by
  have h := hfl.mono 0 a ha
  rwa [hfl.zero] at h
/-- The rounding on numbers whose nearest double is known: 0.1 and 1/3, a number that is
a double already, the two `float.h` constants, two ties between neighbouring doubles
(rounded to the even one), two ties in the subnormal range, the two sides of the overflow
threshold, and operations on the infinity. -/
theorem round_double_values :
    round_double (1 / 10) = 3602879701896397 / 36028797018963968
    ∧ round_double (1 / 3) = 6004799503160661 / 18014398509481984
    ∧ round_double (-5 / 2) = -5 / 2
    ∧ round_double DBL_MAX = DBL_MAX
    ∧ round_double DBL_MIN = DBL_MIN
    ∧ round_double (2 ^ 53 + 1) = 2 ^ 53
    ∧ round_double (2 ^ 53 + 3) = 2 ^ 53 + 4
    ∧ round_double (1 / 2 ^ 1075) = 0
    ∧ round_double (3 / 2 ^ 1075) = 2 / 2 ^ 1074
    ∧ round_double (DBL_MAX + 2 ^ 969) = DBL_MAX
    ∧ round_double (DBL_MAX + 2 ^ 970) = DBL_INF
    ∧ round_double (DBL_MAX * 2) = DBL_INF
    ∧ round_double (-DBL_MAX * DBL_MAX) = -DBL_INF
    ∧ round_double (DBL_INF - DBL_MAX) = DBL_INF
    ∧ round_double (DBL_INF * (1 / 2 ^ 1074)) = DBL_INF
    ∧ round_double (DBL_INF / DBL_MAX) = DBL_INF := by
  decide!

/-! ## `get_minmax` -/

theorem get_minmax_step_le (m : MinMax) (r : SubRead) :
    (get_minmax_step m r).minx ≤ m.minx ∧ m.maxx ≤ (get_minmax_step m r).maxx
    ∧ (get_minmax_step m r).miny ≤ m.miny ∧ m.maxy ≤ (get_minmax_step m r).maxy
    ∧ (get_minmax_step m r).minz ≤ m.minz ∧ m.maxz ≤ (get_minmax_step m r).maxz := by
  simp only [get_minmax_step]
  refine ⟨?_, ?_, ?_, ?_, ?_, ?_⟩ <;> split_ifs <;> linarith

theorem get_minmax_step_mem (m : MinMax) (r : SubRead) :
    (get_minmax_step m r).minx ≤ r.x ∧ r.x ≤ (get_minmax_step m r).maxx
    ∧ (get_minmax_step m r).miny ≤ r.y ∧ r.y ≤ (get_minmax_step m r).maxy
    ∧ (get_minmax_step m r).minz ≤ r.z ∧ r.z ≤ (get_minmax_step m r).maxz := by
  simp only [get_minmax_step]
  refine ⟨?_, ?_, ?_, ?_, ?_, ?_⟩ <;> split_ifs <;> linarith

theorem get_minmax_loop_cons (sub : Nat → AtomLine → SubRead) (it : Nat) (s : AtomLine)
    (rest : List AtomLine) (m : MinMax) :
    get_minmax_loop sub it (s :: rest) m
      = get_minmax_loop sub (it + 1) rest (get_minmax_step m (sub it s)) := rfl

theorem get_minmax_loop_le (sub : Nat → AtomLine → SubRead) (set : List AtomLine) (it : Nat)
    (m : MinMax) :
    (get_minmax_loop sub it set m).minx ≤ m.minx ∧ m.maxx ≤ (get_minmax_loop sub it set m).maxx
    ∧ (get_minmax_loop sub it set m).miny ≤ m.miny
    ∧ m.maxy ≤ (get_minmax_loop sub it set m).maxy
    ∧ (get_minmax_loop sub it set m).minz ≤ m.minz
    ∧ m.maxz ≤ (get_minmax_loop sub it set m).maxz := by
  induction set generalizing it m with
  | nil => exact ⟨le_refl _, le_refl _, le_refl _, le_refl _, le_refl _, le_refl _⟩
  | cons s rest ih =>
    obtain ⟨h1, h2, h3, h4, h5, h6⟩ := ih (it + 1) (get_minmax_step m (sub it s))
    obtain ⟨k1, k2, k3, k4, k5, k6⟩ := get_minmax_step_le m (sub it s)
    rw [get_minmax_loop_cons]
    exact ⟨h1.trans k1, k2.trans h2, h3.trans k3, k4.trans h4, h5.trans k5, k6.trans h6⟩

theorem get_minmax_loop_mem (set : List AtomLine) (it : Nat) (m : MinMax) (a : AtomLine)
    (ha : a ∈ set) :
    (get_minmax_loop terminated it set m).minx ≤ a.x
    ∧ a.x ≤ (get_minmax_loop terminated it set m).maxx
    ∧ (get_minmax_loop terminated it set m).miny ≤ a.y
    ∧ a.y ≤ (get_minmax_loop terminated it set m).maxy
    ∧ (get_minmax_loop terminated it set m).minz ≤ a.z
    ∧ a.z ≤ (get_minmax_loop terminated it set m).maxz := by
  induction set generalizing it m with
  | nil => simp at ha
  | cons s rest ih =>
    rw [get_minmax_loop_cons]
    rcases List.mem_cons.mp ha with rfl | hr
    · obtain ⟨h1, h2, h3, h4, h5, h6⟩ :=
        get_minmax_loop_le terminated rest (it + 1) (get_minmax_step m (terminated it a))
      obtain ⟨k1, k2, k3, k4, k5, k6⟩ := get_minmax_step_mem m (terminated it a)
      exact ⟨h1.trans k1, k2.trans h2, h3.trans k3, k4.trans h4, h5.trans k5, k6.trans h6⟩
    · exact ih (it + 1) (get_minmax_step m (terminated it s)) hr

/-- In a run where `atof(sub)` returns the numbers of each line, every line of the set
lies in the box of `get_minmax`, bounds included. -/
theorem get_minmax_mem (set : List AtomLine) (a : AtomLine) (ha : a ∈ set) :
    (get_minmax terminated set).minx ≤ a.x ∧ a.x ≤ (get_minmax terminated set).maxx
    ∧ (get_minmax terminated set).miny ≤ a.y ∧ a.y ≤ (get_minmax terminated set).maxy
    ∧ (get_minmax terminated set).minz ≤ a.z ∧ a.z ≤ (get_minmax terminated set).maxz :=
  get_minmax_loop_mem set 0 _ a ha

/-- C3, the code at a ligand whose coordinates are all negative: `get_minmax` returns the
minima `-1`, `-2`, `-3`, but each of the three maxima is `DBL_MIN`, a positive number, and
not the coordinate of the only atom. -/
theorem get_minmax_negative_ligand :
    get_minmax terminated negative_ligand = ⟨-1, DBL_MIN, -2, DBL_MIN, -3, DBL_MIN⟩
    ∧ (0 : ℚ) < DBL_MIN
    ∧ (get_minmax terminated negative_ligand).maxx ≠ -1
    ∧ (get_minmax terminated negative_ligand).maxy ≠ -2
    ∧ (get_minmax terminated negative_ligand).maxz ≠ -3 := by
  decide!

/-- C4, the code at an atom whose x field is `   1.000`, in a run where the bytes of the
double 1.2 follow `sub`: `atof(sub)` returns the double nearest to 1.000333333 instead of
1, `get_minmax` returns it as the minimum of the x axis, and the atom's x coordinate 1
lies below that minimum, outside the box.  In a run where a byte that ends the number
follows the copy the minimum is 1. -/
theorem get_minmax_unterminated_copy :
    round_double (atof_decimal "   1.000".toList) = 1
    ∧ (unit_ligand.map (fun a => a.x)) = [1]
    ∧ atof_decimal ("   1.000".toList ++ bytes_of_1_2) = 1000333333 / 1000000000
    ∧ (get_minmax leaked_read unit_ligand).minx = round_double (1000333333 / 1000000000)
    ∧ (1 : ℚ) < (get_minmax leaked_read unit_ligand).minx
    ∧ (get_minmax terminated unit_ligand).minx = 1
    ∧ ¬ (∀ a ∈ unit_ligand, (get_minmax leaked_read unit_ligand).minx ≤ a.x) := by
  refine ⟨by decide!, by decide!, by decide!, by decide!, by decide!, by decide!, ?_⟩
  intro h
  have h1 := h (line " C1 " "LIG" 1 (round_double (12 / 10)) 0 'C')
    (List.mem_singleton.mpr rfl)
  have h2 : (1 : ℚ) < (get_minmax leaked_read unit_ligand).minx := by decide!
  exact absurd h1 (not_le.mpr h2)

/-! ## `assign_atom_type`: halides -/

/-- C8, the code at a fluorine and at a chlorine: `assign_atom_type` writes `NONE`, not
`ACCEPTOR`, whatever value the entry held before. -/
theorem assign_atom_type_halide :
    assign_atom_type sqrt6 [ACCEPTOR] fluorine_ligand = [NONE]
    ∧ assign_atom_type sqrt6 [ACCEPTOR] chlorine_ligand = [NONE]
    ∧ NONE ≠ ACCEPTOR := by
  decide!


/-! ## `is_h_bond` -/

/-- The role table of `is_h_bond` only yields `NONE`, `DONOR` or `ACCEPTOR`. -/
theorem prot_atom_type_range (p : AtomLine) :
    prot_atom_type p = NONE ∨ prot_atom_type p = DONOR ∨ prot_atom_type p = ACCEPTOR := by
  unfold prot_atom_type
  simp only []
  split_ifs <;> simp

/-- The three tests that end `is_h_bond` (clashes.c lines 112-115), for a ligand type `t`
and a protein role `r`. -/
theorem is_h_bond_tests (t r : Int) :
    ((if (t = DONOR ∧ r = ACCEPTOR) ∨ (t = ACCEPTOR ∧ r = DONOR) then (1 : Int)
      else if t = BOTH ∧ (r = DONOR ∨ r = ACCEPTOR ∨ r = BOTH) then 1
      else if r = BOTH ∧ (t = DONOR ∨ t = ACCEPTOR ∨ t = BOTH) then 1
      else 0) = 1 ↔
      (t = DONOR ∧ r = ACCEPTOR) ∨ (t = ACCEPTOR ∧ r = DONOR)
      ∨ (t = BOTH ∧ (r = DONOR ∨ r = ACCEPTOR ∨ r = BOTH))
      ∨ (r = BOTH ∧ (t = DONOR ∨ t = ACCEPTOR ∨ t = BOTH)))
    ∧ ((if (t = DONOR ∧ r = ACCEPTOR) ∨ (t = ACCEPTOR ∧ r = DONOR) then (1 : Int)
      else if t = BOTH ∧ (r = DONOR ∨ r = ACCEPTOR ∨ r = BOTH) then 1
      else if r = BOTH ∧ (t = DONOR ∨ t = ACCEPTOR ∨ t = BOTH) then 1
      else 0) = 1
      ∨ (if (t = DONOR ∧ r = ACCEPTOR) ∨ (t = ACCEPTOR ∧ r = DONOR) then (1 : Int)
      else if t = BOTH ∧ (r = DONOR ∨ r = ACCEPTOR ∨ r = BOTH) then 1
      else if r = BOTH ∧ (t = DONOR ∨ t = ACCEPTOR ∨ t = BOTH) then 1
      else 0) = 0)
    ∧ (t = NONE ∨ r = NONE →
      (if (t = DONOR ∧ r = ACCEPTOR) ∨ (t = ACCEPTOR ∧ r = DONOR) then (1 : Int)
      else if t = BOTH ∧ (r = DONOR ∨ r = ACCEPTOR ∨ r = BOTH) then 1
      else if r = BOTH ∧ (t = DONOR ∨ t = ACCEPTOR ∨ t = BOTH) then 1
      else 0) = 0) := by
  refine ⟨?_, ?_, ?_⟩
  · split_ifs with h1 h2 h3
    · simp only [true_iff]; tauto
    · simp only [true_iff]; tauto
    · simp only [true_iff]; tauto
    · simp only [zero_ne_one, false_iff]; tauto
  · split_ifs <;> simp
  · intro hn
    rcases hn with hn | hn <;> subst hn <;> simp [NONE, DONOR, ACCEPTOR, BOTH]

/-- C10: for every ligand atom type `t` (in particular `NONE`, `DONOR`, `ACCEPTOR`, `BOTH`)
and any protein line `p` with table role `prot_atom_type p`, `is_h_bond` returns 1 exactly when
(`t` is `DONOR` and the role `ACCEPTOR`) or (`t` is `ACCEPTOR` and the role `DONOR`) or one
side is `BOTH` and the other side is `DONOR`, `ACCEPTOR` or `BOTH`; it returns 0 in every
other case, in particular when `t` or the role is `NONE`; and the role is `NONE` when the
second character of the atom name is `C` or `S`. -/
theorem is_h_bond_iff (h p : AtomLine) (t : Int) :
    (is_h_bond h p t = 1 ↔
      (t = DONOR ∧ prot_atom_type p = ACCEPTOR) ∨ (t = ACCEPTOR ∧ prot_atom_type p = DONOR)
      ∨ (t = BOTH ∧
          (prot_atom_type p = DONOR ∨ prot_atom_type p = ACCEPTOR ∨ prot_atom_type p = BOTH))
      ∨ (prot_atom_type p = BOTH ∧ (t = DONOR ∨ t = ACCEPTOR ∨ t = BOTH)))
    ∧ (is_h_bond h p t = 1 ∨ is_h_bond h p t = 0)
    ∧ (t = NONE ∨ prot_atom_type p = NONE → is_h_bond h p t = 0)
    ∧ (p.c13 = 'C' ∨ p.c13 = 'S' → prot_atom_type p = NONE) := by
  obtain ⟨k1, k2, k3⟩ := is_h_bond_tests t (prot_atom_type p)
  refine ⟨k1, k2, k3, ?_⟩
  intro hc
  unfold prot_atom_type
  exact if_pos hc


/-! ## The grid of `main` and `calc_intersection` -/

theorem wrap_int_of_range (n : Int) (h1 : INT_MIN ≤ n) (h2 : n ≤ INT_MAX) : wrap_int n = n := by
  unfold wrap_int
  unfold INT_MIN at h1
  unfold INT_MAX at h2
  omega

theorem trunc_of_nonneg (q : ℚ) (hq : 0 ≤ q) : trunc q = ⌊q⌋ := by
  unfold trunc; rw [if_pos hq]

theorem trunc_nonneg (q : ℚ) (hq : 0 ≤ q) : 0 ≤ trunc q := by
  rw [trunc_of_nonneg q hq]; exact Int.floor_nonneg.mpr hq

theorem trunc_mono (a b : ℚ) (ha : 0 ≤ a) (hab : a ≤ b) : trunc a ≤ trunc b := by
  rw [trunc_of_nonneg a ha, trunc_of_nonneg b (ha.trans hab)]; exact Int.floor_mono hab

theorem c_int_of_range (q : ℚ) (hq : 0 ≤ q) (h : trunc q ≤ INT_MAX) : c_int q = trunc q := by
  have h0 := trunc_nonneg q hq
  unfold c_int
  rw [if_pos ⟨by unfold INT_MIN; omega, h⟩]

/-- The quotient that `find_node` casts to `int` is not negative and not above the one
of the far side of the box, for a position between the two bounds. -/
theorem quotient_range (fl : ℚ → ℚ) (hfl : IsRounding fl) (x lo hi step : ℚ)
    (hstep : 0 < step) (h1 : lo ≤ x) (h2 : x ≤ hi) :
    0 ≤ fl (fl (x - lo) / step) ∧ fl (fl (x - lo) / step) ≤ fl (fl (hi - lo) / step) := by
  constructor
  · exact hfl.nonneg _ (div_nonneg (hfl.nonneg _ (by linarith)) hstep.le)
  · apply hfl.mono
    apply div_le_div_of_nonneg_right _ hstep.le
    exact hfl.mono _ _ (by linarith)

theorem axis_cells_ge (fl : ℚ → ℚ) (hfl : IsRounding fl) (lo hi step : ℚ) (hstep : 0 < step)
    (h : lo ≤ hi) : 2 ≤ axis_cells fl lo hi step := by
  have h0 := (quotient_range fl hfl hi lo hi step hstep h (le_refl hi)).1
  have h1 := trunc_nonneg _ h0
  unfold axis_cells
  omega

theorem offset_range (fl : ℚ → ℚ) (hfl : IsRounding fl) (x lo hi step : ℚ) (hstep : 0 < step)
    (h1 : lo ≤ x) (h2 : x ≤ hi) (hfit : axis_cells fl lo hi step ≤ INT_MAX) :
    0 ≤ c_int (fl (fl (x - lo) / step))
    ∧ c_int (fl (fl (x - lo) / step)) + 2 ≤ axis_cells fl lo hi step := by
  obtain ⟨k1, k2⟩ := quotient_range fl hfl x lo hi step hstep h1 h2
  have k3 := trunc_mono _ _ k1 k2
  have k4 := trunc_nonneg _ k1
  have k5 : trunc (fl (fl (x - lo) / step)) ≤ INT_MAX := by
    unfold axis_cells at hfit
    omega
  rw [c_int_of_range _ k1 k5]
  unfold axis_cells
  exact ⟨k4, by omega⟩

/-- The size that `main` computes for one axis is `axis_cells` when that number is a
value of an `int`. -/
theorem main_size (fl : ℚ → ℚ) (hfl : IsRounding fl) (lo hi step : ℚ) (hstep : 0 < step)
    (h : lo ≤ hi) (hfit : axis_cells fl lo hi step ≤ INT_MAX) :
    wrap_int (c_int (fl (fl (hi - lo) / step)) + 2) = axis_cells fl lo hi step := by
  have k1 := (quotient_range fl hfl hi lo hi step hstep h (le_refl hi)).1
  have k4 := trunc_nonneg _ k1
  have k5 : trunc (fl (fl (hi - lo) / step)) ≤ INT_MAX := by
    unfold axis_cells at hfit
    omega
  rw [c_int_of_range _ k1 k5]
  unfold axis_cells at hfit ⊢
  apply wrap_int_of_range
  · unfold INT_MIN; omega
  · exact hfit

theorem cells_bounds (sx sy sz M : Int) (hx : 2 ≤ sx) (hy : 2 ≤ sy) (hz : 2 ≤ sz)
    (h : sx * sy * sz ≤ M) :
    sx ≤ M ∧ sy ≤ M ∧ sz ≤ M ∧ sx * sy ≤ M ∧ 0 ≤ sx * sy := by
  have h1 : 0 ≤ sx * sy := mul_nonneg (by omega) (by omega)
  have h2 : sx * sy * 1 ≤ sx * sy * sz := mul_le_mul_of_nonneg_left (by omega) h1
  have h3 : sx * 1 ≤ sx * sy := mul_le_mul_of_nonneg_left (by omega) (by omega)
  have h4 : 1 * sy ≤ sx * sy := mul_le_mul_of_nonneg_right (by omega) (by omega)
  have h5 : 4 ≤ sx * sy := by nlinarith
  have h6 : 1 * sz ≤ sx * sy * sz := mul_le_mul_of_nonneg_right (by omega) (by omega)
  refine ⟨?_, ?_, ?_, ?_, h1⟩ <;> linarith

theorem index_range (ox oy oz sx sy sz : Int) (hx0 : 0 ≤ ox) (hx : ox < sx) (hy0 : 0 ≤ oy)
    (hy : oy < sy) (hz0 : 0 ≤ oz) (hz : oz < sz) :
    0 ≤ (oz * sy + oy) * sx + ox ∧ (oz * sy + oy) * sx + ox < sx * sy * sz := by
  constructor
  · have hsx : 0 ≤ sx := by omega
    have hsy : 0 ≤ sy := by omega
    have h1 : 0 ≤ oz * sy + oy := add_nonneg (mul_nonneg hz0 hsy) hy0
    exact add_nonneg (mul_nonneg h1 hsx) hx0
  · have h1 : oz * sy + oy + 1 ≤ sz * sy := by nlinarith
    have h2 : (oz * sy + oy + 1) * sx ≤ sz * sy * sx := by
      apply mul_le_mul_of_nonneg_right h1; omega
    nlinarith

/-- The `int` operations of the index of `find_node` do not overflow when the offsets are
inside the grid and the number of cells is a value of an `int`. -/
theorem index_no_wrap (ox oy oz sx sy sz : Int) (hx0 : 0 ≤ ox) (hx : ox < sx) (hy0 : 0 ≤ oy)
    (hy : oy < sy) (hz0 : 0 ≤ oz) (hz : oz < sz) (hfit : sx * sy * sz ≤ INT_MAX) :
    wrap_int (wrap_int (wrap_int (wrap_int (oz * sy) + oy) * sx) + ox)
      = (oz * sy + oy) * sx + ox := by
  obtain ⟨-, k2⟩ := index_range ox oy oz sx sy sz hx0 hx hy0 hy hz0 hz
  have hsx : 1 ≤ sx := by omega
  have hsy : 0 ≤ sy := by omega
  have a1 : 0 ≤ oz * sy := mul_nonneg hz0 hsy
  have a2 : 0 ≤ oz * sy + oy := add_nonneg a1 hy0
  have a3 : (oz * sy + oy) * 1 ≤ (oz * sy + oy) * sx := mul_le_mul_of_nonneg_left hsx a2
  have hmin : INT_MIN ≤ 0 := by unfold INT_MIN; omega
  have e1 : wrap_int (oz * sy) = oz * sy :=
    wrap_int_of_range _ (hmin.trans a1) (by linarith)
  rw [e1]
  have e2 : wrap_int (oz * sy + oy) = oz * sy + oy :=
    wrap_int_of_range _ (hmin.trans a2) (by linarith)
  rw [e2]
  have e3 : wrap_int ((oz * sy + oy) * sx) = (oz * sy + oy) * sx :=
    wrap_int_of_range _ (hmin.trans (by linarith)) (by linarith)
  rw [e3]
  exact wrap_int_of_range _ (hmin.trans (by linarith)) (by linarith)

theorem index_inj (a b c d n : Int) (hb0 : 0 ≤ b) (hb : b < n) (hd0 : 0 ≤ d) (hd : d < n)
    (h : a * n + b = c * n + d) : a = c ∧ b = d := by
  have hac : a = c := by
    rcases lt_trichotomy a c with h1 | h1 | h1
    · exfalso; nlinarith
    · exact h1
    · exfalso; nlinarith
  subst hac
  exact ⟨rfl, by linarith⟩

theorem nodes_read_set (nodes : List Int) (i j : Int) (v : Int) (hi0 : 0 ≤ i)
    (hi : i < nodes.length) (hj0 : 0 ≤ j) (hj : j < nodes.length) :
    nodes_read (nodes.set i.toNat v) j = if i = j then some v else nodes_read nodes j := by
  unfold nodes_read
  simp only [List.length_set, hj0, hj, and_self, if_true, List.getElem?_set]
  by_cases hij : i = j
  · subst hij
    have : i.toNat < nodes.length := by omega
    simp [this]
  · have : i.toNat ≠ j.toNat := by omega
    simp [this, hij]

theorem nodes_read_some (nodes : List Int) (i : Int) (hi0 : 0 ≤ i) (hi : i < nodes.length) :
    ∃ v, nodes_read nodes i = some v := by
  unfold nodes_read
  have h : i.toNat < nodes.length := by omega
  rw [if_pos ⟨hi0, hi⟩]
  exact ⟨nodes[i.toNat], List.getElem?_eq_getElem h⟩

theorem nodes_read_replicate (n : Nat) (i : Int) : nodes_read (List.replicate n 0) i ≠ some 1 := by
  unfold nodes_read
  split_ifs with h
  · simp only [List.length_replicate] at h
    have h2 : i.toNat < n := by omega
    simp [List.getElem?_replicate, h2]
  · simp

theorem main_mark_cons (fl : ℚ → ℚ) (m : MinMax) (step : ℚ) (sx sy sz : Int) (k : Nat)
    (a : AtomLine) (rest : List AtomLine) (nodes : List Int) :
    main_mark fl terminated m step sx sy sz k (a :: rest) nodes =
      match nodes_write nodes (find_node fl a.sub m.minx m.miny m.minz step sx sy sz) 1 with
      | none => none
      | some nodes1 => main_mark fl terminated m step sx sy sz (k + 1) rest nodes1 := rfl

/-- The marking loop of `main` succeeds when every cell index lies inside `nodes`; it
keeps the length, and a cell holds 1 afterwards exactly when it held 1 before or is the
cell of one of the lines. -/
theorem main_mark_spec (fl : ℚ → ℚ) (m : MinMax) (step : ℚ) (sx sy sz : Int)
    (l : List AtomLine) (k : Nat) (nodes : List Int)
    (hr : ∀ a ∈ l, 0 ≤ find_node fl a.sub m.minx m.miny m.minz step sx sy sz
      ∧ find_node fl a.sub m.minx m.miny m.minz step sx sy sz < nodes.length) :
    ∃ nodes1, main_mark fl terminated m step sx sy sz k l nodes = some nodes1
      ∧ nodes1.length = nodes.length
      ∧ ∀ i : Int, 0 ≤ i → i < nodes.length →
          (nodes_read nodes1 i = some 1 ↔
            (nodes_read nodes i = some 1
              ∨ ∃ a ∈ l, find_node fl a.sub m.minx m.miny m.minz step sx sy sz = i)) := by
  induction l generalizing k nodes with
  | nil => exact ⟨nodes, rfl, rfl, fun i _ _ => by simp⟩
  | cons a rest ih =>
    obtain ⟨ha0, ha1⟩ := hr a (List.mem_cons_self a rest)
    have hw : nodes_write nodes (find_node fl a.sub m.minx m.miny m.minz step sx sy sz) 1
        = some (nodes.set (find_node fl a.sub m.minx m.miny m.minz step sx sy sz).toNat 1) := by
      unfold nodes_write; rw [if_pos ⟨ha0, ha1⟩]
    obtain ⟨nodes1, h1, h2, h3⟩ :=
      ih (k + 1) (nodes.set (find_node fl a.sub m.minx m.miny m.minz step sx sy sz).toNat 1) (by
        intro b hb
        rw [List.length_set]
        exact hr b (List.mem_cons_of_mem a hb))
    refine ⟨nodes1, ?_, ?_, ?_⟩
    · rw [main_mark_cons, hw]; exact h1
    · rw [h2, List.length_set]
    · intro i hi0 hi
      rw [h3 i hi0 (by rw [List.length_set]; exact hi),
        nodes_read_set nodes _ i 1 ha0 ha1 hi0 hi]
      constructor
      · rintro (h | ⟨b, hb, hbi⟩)
        · by_cases hij : find_node fl a.sub m.minx m.miny m.minz step sx sy sz = i
          · exact Or.inr ⟨a, List.mem_cons_self a rest, hij⟩
          · rw [if_neg hij] at h; exact Or.inl h
        · exact Or.inr ⟨b, List.mem_cons_of_mem a hb, hbi⟩
      · rintro (h | ⟨b, hb, hbi⟩)
        · by_cases hij : find_node fl a.sub m.minx m.miny m.minz step sx sy sz = i
          · rw [if_pos hij]; exact Or.inl rfl
          · rw [if_neg hij]; exact Or.inl h
        · rcases List.mem_cons.mp hb with rfl | hb1
          · rw [if_pos hbi]; exact Or.inl rfl
          · exact Or.inr ⟨b, hb1, hbi⟩

/-- For a position inside the box, bounds included, and a grid whose number of cells is
a value of an `int`: the three offsets of `find_node` lie inside the grid, no `int`
operation of the index overflows, and the index is the one of a cell. -/
theorem find_node_in_grid (fl : ℚ → ℚ) (hfl : IsRounding fl) (m : MinMax) (step : ℚ)
    (hstep : 0 < step) (hfit : grid_cells fl m step ≤ INT_MAX) (r : SubRead)
    (hx1 : m.minx ≤ r.x) (hx2 : r.x ≤ m.maxx) (hy1 : m.miny ≤ r.y) (hy2 : r.y ≤ m.maxy)
    (hz1 : m.minz ≤ r.z) (hz2 : r.z ≤ m.maxz) :
    (0 ≤ (find_node_offsets fl r m.minx m.miny m.minz step).1
      ∧ (find_node_offsets fl r m.minx m.miny m.minz step).1
          < axis_cells fl m.minx m.maxx step)
    ∧ (0 ≤ (find_node_offsets fl r m.minx m.miny m.minz step).2.1
      ∧ (find_node_offsets fl r m.minx m.miny m.minz step).2.1
          < axis_cells fl m.miny m.maxy step)
    ∧ (0 ≤ (find_node_offsets fl r m.minx m.miny m.minz step).2.2
      ∧ (find_node_offsets fl r m.minx m.miny m.minz step).2.2
          < axis_cells fl m.minz m.maxz step)
    ∧ find_node fl r m.minx m.miny m.minz step (axis_cells fl m.minx m.maxx step)
        (axis_cells fl m.miny m.maxy step) (axis_cells fl m.minz m.maxz step)
      = ((find_node_offsets fl r m.minx m.miny m.minz step).2.2
            * axis_cells fl m.miny m.maxy step
          + (find_node_offsets fl r m.minx m.miny m.minz step).2.1)
          * axis_cells fl m.minx m.maxx step
        + (find_node_offsets fl r m.minx m.miny m.minz step).1
    ∧ 0 ≤ find_node fl r m.minx m.miny m.minz step (axis_cells fl m.minx m.maxx step)
        (axis_cells fl m.miny m.maxy step) (axis_cells fl m.minz m.maxz step)
    ∧ find_node fl r m.minx m.miny m.minz step (axis_cells fl m.minx m.maxx step)
        (axis_cells fl m.miny m.maxy step) (axis_cells fl m.minz m.maxz step)
      < grid_cells fl m step := by
  have gx := axis_cells_ge fl hfl m.minx m.maxx step hstep (hx1.trans hx2)
  have gy := axis_cells_ge fl hfl m.miny m.maxy step hstep (hy1.trans hy2)
  have gz := axis_cells_ge fl hfl m.minz m.maxz step hstep (hz1.trans hz2)
  have hfit1 : axis_cells fl m.minx m.maxx step * axis_cells fl m.miny m.maxy step
      * axis_cells fl m.minz m.maxz step ≤ INT_MAX := hfit
  obtain ⟨bx, by1, bz, -, -⟩ := cells_bounds _ _ _ _ gx gy gz hfit1
  have hx := offset_range fl hfl r.x m.minx m.maxx step hstep hx1 hx2 bx
  have hy := offset_range fl hfl r.y m.miny m.maxy step hstep hy1 hy2 by1
  have hz := offset_range fl hfl r.z m.minz m.maxz step hstep hz1 hz2 bz
  have hx3 : c_int (fl (fl (r.x - m.minx) / step)) < axis_cells fl m.minx m.maxx step := by
    have := hx.2; omega
  have hy3 : c_int (fl (fl (r.y - m.miny) / step)) < axis_cells fl m.miny m.maxy step := by
    have := hy.2; omega
  have hz3 : c_int (fl (fl (r.z - m.minz) / step)) < axis_cells fl m.minz m.maxz step := by
    have := hz.2; omega
  have ox : (0 ≤ (find_node_offsets fl r m.minx m.miny m.minz step).1
      ∧ (find_node_offsets fl r m.minx m.miny m.minz step).1
          < axis_cells fl m.minx m.maxx step) := ⟨hx.1, hx3⟩
  have oy : (0 ≤ (find_node_offsets fl r m.minx m.miny m.minz step).2.1
      ∧ (find_node_offsets fl r m.minx m.miny m.minz step).2.1
          < axis_cells fl m.miny m.maxy step) := ⟨hy.1, hy3⟩
  have oz : (0 ≤ (find_node_offsets fl r m.minx m.miny m.minz step).2.2
      ∧ (find_node_offsets fl r m.minx m.miny m.minz step).2.2
          < axis_cells fl m.minz m.maxz step) := ⟨hz.1, hz3⟩
  have hi := index_range _ _ _ _ _ _ ox.1 ox.2 oy.1 oy.2 oz.1 oz.2
  have he := index_no_wrap _ _ _ _ _ _ ox.1 ox.2 oy.1 oy.2 oz.1 oz.2 hfit1
  have he1 : find_node fl r m.minx m.miny m.minz step (axis_cells fl m.minx m.maxx step)
        (axis_cells fl m.miny m.maxy step) (axis_cells fl m.minz m.maxz step)
      = ((find_node_offsets fl r m.minx m.miny m.minz step).2.2
            * axis_cells fl m.miny m.maxy step
          + (find_node_offsets fl r m.minx m.miny m.minz step).2.1)
          * axis_cells fl m.minx m.maxx step
        + (find_node_offsets fl r m.minx m.miny m.minz step).1 := he
  refine ⟨ox, oy, oz, he1, ?_, ?_⟩
  · rw [he1]; exact hi.1
  · rw [he1]; exact hi.2

theorem find_node_eq_of_offsets (fl : ℚ → ℚ) (m : MinMax) (step : ℚ) (sx sy sz : Int)
    (p l : SubRead)
    (h : find_node_offsets fl l m.minx m.miny m.minz step
      = find_node_offsets fl p m.minx m.miny m.minz step) :
    find_node fl l m.minx m.miny m.minz step sx sy sz
      = find_node fl p m.minx m.miny m.minz step sx sy sz := by
  unfold find_node
  rw [h]

theorem find_node_inj (a1 b1 c1 a2 b2 c2 sx sy : Int)
    (hp0 : 0 ≤ a1) (hp1 : a1 < sx) (hp2 : 0 ≤ b1) (hp3 : b1 < sy)
    (hl0 : 0 ≤ a2) (hl1 : a2 < sx) (hl2 : 0 ≤ b2) (hl3 : b2 < sy)
    (h : (c2 * sy + b2) * sx + a2 = (c1 * sy + b1) * sx + a1) :
    (a2, b2, c2) = (a1, b1, c1) := by
  obtain ⟨h2, h3⟩ := index_inj _ _ _ _ sx hl0 hl1 hp0 hp1 h
  obtain ⟨h4, h5⟩ := index_inj _ _ _ _ sy hl2 hl3 hp2 hp3 h2
  rw [h3, h4, h5]

theorem calc_intersection_loop_cons (fl : ℚ → ℚ) (nodes : List Int) (step : ℚ)
    (sx sy sz : Int) (m : MinMax) (k : Nat) (p : AtomLine) (rest : List AtomLine) (acc : Int) :
    calc_intersection_loop fl terminated terminated nodes step sx sy sz m k (p :: rest) acc =
      if p.x > m.minx ∧ p.x < m.maxx ∧ p.y > m.miny ∧ p.y < m.maxy
          ∧ p.z > m.minz ∧ p.z < m.maxz then
        match nodes_read nodes (find_node fl p.sub m.minx m.miny m.minz step sx sy sz) with
        | none => none
        | some v =>
          calc_intersection_loop fl terminated terminated nodes step sx sy sz m (k + 1) rest
            (if v = 1 then acc + 1 else acc)
      else
        calc_intersection_loop fl terminated terminated nodes step sx sy sz m (k + 1) rest
          acc := rfl

/-- The loop of `calc_intersection` returns the running count plus the number of lines
strictly inside the box whose cell reads 1, when every such read is inside `nodes`. -/
theorem calc_intersection_loop_count (fl : ℚ → ℚ) (nodes : List Int) (step : ℚ)
    (sx sy sz : Int) (m : MinMax) (f : AtomLine → Bool) (l : List AtomLine) (k : Nat)
    (acc : Int)
    (h : ∀ p ∈ l, strictly_inside m p = true →
      ∃ v, nodes_read nodes (find_node fl p.sub m.minx m.miny m.minz step sx sy sz) = some v
        ∧ (v = 1 ↔ f p = true)) :
    calc_intersection_loop fl terminated terminated nodes step sx sy sz m k l acc
      = some (acc + (l.countP (fun p => strictly_inside m p && f p) : Nat)) := by
  induction l generalizing k acc with
  | nil =>
    show some acc = some (acc + ((List.countP (fun p => strictly_inside m p && f p) []) : Nat))
    simp
  | cons p rest ih =>
    have ih1 := fun k1 acc1 => ih k1 acc1 (fun q hq => h q (List.mem_cons_of_mem p hq))
    rw [calc_intersection_loop_cons]
    by_cases hin : strictly_inside m p = true
    · obtain ⟨v, hv, hv1⟩ := h p (List.mem_cons_self p rest) hin
      have hc : p.x > m.minx ∧ p.x < m.maxx ∧ p.y > m.miny ∧ p.y < m.maxy
          ∧ p.z > m.minz ∧ p.z < m.maxz := by
        simpa [strictly_inside] using hin
      rw [if_pos hc, hv]
      simp only []
      rw [ih1]
      by_cases hf : f p = true
      · rw [if_pos (hv1.mpr hf), List.countP_cons_of_pos _ _ (by simp [hin, hf])]
        push_cast; ring_nf
      · rw [if_neg (fun hv2 => hf (hv1.mp hv2)), List.countP_cons_of_neg _ _ (by simp [hf])]
    · have hc : ¬ (p.x > m.minx ∧ p.x < m.maxx ∧ p.y > m.miny ∧ p.y < m.maxy
          ∧ p.z > m.minz ∧ p.z < m.maxz) := by
        simpa [strictly_inside] using hin
      rw [if_neg hc, ih1, List.countP_cons_of_neg _ _ (by simp [hin])]

theorem main_grid_of_sizes (fl : ℚ → ℚ) (het : List AtomLine) (step : ℚ) (sx sy sz n : Int)
    (hx : wrap_int (c_int (fl (fl ((get_minmax terminated het).maxx
      - (get_minmax terminated het).minx) / step)) + 2) = sx)
    (hy : wrap_int (c_int (fl (fl ((get_minmax terminated het).maxy
      - (get_minmax terminated het).miny) / step)) + 2) = sy)
    (hz : wrap_int (c_int (fl (fl ((get_minmax terminated het).maxz
      - (get_minmax terminated het).minz) / step)) + 2) = sz)
    (hn : wrap_int (wrap_int (sx * sy) * sz) = n) :
    main_grid fl terminated_reads het step =
      match main_mark fl terminated (get_minmax terminated het) step sx sy sz 0 het
          (List.replicate n.toNat 0) with
      | none => none
      | some nodes => some { size_x := sx, size_y := sy, size_z := sz, nodes := nodes } := by
  subst hx hy hz hn
  rfl

/-- In a run where `atof(sub)` returns the numbers of each line, for a ligand that is not
empty, a positive step and a grid whose number of cells is a value of an `int`: the grid
construction of `main` succeeds, the sizes are the ones of lines 223-225, `nodes` has
`size_x * size_y * size_z` cells, and a cell holds 1 exactly when it is the cell of a
ligand line. -/
theorem main_grid_spec (fl : ℚ → ℚ) (hfl : IsRounding fl) (het : List AtomLine)
    (hne : het ≠ []) (step : ℚ) (hstep : 0 < step)
    (hfit : grid_fits fl (get_minmax terminated het) step = true) :
    ∃ g, main_grid fl terminated_reads het step = some g
      ∧ g.size_x = axis_cells fl (get_minmax terminated het).minx
          (get_minmax terminated het).maxx step
      ∧ g.size_y = axis_cells fl (get_minmax terminated het).miny
          (get_minmax terminated het).maxy step
      ∧ g.size_z = axis_cells fl (get_minmax terminated het).minz
          (get_minmax terminated het).maxz step
      ∧ (g.nodes.length : Int) = grid_cells fl (get_minmax terminated het) step
      ∧ ∀ i : Int, 0 ≤ i → i < g.nodes.length →
          (nodes_read g.nodes i = some 1 ↔
            ∃ a ∈ het, find_node fl a.sub (get_minmax terminated het).minx
              (get_minmax terminated het).miny (get_minmax terminated het).minz step
              g.size_x g.size_y g.size_z = i) := by
  have hfit0 : grid_cells fl (get_minmax terminated het) step ≤ INT_MAX := by
    simpa [grid_fits] using hfit
  have hfit1 : axis_cells fl (get_minmax terminated het).minx
        (get_minmax terminated het).maxx step
      * axis_cells fl (get_minmax terminated het).miny (get_minmax terminated het).maxy step
      * axis_cells fl (get_minmax terminated het).minz (get_minmax terminated het).maxz step
      ≤ INT_MAX := hfit0
  obtain ⟨a0, ha0⟩ := List.exists_mem_of_ne_nil het hne
  obtain ⟨m1, m2, m3, m4, m5, m6⟩ := get_minmax_mem het a0 ha0
  have gx := axis_cells_ge fl hfl _ _ step hstep (m1.trans m2)
  have gy := axis_cells_ge fl hfl _ _ step hstep (m3.trans m4)
  have gz := axis_cells_ge fl hfl _ _ step hstep (m5.trans m6)
  obtain ⟨bx, by1, bz, bxy, nxy⟩ := cells_bounds _ _ _ _ gx gy gz hfit1
  have hmin : INT_MIN ≤ 0 := by unfold INT_MIN; omega
  have ex := main_size fl hfl _ _ step hstep (m1.trans m2) bx
  have ey := main_size fl hfl _ _ step hstep (m3.trans m4) by1
  have ez := main_size fl hfl _ _ step hstep (m5.trans m6) bz
  have en : wrap_int (wrap_int
      (axis_cells fl (get_minmax terminated het).minx (get_minmax terminated het).maxx step
        * axis_cells fl (get_minmax terminated het).miny (get_minmax terminated het).maxy step)
      * axis_cells fl (get_minmax terminated het).minz (get_minmax terminated het).maxz step)
      = grid_cells fl (get_minmax terminated het) step := by
    rw [wrap_int_of_range _ (hmin.trans nxy) bxy]
    exact wrap_int_of_range _ (hmin.trans (mul_nonneg nxy (by omega))) hfit1
  have hcells : 0 ≤ grid_cells fl (get_minmax terminated het) step :=
    mul_nonneg nxy (by omega)
  have hr : ∀ a ∈ het,
      0 ≤ find_node fl a.sub (get_minmax terminated het).minx (get_minmax terminated het).miny
          (get_minmax terminated het).minz step
          (axis_cells fl (get_minmax terminated het).minx (get_minmax terminated het).maxx step)
          (axis_cells fl (get_minmax terminated het).miny (get_minmax terminated het).maxy step)
          (axis_cells fl (get_minmax terminated het).minz (get_minmax terminated het).maxz step)
      ∧ find_node fl a.sub (get_minmax terminated het).minx (get_minmax terminated het).miny
          (get_minmax terminated het).minz step
          (axis_cells fl (get_minmax terminated het).minx (get_minmax terminated het).maxx step)
          (axis_cells fl (get_minmax terminated het).miny (get_minmax terminated het).maxy step)
          (axis_cells fl (get_minmax terminated het).minz (get_minmax terminated het).maxz step)
        < ((List.replicate (grid_cells fl (get_minmax terminated het) step).toNat
            (0 : Int)).length : Int) := by
    intro a ha
    obtain ⟨h1, h2, h3, h4, h5, h6⟩ := get_minmax_mem het a ha
    obtain ⟨-, -, -, -, k1, k2⟩ := find_node_in_grid fl hfl (get_minmax terminated het) step
      hstep hfit0 a.sub h1 h2 h3 h4 h5 h6
    refine ⟨k1, ?_⟩
    rw [List.length_replicate]
    omega
  obtain ⟨nodes1, e1, e2, e3⟩ :=
    main_mark_spec fl (get_minmax terminated het) step _ _ _ het 0 _ hr
  refine ⟨⟨_, _, _, nodes1⟩, ?_, rfl, rfl, rfl, ?_, ?_⟩
  · rw [main_grid_of_sizes fl het step _ _ _ _ ex ey ez en, e1]
    rfl
  · show (nodes1.length : Int) = _
    rw [e2, List.length_replicate]
    omega
  · intro i hi0 hi
    have hi1 : i < ((List.replicate (grid_cells fl (get_minmax terminated het) step).toNat
            (0 : Int)).length : Int) := by
      have : nodes1.length = _ := e2
      rw [← this]; exact hi
    have h := e3 i hi0 hi1
    show nodes_read nodes1 i = some 1 ↔ _
    rw [h]
    constructor
    · rintro (h0 | h0)
      · exact absurd h0 (nodes_read_replicate _ i)
      · exact h0
    · exact Or.inr

/-- C5 as it is written, at a ligand 20 Å wide with the step 0.01: each size is 2002,
`node_num = 2002 * 2002 * 2002` overflows to a negative `int`, no cell is allocated, and
the first write `nodes[find_node(..)] = 1` of line 230 is outside `nodes`: the grid is
not built and no cell can be looked up. -/
theorem main_grid_overflow :
    far_ligand ≠ [] ∧ 0 < step_0_01
    ∧ get_minmax terminated far_ligand = ⟨0, 20, 0, 20, 0, 20⟩
    ∧ wrap_int (c_int (round_double (round_double (20 - 0) / step_0_01)) + 2) = 2002
    ∧ wrap_int (wrap_int (2002 * 2002) * 2002) = -565910584
    ∧ main_grid round_double terminated_reads far_ligand step_0_01 = none := by
  decide!

/-- C5, amended: in a run where `atof(sub)` returns the numbers of each line, for a
step > 0 and a ligand whose grid has a number of cells that is a value of a 32-bit `int`,
the grid construction of `main` succeeds, and for every ligand atom the cell that
`find_node` computes for the atom's position holds 1. -/
theorem main_grid_occupied (fl : ℚ → ℚ) (hfl : IsRounding fl) (het : List AtomLine)
    (step : ℚ) (hstep : 0 < step)
    (hfit : grid_fits fl (get_minmax terminated het) step = true)
    (a : AtomLine) (ha : a ∈ het) :
    ∃ g, main_grid fl terminated_reads het step = some g
      ∧ nodes_read g.nodes
          (find_node fl a.sub (get_minmax terminated het).minx (get_minmax terminated het).miny
            (get_minmax terminated het).minz step g.size_x g.size_y g.size_z) = some 1 := by
  obtain ⟨g, hg, hx, hy, hz, hlen, hocc⟩ :=
    main_grid_spec fl hfl het (List.ne_nil_of_mem ha) step hstep hfit
  refine ⟨g, hg, ?_⟩
  have hfit0 : grid_cells fl (get_minmax terminated het) step ≤ INT_MAX := by
    simpa [grid_fits] using hfit
  obtain ⟨h1, h2, h3, h4, h5, h6⟩ := get_minmax_mem het a ha
  obtain ⟨-, -, -, -, k1, k2⟩ := find_node_in_grid fl hfl (get_minmax terminated het) step
    hstep hfit0 a.sub h1 h2 h3 h4 h5 h6
  rw [← hx, ← hy, ← hz] at k1 k2
  rw [← hlen] at k2
  exact (hocc _ k1 k2).mpr ⟨a, ha, rfl⟩

/-- Witness of C5: the ligand `corner_ligand` with the step 0.01 and the rounding of
binary64. -/
theorem main_grid_occupied_witness :
    IsRounding round_double ∧ 0 < step_0_01
    ∧ grid_fits round_double (get_minmax terminated corner_ligand) step_0_01 = true
    ∧ line " C1 " "LIG" (-5) (-5) (-5) 'C' ∈ corner_ligand
    ∧ ∃ g, main_grid round_double terminated_reads corner_ligand step_0_01 = some g
      ∧ nodes_read g.nodes
          (find_node round_double (line " C1 " "LIG" (-5) (-5) (-5) 'C').sub
            (get_minmax terminated corner_ligand).minx
            (get_minmax terminated corner_ligand).miny
            (get_minmax terminated corner_ligand).minz step_0_01
            g.size_x g.size_y g.size_z) = some 1 :=
  ⟨round_double_isRounding, by decide!, by decide!, by decide!,
    main_grid_occupied round_double round_double_isRounding corner_ligand step_0_01
      (by decide!) (by decide!) _ (by decide!)⟩

theorem main_intersection_eq (fl : ℚ → ℚ) (prot het : List AtomLine) (step : ℚ) :
    main_intersection fl terminated_reads prot het step =
      match main_grid fl terminated_reads het step with
      | none => none
      | some g =>
        match calc_intersection fl terminated terminated prot g.nodes step
            g.size_x g.size_y g.size_z (get_minmax terminated het) with
        | none => none
        | some n => some (n, fl (fl (fl ((n : ℚ) * step) * step) * step)) := rfl

/-- C7 as it is written, at a ligand whose grid has `3 * 3 * 477218602` cells, more than
an `int` holds, with the step 0.125: `node_num` overflows to 122, the index of the cell
`(1, 1, 477218592)` of the protein atom overflows to 36, the index of the cell `(0, 0, 4)`
of the second ligand atom, and `calc_intersection` counts the protein atom although no
ligand atom lies in its cell.  At the ligand 20 Å wide with the step 0.01 no value is
returned at all. -/
theorem calc_intersection_aliased_index :
    long_ligand ≠ [] ∧ (0 : ℚ) < 1 / 8
    ∧ (main_grid round_double terminated_reads long_ligand (1 / 8)).map
        (fun g => (g.size_x, g.size_y, g.size_z, g.nodes.length))
      = some (3, 3, 477218602, 122)
    ∧ (∀ p ∈ long_protein, strictly_inside (get_minmax terminated long_ligand) p = true)
    ∧ find_node_offsets round_double (line " CA " "ALA" (1 / 8) (1 / 8) 59652324 'C').sub
        0 0 0 (1 / 8) = (1, 1, 477218592)
    ∧ long_ligand.map (fun l => find_node_offsets round_double l.sub 0 0 0 (1 / 8))
      = [(0, 0, 0), (0, 0, 4), (1, 1, 477218600)]
    ∧ find_node round_double (line " CA " "ALA" (1 / 8) (1 / 8) 59652324 'C').sub
        0 0 0 (1 / 8) 3 3 477218602 = 36
    ∧ find_node round_double (line " C2 " "LIG" 0 0 (1 / 2) 'C').sub
        0 0 0 (1 / 8) 3 3 477218602 = 36
    ∧ overlap_count round_double long_protein long_ligand (1 / 8) = 0
    ∧ main_intersection round_double terminated_reads long_protein long_ligand (1 / 8)
      = some (1, 1 / 512)
    ∧ main_intersection round_double terminated_reads long_protein far_ligand step_0_01
      = none := by
  decide!

/-- C7, amended: in a run where `atof(sub)` returns the numbers of each line, for a
ligand that is not empty, a step > 0 and a grid whose number of cells is a value of a
32-bit `int`, the grid construction of `main` succeeds and `calc_intersection` returns
the number of protein atoms that lie strictly inside the box on all three axes and whose
cell, the triple of offsets, is the cell of at least one ligand atom.  The value is
between 0 and the number of protein atoms, the volume of `main` is the `double` product
of that count with `step`, three times, and a protein atom strictly inside the box whose
linear index is the one of a ligand atom has the same cell as that ligand atom. -/
theorem calc_intersection_count (fl : ℚ → ℚ) (hfl : IsRounding fl)
    (prot het : List AtomLine) (hne : het ≠ []) (step : ℚ) (hstep : 0 < step)
    (hfit : grid_fits fl (get_minmax terminated het) step = true) :
    ∃ g, main_grid fl terminated_reads het step = some g
      ∧ calc_intersection fl terminated terminated prot g.nodes step
          g.size_x g.size_y g.size_z (get_minmax terminated het)
          = some (overlap_count fl prot het step : Int)
      ∧ main_intersection fl terminated_reads prot het step
          = some ((overlap_count fl prot het step : Int),
              fl (fl (fl (((overlap_count fl prot het step : Int) : ℚ) * step) * step) * step))
      ∧ (0 : Int) ≤ (overlap_count fl prot het step : Int)
      ∧ (overlap_count fl prot het step : Int) ≤ (prot.length : Int)
      ∧ ∀ p ∈ prot, strictly_inside (get_minmax terminated het) p = true → ∀ l ∈ het,
          find_node fl l.sub (get_minmax terminated het).minx (get_minmax terminated het).miny
              (get_minmax terminated het).minz step g.size_x g.size_y g.size_z
            = find_node fl p.sub (get_minmax terminated het).minx
              (get_minmax terminated het).miny (get_minmax terminated het).minz
              step g.size_x g.size_y g.size_z →
          find_node_offsets fl l.sub (get_minmax terminated het).minx
              (get_minmax terminated het).miny (get_minmax terminated het).minz step
            = find_node_offsets fl p.sub (get_minmax terminated het).minx
              (get_minmax terminated het).miny (get_minmax terminated het).minz step := by
  obtain ⟨g, hg, hx, hy, hz, hlen, hocc⟩ := main_grid_spec fl hfl het hne step hstep hfit
  have hfit0 : grid_cells fl (get_minmax terminated het) step ≤ INT_MAX := by
    simpa [grid_fits] using hfit
  -- a position inside the box, bounds included, has its offsets and its index in the grid
  have hbox : ∀ r : SubRead,
      (get_minmax terminated het).minx ≤ r.x → r.x ≤ (get_minmax terminated het).maxx →
      (get_minmax terminated het).miny ≤ r.y → r.y ≤ (get_minmax terminated het).maxy →
      (get_minmax terminated het).minz ≤ r.z → r.z ≤ (get_minmax terminated het).maxz →
      (0 ≤ (find_node_offsets fl r (get_minmax terminated het).minx
              (get_minmax terminated het).miny (get_minmax terminated het).minz step).1
        ∧ (find_node_offsets fl r (get_minmax terminated het).minx
              (get_minmax terminated het).miny (get_minmax terminated het).minz step).1
            < g.size_x)
      ∧ (0 ≤ (find_node_offsets fl r (get_minmax terminated het).minx
              (get_minmax terminated het).miny (get_minmax terminated het).minz step).2.1
        ∧ (find_node_offsets fl r (get_minmax terminated het).minx
              (get_minmax terminated het).miny (get_minmax terminated het).minz step).2.1
            < g.size_y)
      ∧ find_node fl r (get_minmax terminated het).minx (get_minmax terminated het).miny
          (get_minmax terminated het).minz step g.size_x g.size_y g.size_z
        = ((find_node_offsets fl r (get_minmax terminated het).minx
              (get_minmax terminated het).miny (get_minmax terminated het).minz step).2.2
              * g.size_y
            + (find_node_offsets fl r (get_minmax terminated het).minx
              (get_minmax terminated het).miny (get_minmax terminated het).minz step).2.1)
            * g.size_x
          + (find_node_offsets fl r (get_minmax terminated het).minx
              (get_minmax terminated het).miny (get_minmax terminated het).minz step).1
      ∧ 0 ≤ find_node fl r (get_minmax terminated het).minx (get_minmax terminated het).miny
              (get_minmax terminated het).minz step g.size_x g.size_y g.size_z
      ∧ find_node fl r (get_minmax terminated het).minx (get_minmax terminated het).miny
              (get_minmax terminated het).minz step g.size_x g.size_y g.size_z
          < (g.nodes.length : Int) := by
    intro r c1 c2 c3 c4 c5 c6
    obtain ⟨k1, k2, -, k3, k4, k5⟩ := find_node_in_grid fl hfl (get_minmax terminated het)
      step hstep hfit0 r c1 c2 c3 c4 c5 c6
    rw [← hx, ← hy, ← hz] at k3 k4 k5
    rw [← hx] at k1
    rw [← hy] at k2
    rw [← hlen] at k5
    exact ⟨k1, k2, k3, k4, k5⟩
  have hp : ∀ p : AtomLine, strictly_inside (get_minmax terminated het) p = true →
      (get_minmax terminated het).minx ≤ p.sub.x ∧ p.sub.x ≤ (get_minmax terminated het).maxx
      ∧ (get_minmax terminated het).miny ≤ p.sub.y
      ∧ p.sub.y ≤ (get_minmax terminated het).maxy
      ∧ (get_minmax terminated het).minz ≤ p.sub.z
      ∧ p.sub.z ≤ (get_minmax terminated het).maxz := by
    intro p hin
    have hc : p.x > (get_minmax terminated het).minx ∧ p.x < (get_minmax terminated het).maxx
        ∧ p.y > (get_minmax terminated het).miny ∧ p.y < (get_minmax terminated het).maxy
        ∧ p.z > (get_minmax terminated het).minz ∧ p.z < (get_minmax terminated het).maxz := by
      simpa [strictly_inside] using hin
    obtain ⟨c1, c2, c3, c4, c5, c6⟩ := hc
    exact ⟨c1.le, c2.le, c3.le, c4.le, c5.le, c6.le⟩
  have hinj : ∀ p : AtomLine, strictly_inside (get_minmax terminated het) p = true →
      ∀ l ∈ het,
      find_node fl l.sub (get_minmax terminated het).minx (get_minmax terminated het).miny
          (get_minmax terminated het).minz step g.size_x g.size_y g.size_z
        = find_node fl p.sub (get_minmax terminated het).minx (get_minmax terminated het).miny
          (get_minmax terminated het).minz step g.size_x g.size_y g.size_z →
      find_node_offsets fl l.sub (get_minmax terminated het).minx
          (get_minmax terminated het).miny (get_minmax terminated het).minz step
        = find_node_offsets fl p.sub (get_minmax terminated het).minx
          (get_minmax terminated het).miny (get_minmax terminated het).minz step := by
    intro p hin l hmem heq
    obtain ⟨c1, c2, c3, c4, c5, c6⟩ := hp p hin
    obtain ⟨⟨a1, a2⟩, ⟨a3, a4⟩, a5, -, -⟩ := hbox p.sub c1 c2 c3 c4 c5 c6
    obtain ⟨d1, d2, d3, d4, d5, d6⟩ := get_minmax_mem het l hmem
    obtain ⟨⟨b1, b2⟩, ⟨b3, b4⟩, b5, -, -⟩ := hbox l.sub d1 d2 d3 d4 d5 d6
    rw [a5, b5] at heq
    exact find_node_inj _ _ _ _ _ _ g.size_x g.size_y a1 a2 a3 a4 b1 b2 b3 b4 heq
  have hcount : calc_intersection fl terminated terminated prot g.nodes step
      g.size_x g.size_y g.size_z (get_minmax terminated het)
      = some (overlap_count fl prot het step : Int) := by
    have h := calc_intersection_loop_count fl g.nodes step g.size_x g.size_y g.size_z
      (get_minmax terminated het) (in_ligand_cell fl het (get_minmax terminated het) step)
      prot 0 0 (by
        intro p _ hin
        obtain ⟨c1, c2, c3, c4, c5, c6⟩ := hp p hin
        obtain ⟨-, -, -, k4, k5⟩ := hbox p.sub c1 c2 c3 c4 c5 c6
        obtain ⟨v, hv⟩ := nodes_read_some g.nodes _ k4 k5
        refine ⟨v, hv, ?_⟩
        constructor
        · intro hv1
          rw [hv1] at hv
          obtain ⟨l, hmem, heq⟩ := (hocc _ k4 k5).mp hv
          unfold in_ligand_cell
          rw [List.any_eq_true]
          exact ⟨l, hmem, decide_eq_true (hinj p hin l hmem heq)⟩
        · intro hcell
          unfold in_ligand_cell at hcell
          rw [List.any_eq_true] at hcell
          obtain ⟨l, hmem, heq⟩ := hcell
          have heq1 := of_decide_eq_true heq
          have h1 := (hocc _ k4 k5).mpr
            ⟨l, hmem, find_node_eq_of_offsets fl (get_minmax terminated het) step _ _ _
              p.sub l.sub heq1⟩
          rw [hv] at h1
          exact Option.some.inj h1)
    rw [zero_add] at h
    exact h
  refine ⟨g, hg, hcount, ?_, Int.natCast_nonneg _, ?_, ?_⟩
  · rw [main_intersection_eq, hg]
    simp only []
    rw [hcount]
  · exact_mod_cast List.countP_le_length _
  · intro p _ hin l hmem heq
    exact hinj p hin l hmem heq

/-- Witness of C7: one protein atom at -4.995 on each axis, in the cell of the second atom
of `corner_ligand`, with the step 0.01 and the rounding of binary64. -/
theorem calc_intersection_count_witness :
    IsRounding round_double ∧ corner_ligand ≠ [] ∧ 0 < step_0_01
    ∧ grid_fits round_double (get_minmax terminated corner_ligand) step_0_01 = true
    ∧ ∃ g, main_grid round_double terminated_reads corner_ligand step_0_01 = some g
      ∧ calc_intersection round_double terminated terminated inside_protein g.nodes
          step_0_01 g.size_x g.size_y g.size_z (get_minmax terminated corner_ligand)
        = some (overlap_count round_double inside_protein corner_ligand step_0_01 : Int)
      ∧ overlap_count round_double inside_protein corner_ligand step_0_01 = 1 := by
  obtain ⟨g, h1, h2, -⟩ := calc_intersection_count round_double round_double_isRounding
    inside_protein corner_ligand (by decide!) step_0_01 (by decide!) (by decide!)
  exact ⟨round_double_isRounding, by decide!, by decide!, by decide!, g, h1, h2, by decide!⟩

/-! ## `assign_atom_type`: one recorded bond -/

theorem signed_iff_abs (p q d : ℚ) (hpq : q < p) : p - d < d - q ↔ |p - d| < |d - q| := by
  constructor <;> intro h <;> rcases abs_cases (p - d) with ⟨h1, h2⟩ | ⟨h1, h2⟩ <;>
    rcases abs_cases (d - q) with ⟨h3, h4⟩ | ⟨h3, h4⟩ <;> linarith

theorem scan_loop_cons (sqrt : ℚ → ℚ) (self : AtomLine) (it_h it_h2 : Nat) (other : AtomLine)
    (rest : List AtomLine) (st : BondScan) :
    scan_loop sqrt self it_h it_h2 (other :: rest) st =
      scan_loop sqrt self it_h (it_h2 + 1) rest
        (if it_h2 ≠ it_h then scan_step sqrt self st other else st) := rfl

theorem scan_step_far (sqrt : ℚ → ℚ) (self other : AtomLine) (st : BondScan)
    (h : ¬ get_dist sqrt self other < upper_limit) : scan_step sqrt self st other = st := by
  unfold scan_step
  simp only []
  rw [if_neg (fun hc => h hc.2)]

/-- The neighbour loop leaves the locals unchanged on a stretch of lines none of which,
the line `it_h` apart, is closer than `upper_limit`. -/
theorem scan_loop_far (sqrt : ℚ → ℚ) (self : AtomLine) (it_h : Nat) (l : List AtomLine)
    (k : Nat) (st : BondScan)
    (h : ∀ n c, l[n]? = some c → k + n ≠ it_h → ¬ get_dist sqrt self c < upper_limit) :
    scan_loop sqrt self it_h k l st = st := by
  induction l generalizing k st with
  | nil => rfl
  | cons c rest ih =>
    rw [scan_loop_cons]
    have hst : (if k ≠ it_h then scan_step sqrt self st c else st) = st := by
      by_cases hk : k = it_h
      · rw [if_neg (not_not.mpr hk)]
      · rw [if_pos hk]
        exact scan_step_far sqrt self c st (h 0 c (by simp) (by simpa using hk))
    rw [hst]
    apply ih
    intro n c1 hn hne
    apply h (n + 1) c1 (by simpa using hn)
    omega

/-- The neighbour loop on a stretch of lines of which exactly one, `b` at index `k + n`,
is closer than `upper_limit`: the locals are those after the loop body for `b`. -/
theorem scan_loop_single (sqrt : ℚ → ℚ) (self : AtomLine) (it_h : Nat) (l : List AtomLine)
    (k : Nat) (st : BondScan) (n : Nat) (b : AtomLine) (hb : l[n]? = some b)
    (hne : k + n ≠ it_h)
    (h : ∀ n1 c, l[n1]? = some c → k + n1 ≠ it_h → n1 ≠ n →
      ¬ get_dist sqrt self c < upper_limit) :
    scan_loop sqrt self it_h k l st = scan_step sqrt self st b := by
  induction l generalizing k st n with
  | nil => simp at hb
  | cons c rest ih =>
    rw [scan_loop_cons]
    cases n with
    | zero =>
      have hcb : c = b := by simpa using hb
      subst hcb
      rw [if_pos (by simpa using hne)]
      apply scan_loop_far
      intro n1 c1 hn1 hne1
      apply h (n1 + 1) c1 (by simpa using hn1) (by omega) (by omega)
    | succ n0 =>
      have hst : (if k ≠ it_h then scan_step sqrt self st c else st) = st := by
        by_cases hk : k = it_h
        · rw [if_neg (not_not.mpr hk)]
        · rw [if_pos hk]
          exact scan_step_far sqrt self c st (h 0 c (by simp) (by simpa using hk) (by omega))
      rw [hst]
      apply ih (k + 1) st n0 (by simpa using hb) (by omega)
      intro n1 c1 hn1 hne1 hne2
      apply h (n1 + 1) c1 (by simpa using hn1) (by omega) (by omega)

theorem assign_loop_cons (sqrt : ℚ → ℚ) (het : List AtomLine) (it_h : Nat) (self : AtomLine)
    (rest : List AtomLine) (atom_type : List Int) :
    assign_loop sqrt het it_h (self :: rest) atom_type =
      assign_loop sqrt het (it_h + 1) rest
        (match classify sqrt het it_h self with
         | some t => atom_type.set it_h t
         | none => atom_type) := rfl

theorem assign_loop_length (sqrt : ℚ → ℚ) (het : List AtomLine) (l : List AtomLine) (k : Nat)
    (atom_type : List Int) : (assign_loop sqrt het k l atom_type).length = atom_type.length := by
  induction l generalizing k atom_type with
  | nil => rfl
  | cons a rest ih =>
    rw [assign_loop_cons, ih]
    cases classify sqrt het k a <;> simp

/-- The outer loop, started at index `k`, does not touch the entries below `k`. -/
theorem assign_loop_below (sqrt : ℚ → ℚ) (het : List AtomLine) (l : List AtomLine) (k : Nat)
    (atom_type : List Int) (i : Nat) (hi : i < k) :
    (assign_loop sqrt het k l atom_type)[i]? = atom_type[i]? := by
  induction l generalizing k atom_type with
  | nil => rfl
  | cons a rest ih =>
    rw [assign_loop_cons, ih (k + 1) _ (by omega)]
    cases classify sqrt het k a with
    | none => rfl
    | some t =>
      simp only []
      rw [List.getElem?_set_ne (by omega)]

/-- The outer loop writes to entry `k + n` the value that the loop body computes for the
line at position `n` of the remaining lines. -/
theorem assign_loop_get (sqrt : ℚ → ℚ) (het : List AtomLine) (l : List AtomLine) (k : Nat)
    (atom_type : List Int) (n : Nat) (a : AtomLine) (t : Int) (hl : l[n]? = some a)
    (hlen : k + n < atom_type.length) (hc : classify sqrt het (k + n) a = some t) :
    (assign_loop sqrt het k l atom_type)[k + n]? = some t := by
  induction l generalizing k atom_type n with
  | nil => simp at hl
  | cons c rest ih =>
    rw [assign_loop_cons]
    cases n with
    | zero =>
      have hca : c = a := by simpa using hl
      subst hca
      simp only [Nat.add_zero] at hc hlen ⊢
      rw [assign_loop_below sqrt het rest (k + 1) _ k (by omega), hc]
      simp only []
      rw [List.getElem?_set_self hlen]
    | succ n0 =>
      have e : k + (n0 + 1) = k + 1 + n0 := by omega
      rw [e] at hc hlen ⊢
      apply ih (k + 1) _ n0 (by simpa using hl) _ hc
      cases classify sqrt het k c <;> simpa using hlen


theorem scan_step_init (sqrt : ℚ → ℚ) (a b : AtomLine)
    (hd : get_dist sqrt a b < upper_limit) :
    scan_step sqrt a BondScan.init b =
      { num_bonds := 1, bonds := [b.c13], dist := [get_dist sqrt a b]
        contains_h := if b.c13 = 'H' then 1 else 0
        strange_atoms :=
          if b.c13 ≠ 'C' ∧ b.c13 ≠ 'N' ∧ b.c13 ≠ 'O' ∧ b.c13 ≠ 'P' ∧ b.c13 ≠ 'F'
            ∧ b.c13 ≠ 'L' ∧ b.c13 ≠ 'I' ∧ b.c13 ≠ 'R' then 1 else 0 } := by
  unfold scan_step
  simp only []
  rw [if_pos ⟨by decide, hd⟩]
  rfl

/-- The value the loop body of `assign_atom_type` computes for a line `a` at index `i`
that has exactly one other line `b` closer than `upper_limit`. -/
theorem classify_single (sqrt : ℚ → ℚ) (het : List AtomLine) (i j : Nat) (a b : AtomLine)
    (hb : het[j]? = some b) (hij : j ≠ i) (hd : get_dist sqrt a b < upper_limit)
    (hfar : ∀ k c, het[k]? = some c → k ≠ i → k ≠ j → ¬ get_dist sqrt a c < upper_limit) :
    (a.c13 = 'O' → b.c13 = 'C' → classify sqrt het i a
      = some (if c_o_2 - get_dist sqrt a b < get_dist sqrt a b - co_carb
          then DONOR else ACCEPTOR))
    ∧ (a.c13 = 'O' → b.c13 = 'N' → classify sqrt het i a
      = some (if n_2_o_2 - get_dist sqrt a b < get_dist sqrt a b - no3_minus
          then DONOR else ACCEPTOR))
    ∧ (a.c13 = 'N' → b.c13 = 'C' → classify sqrt het i a
      = some (if c_sp3_n_3 - get_dist sqrt a b < get_dist sqrt a b - c_ar_sp3_n_4_2
          then DONOR else BOTH)) := by
  have hscan : scan_loop sqrt a i 0 het BondScan.init = scan_step sqrt a BondScan.init b :=
    scan_loop_single sqrt a i het 0 _ j b hb (by omega) (by
      intro n1 c h1 h2 h3
      exact hfar n1 c h1 (by omega) h3)
  rw [scan_step_init sqrt a b hd] at hscan
  refine ⟨?_, ?_, ?_⟩
  · intro h1 h2
    unfold classify
    rw [hscan]
    simp [classify_n_o, h1, h2]
    split_ifs <;> rfl
  · intro h1 h2
    unfold classify
    rw [hscan]
    simp [classify_n_o, h1, h2]
    split_ifs <;> rfl
  · intro h1 h2
    unfold classify
    rw [hscan]
    simp [classify_n_o, h1, h2]
    split_ifs <;> rfl


/-- C9: a ligand atom `a` at index `i` has exactly one other ligand atom `b` closer than
1.8, at distance `d = get_dist a b`.  Then `assign_atom_type` writes: for an oxygen bonded
to a carbon, `DONOR` if `|1.413 - d| < |d - 1.250|` and `ACCEPTOR` otherwise; for an
oxygen bonded to a nitrogen, `DONOR` if `|1.396 - d| < |d - 1.239|` and `ACCEPTOR`
otherwise; for a nitrogen bonded to a carbon, `DONOR` if `|1.482 - d| < |d - 1.474|` and
`BOTH` otherwise.  The signed comparisons of the code agree with these comparisons of
absolute values for every `d`. -/
theorem assign_atom_type_single_bond (sqrt : ℚ → ℚ) (het : List AtomLine)
    (atom_type : List Int) (i j : Nat) (a b : AtomLine)
    (ha : het[i]? = some a) (hb : het[j]? = some b) (hij : j ≠ i)
    (hlen : i < atom_type.length) (hd : get_dist sqrt a b < upper_limit)
    (hfar : ∀ k c, het[k]? = some c → k ≠ i → k ≠ j → ¬ get_dist sqrt a c < upper_limit) :
    (a.c13 = 'O' → b.c13 = 'C' → (assign_atom_type sqrt atom_type het)[i]?
      = some (if |c_o_2 - get_dist sqrt a b| < |get_dist sqrt a b - co_carb|
          then DONOR else ACCEPTOR))
    ∧ (a.c13 = 'O' → b.c13 = 'N' → (assign_atom_type sqrt atom_type het)[i]?
      = some (if |n_2_o_2 - get_dist sqrt a b| < |get_dist sqrt a b - no3_minus|
          then DONOR else ACCEPTOR))
    ∧ (a.c13 = 'N' → b.c13 = 'C' → (assign_atom_type sqrt atom_type het)[i]?
      = some (if |c_sp3_n_3 - get_dist sqrt a b| < |get_dist sqrt a b - c_ar_sp3_n_4_2|
          then DONOR else BOTH))
    ∧ ∀ d : ℚ,
        (c_o_2 - d < d - co_carb ↔ |c_o_2 - d| < |d - co_carb|)
        ∧ (n_2_o_2 - d < d - no3_minus ↔ |n_2_o_2 - d| < |d - no3_minus|)
        ∧ (c_sp3_n_3 - d < d - c_ar_sp3_n_4_2 ↔ |c_sp3_n_3 - d| < |d - c_ar_sp3_n_4_2|) := by
  have habs : ∀ d : ℚ,
      (c_o_2 - d < d - co_carb ↔ |c_o_2 - d| < |d - co_carb|)
      ∧ (n_2_o_2 - d < d - no3_minus ↔ |n_2_o_2 - d| < |d - no3_minus|)
      ∧ (c_sp3_n_3 - d < d - c_ar_sp3_n_4_2 ↔ |c_sp3_n_3 - d| < |d - c_ar_sp3_n_4_2|) :=
    fun d => ⟨signed_iff_abs c_o_2 co_carb d (by norm_num [c_o_2, co_carb]),
      signed_iff_abs n_2_o_2 no3_minus d (by norm_num [n_2_o_2, no3_minus]),
      signed_iff_abs c_sp3_n_3 c_ar_sp3_n_4_2 d (by norm_num [c_sp3_n_3, c_ar_sp3_n_4_2])⟩
  obtain ⟨k1, k2, k3⟩ := classify_single sqrt het i j a b hb hij hd hfar
  have hget : ∀ t : Int, classify sqrt het i a = some t →
      (assign_atom_type sqrt atom_type het)[i]? = some t := by
    intro t ht
    have h := assign_loop_get sqrt het het 0 atom_type i a t ha (by omega)
      (by rw [Nat.zero_add]; exact ht)
    rw [Nat.zero_add] at h
    exact h
  refine ⟨?_, ?_, ?_, habs⟩
  · intro h1 h2
    rw [hget _ (k1 h1 h2)]
    simp only [(habs (get_dist sqrt a b)).1]
  · intro h1 h2
    rw [hget _ (k2 h1 h2)]
    simp only [(habs (get_dist sqrt a b)).2.1]
  · intro h1 h2
    rw [hget _ (k3 h1 h2)]
    simp only [(habs (get_dist sqrt a b)).2.2]

/-- Witness of C9: an oxygen with one carbon at distance 1.413 is a `DONOR`. -/
theorem assign_atom_type_single_bond_witness :
    get_dist sqrt6 (line " O1 " "LIG" 0 0 0 'O') (line " C1 " "LIG" (1413 / 1000) 0 0 'C')
      = 1413 / 1000
    ∧ (assign_atom_type sqrt6 [NONE, NONE] hydroxyl_ligand)[0]? = some DONOR := by
  have hd : get_dist sqrt6 (line " O1 " "LIG" 0 0 0 'O')
      (line " C1 " "LIG" (1413 / 1000) 0 0 'C') = 1413 / 1000 := by decide!
  have h := (assign_atom_type_single_bond sqrt6 hydroxyl_ligand [NONE, NONE] 0 1
    (line " O1 " "LIG" 0 0 0 'O') (line " C1 " "LIG" (1413 / 1000) 0 0 'C')
    rfl rfl (by decide) (by decide) (by rw [hd]; decide!) (by
      intro k c hk h0 h1
      match k, hk, h0, h1 with
      | 0, _, h0, _ => exact absurd rfl h0
      | 1, _, _, h1 => exact absurd rfl h1
      | k + 2, hk, _, _ => simp [hydroxyl_ligand] at hk)).1 rfl rfl
  rw [hd] at h
  rw [h]
  exact ⟨hd, by decide!⟩


/-! ## The code at the inputs where it departs from the specification -/

/-- C1, the code at a `DONOR` oxygen in contact first with an alpha carbon (role `NONE`)
and then with a backbone carbonyl oxygen (role `ACCEPTOR`): `is_h_bond` returns 0 for the
first pair and 1 for the second, but `calc_contacts` reports two contacts and no H-bond,
since the first pair has marked the oxygen as consumed. -/
theorem calc_contacts_consumed_without_bond :
    assign_atom_type sqrt6 [BOTH, BOTH] donor_ligand = [DONOR, NONE]
    ∧ prot_atom_type (line " CA " "ALA" 0 3 0 'C') = NONE
    ∧ prot_atom_type (line " O  " "ALA" 0 (-3) 0 'O') = ACCEPTOR
    ∧ is_h_bond (line " O1 " "LIG" 0 0 0 'O') (line " CA " "ALA" 0 3 0 'C') DONOR = 0
    ∧ is_h_bond (line " O1 " "LIG" 0 0 0 'O') (line " O  " "ALA" 0 (-3) 0 'O') DONOR = 1
    ∧ calc_contacts round_double sqrt6 (fun _ => BOTH) carbon_then_carbonyl donor_ligand
        (16 / 5) (get_minmax terminated donor_ligand) = (2, 0, 0)
    ∧ calc_contacts round_double sqrt6 (fun _ => BOTH) carbon_then_carbonyl.reverse
        donor_ligand (16 / 5) (get_minmax terminated donor_ligand) = (2, 1, 0)
    ∧ calc_contacts round_double sqrt6 (fun _ => BOTH) carbon_then_carbonyl donor_ligand
        cutoff_3_2 (get_minmax terminated donor_ligand) = (2, 0, 0)
    ∧ calc_contacts round_double sqrt6 (fun _ => BOTH) carbon_then_carbonyl.reverse
        donor_ligand cutoff_3_2 (get_minmax terminated donor_ligand) = (2, 1, 0) := by
  decide!

/-- C2, the code at a nitrogen with four neighbours closer than 1.8: with the carbon
first among the neighbours the nitrogen gets `DONOR`, with an oxygen first it gets
`NONE`, although the two ligand lists are permutations of each other. -/
theorem assign_atom_type_order_dependent :
    List.Perm crowded_ligand crowded_ligand_swapped
    ∧ crowded_ligand[0]? = crowded_ligand_swapped[0]?
    ∧ (assign_atom_type sqrt6 [NONE, NONE, NONE, NONE, NONE] crowded_ligand)[0]? = some DONOR
    ∧ (assign_atom_type sqrt6 [NONE, NONE, NONE, NONE, NONE] crowded_ligand_swapped)[0]?
        = some NONE
    ∧ (scan_loop sqrt6 (line " N1 " "LIG" 0 0 0 'N') 0 0 crowded_ligand BondScan.init).bonds
        = ['C', 'O', 'O', 'O']
    ∧ (scan_loop sqrt6 (line " N1 " "LIG" 0 0 0 'N') 0 0 crowded_ligand_swapped
        BondScan.init).bonds = ['O', 'C', 'O', 'O'] :=
  ⟨List.Perm.cons _ (List.Perm.swap _ _ _), by decide!⟩

/-- C6, the code at a ligand with negative coordinates and a protein atom beyond it on
every axis: the two bounding regions do not overlap, the box of `get_minmax` still
extends to `DBL_MIN`, and `calc_intersection` returns 1. -/
theorem calc_intersection_disjoint_regions :
    (∀ l ∈ corner_ligand, ∀ p ∈ outside_protein, l.x < p.x ∧ l.y < p.y ∧ l.z < p.z)
    ∧ get_minmax terminated corner_ligand = ⟨-10, DBL_MIN, -10, DBL_MIN, -10, DBL_MIN⟩
    ∧ (main_grid round_double terminated_reads corner_ligand 1).bind (fun g =>
        calc_intersection round_double terminated terminated outside_protein g.nodes 1
          g.size_x g.size_y g.size_z (get_minmax terminated corner_ligand)) = some 1
    ∧ main_intersection round_double terminated_reads outside_protein corner_ligand 1
      = some (1, 1) := by
  decide!


/-! ## `calc_contacts` -/

theorem is_h_bond_zero_or_one (h p : AtomLine) (t : Int) :
    is_h_bond h p t = 0 ∨ is_h_bond h p t = 1 :=
  (is_h_bond_tests t (prot_atom_type p)).2.1.symm

/-- The four ways through the loop body of `calc_contacts`: no contact; a contact of two
carbons; a contact that is not evaluated because one of the atoms is marked; a contact
that is evaluated as a hydrogen-bond candidate. -/
theorem contact_step_cases (fl : ℚ → ℚ) (atom_type : List Int) (cutoff : ℚ) (minmax : MinMax)
    (it_p : Nat) (p : AtomLine) (it_h : Nat) (h : AtomLine) (st : ContactState) :
    (contact_pair fl minmax cutoff p h = false
      ∧ contact_step fl atom_type cutoff minmax it_p p it_h h st = st)
    ∨ (contact_pair fl minmax cutoff p h = true ∧ both_carbon p h = true
      ∧ contact_step fl atom_type cutoff minmax it_p p it_h h st
        = { st with contacts := st.contacts + 1, vdw := st.vdw + 1 })
    ∨ (contact_pair fl minmax cutoff p h = true ∧ both_carbon p h = false
      ∧ ¬ (st.het_h_bonds.getD it_h 0 = 0 ∧ st.prot_h_bonds.getD it_p 0 = 0)
      ∧ contact_step fl atom_type cutoff minmax it_p p it_h h st
        = { st with contacts := st.contacts + 1 })
    ∨ (contact_pair fl minmax cutoff p h = true ∧ both_carbon p h = false
      ∧ (st.het_h_bonds.getD it_h 0 = 0 ∧ st.prot_h_bonds.getD it_p 0 = 0)
      ∧ contact_step fl atom_type cutoff minmax it_p p it_h h st
        = { st with
            contacts := st.contacts + 1
            h_bonds := st.h_bonds + is_h_bond h p (atom_type.getD it_h 0)
            het_h_bonds := st.het_h_bonds.set it_h 1
            prot_h_bonds := st.prot_h_bonds.set it_p 1 }) := by
  unfold contact_step
  simp only []
  by_cases hb : p.c76 = ' ' ∧ p.x > fl (minmax.minx - cutoff) ∧ p.x < fl (minmax.maxx + cutoff)
      ∧ p.y > fl (minmax.miny - cutoff) ∧ p.y < fl (minmax.maxy + cutoff)
      ∧ p.z > fl (minmax.minz - cutoff) ∧ p.z < fl (minmax.maxz + cutoff)
  · rw [if_pos hb]
    by_cases hd : fl (fl (fl (fl (p.x - h.x) * fl (p.x - h.x))
        + fl (fl (p.y - h.y) * fl (p.y - h.y))) + fl (fl (p.z - h.z) * fl (p.z - h.z)))
        < fl (cutoff * cutoff)
    · rw [if_pos hd]
      have hcp : contact_pair fl minmax cutoff p h = true := by
        simp only [contact_pair, in_rounded_box, within_rounded_cutoff, Bool.and_eq_true,
          decide_eq_true_eq]
        exact ⟨hb.1, hb.2, hd⟩
      by_cases hc : h.c76 = ' ' ∧ p.c76 = ' ' ∧ h.c77 = 'C' ∧ p.c77 = 'C'
      · rw [if_pos hc]
        exact Or.inr (Or.inl ⟨hcp, by simp only [both_carbon, decide_eq_true_eq]; exact hc, rfl⟩)
      · rw [if_neg hc]
        have hbc : both_carbon p h = false := by
          simp only [both_carbon, decide_eq_false_iff_not]; exact hc
        by_cases hf : st.het_h_bonds.getD it_h 0 = 0 ∧ st.prot_h_bonds.getD it_p 0 = 0
        · rw [if_pos hf]
          exact Or.inr (Or.inr (Or.inr ⟨hcp, hbc, hf, rfl⟩))
        · rw [if_neg hf]
          exact Or.inr (Or.inr (Or.inl ⟨hcp, hbc, hf, rfl⟩))
    · rw [if_neg hd]
      refine Or.inl ⟨?_, rfl⟩
      simp only [contact_pair, in_rounded_box, within_rounded_cutoff, Bool.and_eq_false_iff,
        decide_eq_false_iff_not]
      exact Or.inr (Or.inr hd)
  · rw [if_neg hb]
    refine Or.inl ⟨?_, rfl⟩
    simp only [contact_pair, in_rounded_box, within_rounded_cutoff, Bool.and_eq_false_iff,
      decide_eq_false_iff_not]
    by_cases h76 : p.c76 = ' '
    · exact Or.inr (Or.inl (fun hbox => hb ⟨h76, hbox⟩))
    · exact Or.inl h76

/-- The loop body adds one to `contacts` exactly on a contact pair. -/
theorem contact_step_contacts (fl : ℚ → ℚ) (atom_type : List Int) (cutoff : ℚ) (minmax : MinMax)
    (it_p : Nat) (p : AtomLine) (it_h : Nat) (h : AtomLine) (st : ContactState) :
    (contact_step fl atom_type cutoff minmax it_p p it_h h st).contacts
      = st.contacts + (if contact_pair fl minmax cutoff p h = true then 1 else 0) := by
  rcases contact_step_cases fl atom_type cutoff minmax it_p p it_h h st with
    ⟨h1, h2⟩ | ⟨h1, -, h2⟩ | ⟨h1, -, -, h2⟩ | ⟨h1, -, -, h2⟩ <;> rw [h2, h1] <;> simp

/-- The loop body adds one to `vdw` exactly on a contact pair of two carbons. -/
theorem contact_step_vdw (fl : ℚ → ℚ) (atom_type : List Int) (cutoff : ℚ) (minmax : MinMax)
    (it_p : Nat) (p : AtomLine) (it_h : Nat) (h : AtomLine) (st : ContactState) :
    (contact_step fl atom_type cutoff minmax it_p p it_h h st).vdw
      = st.vdw + (if (contact_pair fl minmax cutoff p h && both_carbon p h) = true
          then 1 else 0) := by
  rcases contact_step_cases fl atom_type cutoff minmax it_p p it_h h st with
    ⟨h1, h2⟩ | ⟨h1, h3, h2⟩ | ⟨h1, h3, -, h2⟩ | ⟨h1, h3, -, h2⟩
  · rw [h2, h1]; simp
  · rw [h2, h1, h3]; simp
  · rw [h2, h1, h3]; simp
  · rw [h2, h1, h3]; simp

/-- The loop body never decreases `h_bonds`, and what it adds to `vdw` and `h_bonds`
together is at most what it adds to `contacts`. -/
theorem contact_step_le (fl : ℚ → ℚ) (atom_type : List Int) (cutoff : ℚ) (minmax : MinMax)
    (it_p : Nat) (p : AtomLine) (it_h : Nat) (h : AtomLine) (st : ContactState) :
    st.h_bonds ≤ (contact_step fl atom_type cutoff minmax it_p p it_h h st).h_bonds
    ∧ (contact_step fl atom_type cutoff minmax it_p p it_h h st).vdw
        + (contact_step fl atom_type cutoff minmax it_p p it_h h st).h_bonds
        - (contact_step fl atom_type cutoff minmax it_p p it_h h st).contacts
      ≤ st.vdw + st.h_bonds - st.contacts := by
  rcases contact_step_cases fl atom_type cutoff minmax it_p p it_h h st with
    ⟨-, h2⟩ | ⟨-, -, h2⟩ | ⟨-, -, -, h2⟩ | ⟨-, -, -, h2⟩ <;> rw [h2]
  · exact ⟨le_refl _, le_refl _⟩
  · refine ⟨le_refl _, ?_⟩
    show st.vdw + 1 + st.h_bonds - (st.contacts + 1) ≤ _
    omega
  · refine ⟨le_refl _, ?_⟩
    show st.vdw + st.h_bonds - (st.contacts + 1) ≤ _
    omega
  · show st.h_bonds ≤ st.h_bonds + is_h_bond h p (atom_type.getD it_h 0)
      ∧ st.vdw + (st.h_bonds + is_h_bond h p (atom_type.getD it_h 0)) - (st.contacts + 1)
        ≤ st.vdw + st.h_bonds - st.contacts
    rcases is_h_bond_zero_or_one h p (atom_type.getD it_h 0) with hv | hv <;> rw [hv] <;>
      exact ⟨by omega, by omega⟩

theorem contacts_loop_h_cons (fl : ℚ → ℚ) (atom_type : List Int) (cutoff : ℚ) (minmax : MinMax)
    (it_p : Nat) (p : AtomLine) (it_h : Nat) (h : AtomLine) (rest : List AtomLine)
    (st : ContactState) :
    contacts_loop_h fl atom_type cutoff minmax it_p p it_h (h :: rest) st
      = contacts_loop_h fl atom_type cutoff minmax it_p p (it_h + 1) rest
          (contact_step fl atom_type cutoff minmax it_p p it_h h st) := rfl

theorem contacts_loop_p_cons (fl : ℚ → ℚ) (atom_type : List Int) (het : List AtomLine) (cutoff : ℚ)
    (minmax : MinMax) (it_p : Nat) (p : AtomLine) (rest : List AtomLine)
    (st : ContactState) :
    contacts_loop_p fl atom_type het cutoff minmax it_p (p :: rest) st
      = contacts_loop_p fl atom_type het cutoff minmax (it_p + 1) rest
          (contacts_loop_h fl atom_type cutoff minmax it_p p 0 het st) := rfl

/-- What the inner loop does to `contacts`, `vdw` and `h_bonds`. -/
theorem contacts_loop_h_counts (fl : ℚ → ℚ) (atom_type : List Int) (cutoff : ℚ) (minmax : MinMax)
    (it_p : Nat) (p : AtomLine) (l : List AtomLine) (k : Nat) (st : ContactState) :
    (contacts_loop_h fl atom_type cutoff minmax it_p p k l st).contacts
      = st.contacts + (l.countP (contact_pair fl minmax cutoff p) : Nat)
    ∧ (contacts_loop_h fl atom_type cutoff minmax it_p p k l st).vdw
      = st.vdw + (l.countP (fun h => contact_pair fl minmax cutoff p h && both_carbon p h) : Nat)
    ∧ st.h_bonds ≤ (contacts_loop_h fl atom_type cutoff minmax it_p p k l st).h_bonds
    ∧ (contacts_loop_h fl atom_type cutoff minmax it_p p k l st).vdw
        + (contacts_loop_h fl atom_type cutoff minmax it_p p k l st).h_bonds
        - (contacts_loop_h fl atom_type cutoff minmax it_p p k l st).contacts
      ≤ st.vdw + st.h_bonds - st.contacts := by
  induction l generalizing k st with
  | nil =>
    show st.contacts = _ ∧ st.vdw = _ ∧ st.h_bonds ≤ st.h_bonds ∧ _ ≤ _
    exact ⟨by simp, by simp, le_refl _, le_refl _⟩
  | cons h rest ih =>
    rw [contacts_loop_h_cons]
    obtain ⟨i1, i2, i3, i4⟩ := ih (k + 1) (contact_step fl atom_type cutoff minmax it_p p k h st)
    obtain ⟨s1, s2⟩ := contact_step_le fl atom_type cutoff minmax it_p p k h st
    refine ⟨?_, ?_, s1.trans i3, i4.trans s2⟩
    · rw [i1, contact_step_contacts, List.countP_cons]
      split_ifs <;> push_cast <;> ring
    · rw [i2, contact_step_vdw, List.countP_cons]
      split_ifs <;> push_cast <;> ring

theorem pair_count_cons (f : AtomLine → AtomLine → Bool) (p : AtomLine)
    (rest het : List AtomLine) :
    pair_count f (p :: rest) het = het.countP (f p) + pair_count f rest het := by
  simp [pair_count]

/-- What the outer loop does to `contacts`, `vdw` and `h_bonds`. -/
theorem contacts_loop_p_counts (fl : ℚ → ℚ) (atom_type : List Int) (het : List AtomLine) (cutoff : ℚ)
    (minmax : MinMax) (l : List AtomLine) (k : Nat) (st : ContactState) :
    (contacts_loop_p fl atom_type het cutoff minmax k l st).contacts
      = st.contacts + (pair_count (contact_pair fl minmax cutoff) l het : Nat)
    ∧ (contacts_loop_p fl atom_type het cutoff minmax k l st).vdw
      = st.vdw + (pair_count
          (fun p h => contact_pair fl minmax cutoff p h && both_carbon p h) l het : Nat)
    ∧ st.h_bonds ≤ (contacts_loop_p fl atom_type het cutoff minmax k l st).h_bonds
    ∧ (contacts_loop_p fl atom_type het cutoff minmax k l st).vdw
        + (contacts_loop_p fl atom_type het cutoff minmax k l st).h_bonds
        - (contacts_loop_p fl atom_type het cutoff minmax k l st).contacts
      ≤ st.vdw + st.h_bonds - st.contacts := by
  induction l generalizing k st with
  | nil =>
    show st.contacts = _ ∧ st.vdw = _ ∧ st.h_bonds ≤ st.h_bonds ∧ _ ≤ _
    exact ⟨by simp [pair_count], by simp [pair_count], le_refl _, le_refl _⟩
  | cons p rest ih =>
    rw [contacts_loop_p_cons]
    obtain ⟨i1, i2, i3, i4⟩ :=
      ih (k + 1) (contacts_loop_h fl atom_type cutoff minmax k p 0 het st)
    obtain ⟨s1, s2, s3, s4⟩ := contacts_loop_h_counts fl atom_type cutoff minmax k p het 0 st
    refine ⟨?_, ?_, s3.trans i3, i4.trans s4⟩
    · rw [i1, s1, pair_count_cons]; push_cast; ring
    · rw [i2, s2, pair_count_cons]; push_cast; ring

/-- The three results of `calc_contacts`: `contacts` is the number of contact pairs,
`vdw` the number of contact pairs of two carbons, `h_bonds` is not negative and
`vdw + h_bonds ≤ contacts`. -/
theorem calc_contacts_counts (fl sqrt : ℚ → ℚ) (uninit : Nat → Int) (prot het : List AtomLine)
    (cutoff : ℚ) (minmax : MinMax) :
    (calc_contacts fl sqrt uninit prot het cutoff minmax).1
      = (pair_count (contact_pair fl minmax cutoff) prot het : Nat)
    ∧ (calc_contacts fl sqrt uninit prot het cutoff minmax).2.2
      = (pair_count (fun p h => contact_pair fl minmax cutoff p h && both_carbon p h)
          prot het : Nat)
    ∧ 0 ≤ (calc_contacts fl sqrt uninit prot het cutoff minmax).2.1
    ∧ (calc_contacts fl sqrt uninit prot het cutoff minmax).2.2
        + (calc_contacts fl sqrt uninit prot het cutoff minmax).2.1
      ≤ (calc_contacts fl sqrt uninit prot het cutoff minmax).1 := by
  obtain ⟨h1, h2, h3, h4⟩ := contacts_loop_p_counts fl
    (assign_atom_type sqrt ((List.range het.length).map uninit) het) het cutoff minmax prot 0
    { contacts := 0, h_bonds := 0, vdw := 0
      het_h_bonds := List.replicate het.length 0
      prot_h_bonds := List.replicate prot.length 0 }
  simp only [zero_add, sub_zero] at h1 h2 h3 h4
  refine ⟨h1, h2, h3, ?_⟩
  show (contacts_loop_p fl _ het cutoff minmax 0 prot _).vdw
    + (contacts_loop_p fl _ het cutoff minmax 0 prot _).h_bonds
    ≤ (contacts_loop_p fl _ het cutoff minmax 0 prot _).contacts
  omega

/-- C11 as it is written, at two inputs.  A protein atom with element code `FE`: the
pair is inside the expanded box and within the cutoff, so the claim counts it, and
`calc_contacts` returns `contacts = 0`.  A protein carbon at the double nearest to -23.2
and a ligand carbon at -20, with the double nearest to 3.2 as cutoff: the pair is inside
the expanded box and within the cutoff, so the claim counts it, but the `double`
difference `minmax[0] - cutoff` is the x coordinate of the protein atom itself, the test
`xp > minmax[0] - cutoff` of line 58 fails and `calc_contacts` returns `contacts = 0`. -/
theorem calc_contacts_skips_two_letter_element :
    pair_count (box_pair (get_minmax terminated carbon_ligand) 4) iron_protein carbon_ligand = 1
    ∧ (calc_contacts round_double sqrt6 (fun _ => NONE) iron_protein carbon_ligand 4
        (get_minmax terminated carbon_ligand)).1 = 0
    ∧ (calc_contacts round_double sqrt6 (fun _ => NONE) iron_protein carbon_ligand 4
        (get_minmax terminated carbon_ligand)).1
      ≠ (pair_count (box_pair (get_minmax terminated carbon_ligand) 4)
          iron_protein carbon_ligand : Nat)
    ∧ pair_count (box_pair (get_minmax terminated edge_ligand) cutoff_3_2)
        edge_protein edge_ligand = 1
    ∧ round_double ((get_minmax terminated edge_ligand).minx - cutoff_3_2)
      = round_double (-232 / 10)
    ∧ (calc_contacts round_double sqrt6 (fun _ => NONE) edge_protein edge_ligand cutoff_3_2
        (get_minmax terminated edge_ligand)).1 = 0
    ∧ (calc_contacts round_double sqrt6 (fun _ => NONE) edge_protein edge_ligand cutoff_3_2
        (get_minmax terminated edge_ligand)).1
      ≠ (pair_count (box_pair (get_minmax terminated edge_ligand) cutoff_3_2)
          edge_protein edge_ligand : Nat) := by
  decide!

/-- C11, amended: for every protein list, ligand list, box and cutoff, the `contacts` value
of `calc_contacts` is the number of pairs of a protein atom and a ligand atom such that
column 76 of the protein line is blank, the protein atom lies strictly between the six
bounds `minmax[..] - cutoff` and `minmax[..] + cutoff` as `double` arithmetic gives them,
and the squared distance of the pair, computed in `double` arithmetic, is strictly less
than the `double` product `cutoff * cutoff`; nothing else about the two atoms enters the
count.  The statement holds for every rounding `fl`. -/
theorem calc_contacts_contacts (fl sqrt : ℚ → ℚ) (uninit : Nat → Int)
    (prot het : List AtomLine) (cutoff : ℚ) (minmax : MinMax) :
    (calc_contacts fl sqrt uninit prot het cutoff minmax).1
      = (pair_count (fun p h => decide (p.c76 = ' ')
          && (in_rounded_box fl minmax cutoff p && within_rounded_cutoff fl cutoff p h))
          prot het : Nat) :=
  (calc_contacts_counts fl sqrt uninit prot het cutoff minmax).1

/-! ## The box test of `calc_contacts` -/

/-- C14: in the scoring step of `main`, for every intersection volume and every ligand atom
count > 0: if `intersection / size_h ≥ 2` the contact pass is not run and `contacts`,
`h_bonds` and `vdw` keep the value -1; if the quotient is below 2 the three values are
those of `calc_contacts`, each of them not negative. -/
theorem main_contacts_gate (fl sqrt : ℚ → ℚ) (uninit : Nat → Int) (prot het : List AtomLine)
    (cutoff : ℚ) (minmax : MinMax) (intersection : ℚ) (_hsize : 0 < het.length) :
    (2 ≤ intersection / (het.length : ℚ) →
      main_contacts fl sqrt uninit prot het cutoff minmax intersection = (-1, -1, -1))
    ∧ (intersection / (het.length : ℚ) < 2 →
      main_contacts fl sqrt uninit prot het cutoff minmax intersection
        = calc_contacts fl sqrt uninit prot het cutoff minmax
      ∧ 0 ≤ (main_contacts fl sqrt uninit prot het cutoff minmax intersection).1
      ∧ 0 ≤ (main_contacts fl sqrt uninit prot het cutoff minmax intersection).2.1
      ∧ 0 ≤ (main_contacts fl sqrt uninit prot het cutoff minmax intersection).2.2) := by
  constructor
  · intro h
    unfold main_contacts
    rw [if_neg (not_lt.mpr h)]
  · intro h
    have e : main_contacts fl sqrt uninit prot het cutoff minmax intersection
        = calc_contacts fl sqrt uninit prot het cutoff minmax := by
      unfold main_contacts
      rw [if_pos h]
    obtain ⟨k1, k2, k3, -⟩ := calc_contacts_counts fl sqrt uninit prot het cutoff minmax
    rw [e]
    refine ⟨rfl, ?_, k3, ?_⟩
    · rw [k1]; exact Int.natCast_nonneg _
    · rw [k2]; exact Int.natCast_nonneg _

/-- Witness of C14: an intersection volume of 5 on a ligand of two atoms, quotient 2.5. -/
theorem main_contacts_gate_witness :
    0 < donor_ligand.length ∧ (5 : ℚ) / (donor_ligand.length : ℚ) = 5 / 2
    ∧ main_contacts round_double sqrt6 (fun _ => NONE) carbon_then_carbonyl donor_ligand (16 / 5)
        (get_minmax terminated donor_ligand) 5 = (-1, -1, -1) :=
  ⟨by decide, by norm_num [donor_ligand],
    (main_contacts_gate round_double sqrt6 (fun _ => NONE) carbon_then_carbonyl donor_ligand (16 / 5)
      (get_minmax terminated donor_ligand) 5 (by decide)).1 (by norm_num [donor_ligand])⟩



/-! ## `find_node` stays inside the grid -/

/-- C17 as it is written, at a ligand 20 Å wide with the step 0.01: the box is
`[0, 20]` on each axis and each size is 2002; for the ligand atom at (20, 20, 20) the
three offsets are 2000, inside `[0, 2002)`, but the index
`(2000 * 2002 + 2000) * 2002 + 2000 = 8020014000` is more than an `int` holds and
`find_node` returns -569920592, a negative index; `size_x * size_y * size_z` overflows
as well. -/
theorem find_node_overflow :
    far_ligand ≠ [] ∧ 0 < step_0_01
    ∧ get_minmax terminated far_ligand = ⟨0, 20, 0, 20, 0, 20⟩
    ∧ wrap_int (c_int (round_double (round_double (20 - 0) / step_0_01)) + 2) = 2002
    ∧ find_node_offsets round_double (line " C2 " "LIG" 20 20 20 'C').sub 0 0 0 step_0_01
      = (2000, 2000, 2000)
    ∧ find_node round_double (line " C2 " "LIG" 20 20 20 'C').sub 0 0 0 step_0_01
        2002 2002 2002 = -569920592
    ∧ ¬ (0 ≤ find_node round_double (line " C2 " "LIG" 20 20 20 'C').sub 0 0 0 step_0_01
        2002 2002 2002)
    ∧ wrap_int (wrap_int (2002 * 2002) * 2002) = -565910584
    ∧ grid_fits round_double (get_minmax terminated far_ligand) step_0_01 = false := by
  decide!

/-- C17, amended: in a run where `atof(sub)` returns the numbers of each line, for a
ligand that is not empty, a step > 0, the box of `get_minmax` and a grid whose number of
cells, the product of the three sizes `trunc((max - min) / step) + 2`, is a value of a
32-bit `int`: the grid construction succeeds with these sizes, and for every position
whose coordinates lie in `[min, max]` on each axis the three offsets of `find_node` lie in
`[0, size)` of their axis, the linear index lies in `[0, size_x * size_y * size_z)` and
the read of `nodes` at that index is inside the block.  Every ligand atom is such a
position, and so is every protein atom that passes the strict box test of
`calc_intersection`. -/
theorem find_node_in_range (fl : ℚ → ℚ) (hfl : IsRounding fl) (het : List AtomLine)
    (hne : het ≠ []) (step : ℚ) (hstep : 0 < step)
    (hfit : grid_fits fl (get_minmax terminated het) step = true) :
    ∃ g, main_grid fl terminated_reads het step = some g
      ∧ g.size_x = trunc (fl (fl ((get_minmax terminated het).maxx
          - (get_minmax terminated het).minx) / step)) + 2
      ∧ g.size_y = trunc (fl (fl ((get_minmax terminated het).maxy
          - (get_minmax terminated het).miny) / step)) + 2
      ∧ g.size_z = trunc (fl (fl ((get_minmax terminated het).maxz
          - (get_minmax terminated het).minz) / step)) + 2
      ∧ (∀ r : SubRead,
          ((get_minmax terminated het).minx ≤ r.x ∧ r.x ≤ (get_minmax terminated het).maxx
            ∧ (get_minmax terminated het).miny ≤ r.y ∧ r.y ≤ (get_minmax terminated het).maxy
            ∧ (get_minmax terminated het).minz ≤ r.z
            ∧ r.z ≤ (get_minmax terminated het).maxz) →
          (0 ≤ (find_node_offsets fl r (get_minmax terminated het).minx
                  (get_minmax terminated het).miny (get_minmax terminated het).minz step).1
            ∧ (find_node_offsets fl r (get_minmax terminated het).minx
                  (get_minmax terminated het).miny (get_minmax terminated het).minz step).1
                < g.size_x)
          ∧ (0 ≤ (find_node_offsets fl r (get_minmax terminated het).minx
                  (get_minmax terminated het).miny (get_minmax terminated het).minz step).2.1
            ∧ (find_node_offsets fl r (get_minmax terminated het).minx
                  (get_minmax terminated het).miny (get_minmax terminated het).minz step).2.1
                < g.size_y)
          ∧ (0 ≤ (find_node_offsets fl r (get_minmax terminated het).minx
                  (get_minmax terminated het).miny (get_minmax terminated het).minz step).2.2
            ∧ (find_node_offsets fl r (get_minmax terminated het).minx
                  (get_minmax terminated het).miny (get_minmax terminated het).minz step).2.2
                < g.size_z)
          ∧ 0 ≤ find_node fl r (get_minmax terminated het).minx
                  (get_minmax terminated het).miny (get_minmax terminated het).minz step
                  g.size_x g.size_y g.size_z
          ∧ find_node fl r (get_minmax terminated het).minx
                  (get_minmax terminated het).miny (get_minmax terminated het).minz step
                  g.size_x g.size_y g.size_z
              < g.size_x * g.size_y * g.size_z
          ∧ ∃ v, nodes_read g.nodes
              (find_node fl r (get_minmax terminated het).minx
                (get_minmax terminated het).miny (get_minmax terminated het).minz step
                g.size_x g.size_y g.size_z) = some v)
      ∧ (∀ a ∈ het,
          (get_minmax terminated het).minx ≤ a.sub.x
            ∧ a.sub.x ≤ (get_minmax terminated het).maxx
            ∧ (get_minmax terminated het).miny ≤ a.sub.y
            ∧ a.sub.y ≤ (get_minmax terminated het).maxy
            ∧ (get_minmax terminated het).minz ≤ a.sub.z
            ∧ a.sub.z ≤ (get_minmax terminated het).maxz)
      ∧ (∀ p : AtomLine, strictly_inside (get_minmax terminated het) p = true →
          (get_minmax terminated het).minx ≤ p.sub.x
            ∧ p.sub.x ≤ (get_minmax terminated het).maxx
            ∧ (get_minmax terminated het).miny ≤ p.sub.y
            ∧ p.sub.y ≤ (get_minmax terminated het).maxy
            ∧ (get_minmax terminated het).minz ≤ p.sub.z
            ∧ p.sub.z ≤ (get_minmax terminated het).maxz) := by
  obtain ⟨g, hg, hx, hy, hz, hlen, -⟩ := main_grid_spec fl hfl het hne step hstep hfit
  have hfit0 : grid_cells fl (get_minmax terminated het) step ≤ INT_MAX := by
    simpa [grid_fits] using hfit
  refine ⟨g, hg, hx, hy, hz, ?_, fun a ha => get_minmax_mem het a ha, ?_⟩
  · intro r ⟨h1, h2, h3, h4, h5, h6⟩
    obtain ⟨k1, k2, k3, -, k4, k5⟩ :=
      find_node_in_grid fl hfl (get_minmax terminated het) step hstep hfit0 r h1 h2 h3 h4 h5 h6
    have k6 := k5
    rw [← hx, ← hy, ← hz] at k4 k5 k6
    rw [← hx] at k1
    rw [← hy] at k2
    rw [← hz] at k3
    rw [← hlen] at k6
    have k7 : grid_cells fl (get_minmax terminated het) step
        = g.size_x * g.size_y * g.size_z := by
      rw [hx, hy, hz]; rfl
    rw [k7] at k5
    exact ⟨k1, k2, k3, k4, k5, nodes_read_some _ _ k4 k6⟩
  · intro p hin
    have hc : p.x > (get_minmax terminated het).minx ∧ p.x < (get_minmax terminated het).maxx
        ∧ p.y > (get_minmax terminated het).miny ∧ p.y < (get_minmax terminated het).maxy
        ∧ p.z > (get_minmax terminated het).minz ∧ p.z < (get_minmax terminated het).maxz := by
      simpa [strictly_inside] using hin
    obtain ⟨c1, c2, c3, c4, c5, c6⟩ := hc
    exact ⟨c1.le, c2.le, c3.le, c4.le, c5.le, c6.le⟩

/-- Witness of C17 on the ligand `corner_ligand` with the step 0.01 and the rounding of
binary64. -/
theorem find_node_in_range_witness :
    IsRounding round_double ∧ corner_ligand ≠ [] ∧ 0 < step_0_01
    ∧ grid_fits round_double (get_minmax terminated corner_ligand) step_0_01 = true
    ∧ ∃ g, main_grid round_double terminated_reads corner_ligand step_0_01 = some g
      ∧ ∀ a ∈ corner_ligand,
        0 ≤ find_node round_double a.sub (get_minmax terminated corner_ligand).minx
            (get_minmax terminated corner_ligand).miny
            (get_minmax terminated corner_ligand).minz step_0_01 g.size_x g.size_y g.size_z
        ∧ find_node round_double a.sub (get_minmax terminated corner_ligand).minx
            (get_minmax terminated corner_ligand).miny
            (get_minmax terminated corner_ligand).minz step_0_01 g.size_x g.size_y g.size_z
          < g.size_x * g.size_y * g.size_z := by
  obtain ⟨g, hg, -, -, -, hs, ha, -⟩ := find_node_in_range round_double
    round_double_isRounding corner_ligand (by decide!) step_0_01 (by decide!) (by decide!)
  exact ⟨round_double_isRounding, by decide!, by decide!, by decide!, g, hg, fun a hmem =>
    ⟨(hs a.sub (ha a hmem)).2.2.2.1, (hs a.sub (ha a hmem)).2.2.2.2.1⟩⟩

/-! ## `assign_atom_type`: entries that are not written, and the bond count -/

/-- C15, the code at an oxygen whose only neighbour is a fluorine and at a nitrogen whose
only neighbour is a phosphorus: the loop body writes nothing, and `atom_type[0]` keeps
the value 7 it had on entry, which is none of `NONE`, `DONOR`, `ACCEPTOR`, `BOTH`. -/
theorem assign_atom_type_leaves_entry :
    classify sqrt6 fluoro_oxygen_ligand 0 (line " O1 " "LIG" 0 0 0 'O') = none
    ∧ assign_atom_type sqrt6 [7, 7] fluoro_oxygen_ligand = [7, NONE]
    ∧ classify sqrt6 phospho_nitrogen_ligand 0 (line " N1 " "LIG" 0 0 0 'N') = none
    ∧ assign_atom_type sqrt6 [7, 7] phospho_nitrogen_ligand = [7, NONE]
    ∧ (7 : Int) ≠ NONE ∧ (7 : Int) ≠ DONOR ∧ (7 : Int) ≠ ACCEPTOR ∧ (7 : Int) ≠ BOTH := by
  decide!

/-- C16, the code at a nitrogen with four neighbours closer than 1.8: the neighbour loop
ends with `num_bonds = 4` and has written four entries to `bonds` and to `dist`. -/
theorem scan_loop_four_bonds :
    (scan_loop sqrt6 (line " N1 " "LIG" 0 0 0 'N') 0 0 crowded_ligand BondScan.init).num_bonds
      = 4
    ∧ (scan_loop sqrt6 (line " N1 " "LIG" 0 0 0 'N') 0 0 crowded_ligand BondScan.init).bonds
      = ['C', 'O', 'O', 'O']
    ∧ (scan_loop sqrt6 (line " N1 " "LIG" 0 0 0 'N') 0 0 crowded_ligand BondScan.init).dist
      = [3 / 2, 3 / 2, 3 / 2, 3 / 2] := by
  decide!



/-! ## The role table of `is_h_bond`: ring and charged nitrogens -/

theorem is_h_bond_of_role (h p : AtomLine) (t r : Int) (hr : prot_atom_type p = r) :
    is_h_bond h p t =
      if (t = DONOR ∧ r = ACCEPTOR) ∨ (t = ACCEPTOR ∧ r = DONOR) then 1
      else if t = BOTH ∧ (r = DONOR ∨ r = ACCEPTOR ∨ r = BOTH) then 1
      else if r = BOTH ∧ (t = DONOR ∨ t = ACCEPTOR ∨ t = BOTH) then 1
      else 0 := by
  subst hr; rfl

theorem is_h_bond_role_none (h p : AtomLine) (t : Int) (hr : prot_atom_type p = NONE) :
    is_h_bond h p t = 0 := by
  rw [is_h_bond_of_role h p t NONE hr]
  simp [NONE, DONOR, ACCEPTOR, BOTH]

theorem is_h_bond_role_donor (h p : AtomLine) (t : Int) (hr : prot_atom_type p = DONOR) :
    is_h_bond h p t = 1 ↔ t = ACCEPTOR ∨ t = BOTH := by
  rw [is_h_bond_of_role h p t DONOR hr]
  simp only [NONE, DONOR, ACCEPTOR, BOTH]
  split_ifs with h1 h2 h3 <;> simp_all

theorem prot_atom_type_of_name (p : AtomLine) :
    ((prot_atom_name p = " NE1".toList ∧ prot_aa p = "TRP".toList) → prot_atom_type p = NONE)
    ∧ ((prot_atom_name p = " NE2".toList ∧ prot_aa p = "HIS".toList) → prot_atom_type p = NONE)
    ∧ ((prot_atom_name p = " ND1".toList ∧ prot_aa p = "HIS".toList) → prot_atom_type p = DONOR)
    ∧ ((prot_atom_name p = " NZ ".toList ∧ prot_aa p = "LYS".toList) → prot_atom_type p = DONOR)
    ∧ ((prot_atom_name p = " NE ".toList ∧ prot_aa p = "ARG".toList)
        → prot_atom_type p = DONOR) := by
  refine ⟨?_, ?_, ?_, ?_, ?_⟩ <;>
  · intro ⟨hn, ha⟩
    have h13 : p.c13 = 'N' := by
      have := congrArg (fun l => l.getD 1 ' ') hn
      simpa [prot_atom_name] using this
    unfold prot_atom_type
    simp only []
    rw [hn, ha, h13]
    decide

/-- C18: in the role table of `is_h_bond`, ` NE1` of TRP and ` NE2` of HIS have the role
`NONE`, and `is_h_bond` returns 0 for them with every ligand atom type; ` ND1` of HIS,
` NZ ` of LYS and ` NE ` of ARG have the role `DONOR`, and `is_h_bond` returns 1 for them
exactly when the ligand atom type is `ACCEPTOR` or `BOTH`. -/
theorem is_h_bond_ring_nitrogens (h p : AtomLine) (t : Int) :
    (((prot_atom_name p = " NE1".toList ∧ prot_aa p = "TRP".toList)
        ∨ (prot_atom_name p = " NE2".toList ∧ prot_aa p = "HIS".toList)) →
      prot_atom_type p = NONE ∧ is_h_bond h p t = 0)
    ∧ (((prot_atom_name p = " ND1".toList ∧ prot_aa p = "HIS".toList)
        ∨ (prot_atom_name p = " NZ ".toList ∧ prot_aa p = "LYS".toList)
        ∨ (prot_atom_name p = " NE ".toList ∧ prot_aa p = "ARG".toList)) →
      prot_atom_type p = DONOR ∧ (is_h_bond h p t = 1 ↔ t = ACCEPTOR ∨ t = BOTH)) := by
  obtain ⟨k1, k2, k3, k4, k5⟩ := prot_atom_type_of_name p
  constructor
  · intro hp
    have hr : prot_atom_type p = NONE := by
      rcases hp with hp | hp
      · exact k1 hp
      · exact k2 hp
    exact ⟨hr, is_h_bond_role_none h p t hr⟩
  · intro hp
    have hr : prot_atom_type p = DONOR := by
      rcases hp with hp | hp | hp
      · exact k3 hp
      · exact k4 hp
      · exact k5 hp
    exact ⟨hr, is_h_bond_role_donor h p t hr⟩

/-- Witness of C18: ` NE1` of TRP against a ligand `BOTH`, and ` NZ ` of LYS against a
ligand `ACCEPTOR`. -/
theorem is_h_bond_ring_nitrogens_witness :
    is_h_bond (line " O1 " "LIG" 0 0 0 'O') (line " NE1" "TRP" 0 3 0 'N') BOTH = 0
    ∧ is_h_bond (line " O1 " "LIG" 0 0 0 'O') (line " NZ " "LYS" 0 3 0 'N') ACCEPTOR = 1 :=
  ⟨((is_h_bond_ring_nitrogens (line " O1 " "LIG" 0 0 0 'O') (line " NE1" "TRP" 0 3 0 'N')
      BOTH).1 (Or.inl ⟨by decide, by decide⟩)).2,
    ((is_h_bond_ring_nitrogens (line " O1 " "LIG" 0 0 0 'O') (line " NZ " "LYS" 0 3 0 'N')
      ACCEPTOR).2 (Or.inr (Or.inl ⟨by decide, by decide⟩))).2.mpr (Or.inl rfl)⟩


/-! ## `assign_atom_type`: hydrogen neighbours -/

/-- The loop body of the neighbour loop keeps: `num_bonds` is the number of recorded bonds,
and once a hydrogen is recorded both `contains_h` and `strange_atoms` are 1. -/
theorem scan_step_hydrogen (sqrt : ℚ → ℚ) (self other : AtomLine) (st : BondScan)
    (h1 : st.num_bonds = st.bonds.length)
    (h2 : 'H' ∈ st.bonds → st.contains_h = 1 ∧ st.strange_atoms = 1) :
    (scan_step sqrt self st other).num_bonds = (scan_step sqrt self st other).bonds.length
    ∧ ('H' ∈ (scan_step sqrt self st other).bonds →
        (scan_step sqrt self st other).contains_h = 1
        ∧ (scan_step sqrt self st other).strange_atoms = 1) := by
  unfold scan_step
  simp only []
  by_cases hc : st.num_bonds < 4 ∧ get_dist sqrt self other < upper_limit
  · rw [if_pos hc]
    refine ⟨?_, ?_⟩
    · show st.num_bonds + 1 = ((st.bonds ++ [other.c13]).length : Int)
      simp [h1]
    · intro hmem
      have hmem1 : 'H' ∈ st.bonds ++ [other.c13] := hmem
      show (if other.c13 = 'H' then (1 : Int) else st.contains_h) = 1
        ∧ (if other.c13 ≠ 'C' ∧ other.c13 ≠ 'N' ∧ other.c13 ≠ 'O' ∧ other.c13 ≠ 'P'
            ∧ other.c13 ≠ 'F' ∧ other.c13 ≠ 'L' ∧ other.c13 ≠ 'I' ∧ other.c13 ≠ 'R'
          then (1 : Int) else st.strange_atoms) = 1
      rcases List.mem_append.mp hmem1 with hm | hm
      · obtain ⟨k1, k2⟩ := h2 hm
        rw [k1, k2]
        simp
      · have hb : other.c13 = 'H' := (List.mem_singleton.mp hm).symm
        rw [hb]
        simp
  · rw [if_neg hc]
    exact ⟨h1, h2⟩

theorem scan_loop_hydrogen (sqrt : ℚ → ℚ) (self : AtomLine) (it_h : Nat) (l : List AtomLine)
    (k : Nat) (st : BondScan) (h1 : st.num_bonds = st.bonds.length)
    (h2 : 'H' ∈ st.bonds → st.contains_h = 1 ∧ st.strange_atoms = 1) :
    (scan_loop sqrt self it_h k l st).num_bonds = (scan_loop sqrt self it_h k l st).bonds.length
    ∧ ('H' ∈ (scan_loop sqrt self it_h k l st).bonds →
        (scan_loop sqrt self it_h k l st).contains_h = 1
        ∧ (scan_loop sqrt self it_h k l st).strange_atoms = 1) := by
  induction l generalizing k st with
  | nil => exact ⟨h1, h2⟩
  | cons c rest ih =>
    rw [scan_loop_cons]
    by_cases hk : k = it_h
    · rw [if_neg (not_not.mpr hk)]
      exact ih (k + 1) st h1 h2
    · rw [if_pos hk]
      obtain ⟨s1, s2⟩ := scan_step_hydrogen sqrt self c st h1 h2
      exact ih (k + 1) _ s1 s2

/-- A nitrogen or oxygen with a recorded hydrogen neighbour gets `NONE`. -/
theorem classify_n_o_hydrogen (self : AtomLine) (st : BondScan)
    (hs : self.c13 = 'N' ∨ self.c13 = 'O')
    (h2 : st.contains_h = 1 ∧ st.strange_atoms = 1) :
    classify_n_o self st = some NONE := by
  unfold classify_n_o
  simp only []
  have hh : ¬ ((self.c12 = ' ' ∧ self.c13 = 'F') ∨ (self.c12 = 'C' ∧ self.c13 = 'L')
      ∨ (self.c12 = ' ' ∧ self.c13 = 'I') ∨ (self.c12 = 'B' ∧ self.c13 = 'R')) := by
    rcases hs with hs | hs <;> rw [hs] <;> simp
  rw [if_neg hh]
  by_cases c1 : (self.c13 = 'N' ∧ st.num_bonds = 3 ∧ st.contains_h = 0)
      ∨ (self.c13 = 'O' ∧ st.num_bonds = 2 ∧ st.contains_h = 0)
  · rw [if_pos c1]
  · rw [if_neg c1]
    by_cases c2 : st.num_bonds = 0
    · rw [if_pos c2]
    · rw [if_neg c2, if_pos h2.2]

/-- C20: a nitrogen or oxygen ligand atom that has a hydrogen (column 13 = `H`) among the
bonded neighbours recorded by the neighbour loop gets the type `NONE` from
`assign_atom_type`, whatever its other neighbours and their distances: the recorded
hydrogen sets `contains_h` and also `strange_atoms`. -/
theorem assign_atom_type_hydrogen (sqrt : ℚ → ℚ) (het : List AtomLine)
    (atom_type : List Int) (i : Nat) (a : AtomLine) (ha : het[i]? = some a)
    (hlen : i < atom_type.length) (hs : a.c13 = 'N' ∨ a.c13 = 'O')
    (hh : 'H' ∈ (scan_loop sqrt a i 0 het BondScan.init).bonds) :
    ((scan_loop sqrt a i 0 het BondScan.init).contains_h = 1
      ∧ (scan_loop sqrt a i 0 het BondScan.init).strange_atoms = 1)
    ∧ (assign_atom_type sqrt atom_type het)[i]? = some NONE := by
  obtain ⟨-, s2⟩ := scan_loop_hydrogen sqrt a i het 0 BondScan.init rfl
    (fun hm => absurd hm (List.not_mem_nil _))
  have hc : classify sqrt het i a = some NONE := by
    unfold classify
    rcases hs with hs1 | hs1
    · rw [if_neg (by rw [hs1]; decide), if_pos (Or.inl hs1)]
      exact classify_n_o_hydrogen a _ (Or.inl hs1) (s2 hh)
    · rw [if_neg (by rw [hs1]; decide), if_pos (Or.inr hs1)]
      exact classify_n_o_hydrogen a _ (Or.inr hs1) (s2 hh)
  have h := assign_loop_get sqrt het het 0 atom_type i a NONE ha (by omega)
    (by rw [Nat.zero_add]; exact hc)
  rw [Nat.zero_add] at h
  exact ⟨s2 hh, h⟩

/-- Witness of C20: a nitrogen with a hydrogen at distance 1 and a carbon at distance 1.5. -/
theorem assign_atom_type_hydrogen_witness :
    'H' ∈ (scan_loop sqrt6 (line " N1 " "LIG" 0 0 0 'N') 0 0 amine_ligand BondScan.init).bonds
    ∧ (assign_atom_type sqrt6 [BOTH, BOTH, BOTH] amine_ligand)[0]? = some NONE :=
  ⟨by decide!,
    (assign_atom_type_hydrogen sqrt6 amine_ligand [BOTH, BOTH, BOTH] 0
      (line " N1 " "LIG" 0 0 0 'N') rfl (by decide) (Or.inl (by decide)) (by decide!)).2⟩



/-! ## The hydrogen bonds of `calc_contacts` form a matching -/

theorem getD_set_one (l : List Int) (i j : Nat) (h : l.getD i 0 = 1) :
    (l.set j 1).getD i 0 = 1 := by
  rw [List.getD_eq_getElem?_getD] at h ⊢
  rw [List.getElem?_set]
  by_cases hij : j = i
  · subst hij
    rw [if_pos rfl]
    split_ifs with hlt
    · rfl
    · rw [List.getElem?_eq_none (by omega)] at h
      exact absurd h (by decide)
  · rw [if_neg hij]; exact h

theorem getD_set_self (l : List Int) (j : Nat) (h : j < l.length) :
    (l.set j 1).getD j 0 = 1 := by
  rw [List.getD_eq_getElem?_getD, List.getElem?_set, if_pos rfl, if_pos h]
  rfl

theorem nodup_length_le (l : List Nat) (n : Nat) (hn : l.Nodup) (hl : ∀ x ∈ l, x < n) :
    l.length ≤ n := by
  have hsub : l.toFinset ⊆ Finset.range n := by
    intro x hx
    exact Finset.mem_range.mpr (hl x (List.mem_toFinset.mp hx))
  have := Finset.card_le_card hsub
  rw [List.toFinset_card_of_nodup hn, Finset.card_range] at this
  exact this

/-- The loop body of `calc_contacts` keeps `h_bond_inv`. -/
theorem contact_step_inv (fl : ℚ → ℚ) (atom_type : List Int) (cutoff : ℚ) (minmax : MinMax)
    (np nh it_p it_h : Nat) (p h : AtomLine) (st : ContactState) (log : List (Nat × Nat))
    (hp : it_p < np) (hh : it_h < nh) (hinv : h_bond_inv np nh st log) :
    h_bond_inv np nh (contact_step fl atom_type cutoff minmax it_p p it_h h st)
      (h_bond_log_step fl atom_type cutoff minmax it_p p it_h h st log) := by
  obtain ⟨i1, i2, i3, i4, i5, i6⟩ := hinv
  unfold h_bond_log_step
  rcases contact_step_cases fl atom_type cutoff minmax it_p p it_h h st with
    ⟨-, h2⟩ | ⟨-, -, h2⟩ | ⟨-, -, -, h2⟩ | ⟨-, -, hf, h2⟩ <;> rw [h2]
  · rw [if_neg (not_not.mpr rfl)]
    exact ⟨i1, i2, i3, i4, i5, i6⟩
  · rw [if_neg (not_not.mpr rfl)]
    exact ⟨i1, i2, i3, i4, i5, i6⟩
  · rw [if_neg (not_not.mpr rfl)]
    exact ⟨i1, i2, i3, i4, i5, i6⟩
  · have hold : ∀ pr ∈ log, pr.1 < np ∧ pr.2 < nh
        ∧ (st.prot_h_bonds.set it_p 1).getD pr.1 0 = 1
        ∧ (st.het_h_bonds.set it_h 1).getD pr.2 0 = 1 := by
      intro pr hpr
      obtain ⟨a1, a2, a3, a4⟩ := i3 pr hpr
      exact ⟨a1, a2, getD_set_one _ _ _ a3, getD_set_one _ _ _ a4⟩
    rcases is_h_bond_zero_or_one h p (atom_type.getD it_h 0) with hv | hv
    · have hcond : ¬ ((st.h_bonds + is_h_bond h p (atom_type.getD it_h 0)) ≠ st.h_bonds) := by
        rw [hv]; simp
      show h_bond_inv np nh _ (if (st.h_bonds + is_h_bond h p (atom_type.getD it_h 0))
        ≠ st.h_bonds then log ++ [(it_p, it_h)] else log)
      rw [if_neg hcond]
      refine ⟨?_, ?_, hold, i4, i5, ?_⟩
      · show (st.prot_h_bonds.set it_p 1).length = np
        rw [List.length_set, i1]
      · show (st.het_h_bonds.set it_h 1).length = nh
        rw [List.length_set, i2]
      · show st.h_bonds + is_h_bond h p (atom_type.getD it_h 0) = _
        rw [hv, i6]; simp
    · have hcond : (st.h_bonds + is_h_bond h p (atom_type.getD it_h 0)) ≠ st.h_bonds := by
        rw [hv]; simp
      show h_bond_inv np nh _ (if (st.h_bonds + is_h_bond h p (atom_type.getD it_h 0))
        ≠ st.h_bonds then log ++ [(it_p, it_h)] else log)
      rw [if_pos hcond]
      have hnp : it_p ∉ log.map Prod.fst := by
        intro hm
        obtain ⟨pr, hpr, he⟩ := List.mem_map.mp hm
        obtain ⟨-, -, a3, -⟩ := i3 pr hpr
        rw [he, hf.2] at a3
        exact absurd a3 (by decide)
      have hnh : it_h ∉ log.map Prod.snd := by
        intro hm
        obtain ⟨pr, hpr, he⟩ := List.mem_map.mp hm
        obtain ⟨-, -, -, a4⟩ := i3 pr hpr
        rw [he, hf.1] at a4
        exact absurd a4 (by decide)
      refine ⟨?_, ?_, ?_, ?_, ?_, ?_⟩
      · show (st.prot_h_bonds.set it_p 1).length = np
        rw [List.length_set, i1]
      · show (st.het_h_bonds.set it_h 1).length = nh
        rw [List.length_set, i2]
      · intro pr hpr
        rcases List.mem_append.mp hpr with hpr1 | hpr1
        · exact hold pr hpr1
        · rw [List.mem_singleton.mp hpr1]
          exact ⟨hp, hh, getD_set_self _ _ (by rw [i1]; exact hp),
            getD_set_self _ _ (by rw [i2]; exact hh)⟩
      · rw [List.map_append, List.map_singleton]
        exact List.Nodup.append i4 (List.nodup_singleton _)
          (List.disjoint_singleton.mpr hnp)
      · rw [List.map_append, List.map_singleton]
        exact List.Nodup.append i5 (List.nodup_singleton _)
          (List.disjoint_singleton.mpr hnh)
      · show st.h_bonds + is_h_bond h p (atom_type.getD it_h 0) = _
        rw [hv, i6, List.length_append, List.length_singleton]
        push_cast; ring

theorem contacts_loop_h_log_cons (fl : ℚ → ℚ) (atom_type : List Int) (cutoff : ℚ) (minmax : MinMax)
    (it_p : Nat) (p : AtomLine) (it_h : Nat) (h : AtomLine) (rest : List AtomLine)
    (s : ContactState × List (Nat × Nat)) :
    contacts_loop_h_log fl atom_type cutoff minmax it_p p it_h (h :: rest) s
      = contacts_loop_h_log fl atom_type cutoff minmax it_p p (it_h + 1) rest
          (contact_step fl atom_type cutoff minmax it_p p it_h h s.1,
            h_bond_log_step fl atom_type cutoff minmax it_p p it_h h s.1 s.2) := rfl

theorem contacts_loop_p_log_cons (fl : ℚ → ℚ) (atom_type : List Int) (het : List AtomLine) (cutoff : ℚ)
    (minmax : MinMax) (it_p : Nat) (p : AtomLine) (rest : List AtomLine)
    (s : ContactState × List (Nat × Nat)) :
    contacts_loop_p_log fl atom_type het cutoff minmax it_p (p :: rest) s
      = contacts_loop_p_log fl atom_type het cutoff minmax (it_p + 1) rest
          (contacts_loop_h_log fl atom_type cutoff minmax it_p p 0 het s) := rfl

/-- The inner loop with the log runs the inner loop of `calc_contacts` on the locals, and
keeps `h_bond_inv`. -/
theorem contacts_loop_h_log_spec (fl : ℚ → ℚ) (atom_type : List Int) (cutoff : ℚ) (minmax : MinMax)
    (np nh it_p : Nat) (p : AtomLine) (hp : it_p < np) (l : List AtomLine) (k : Nat)
    (hk : k + l.length ≤ nh) (s : ContactState × List (Nat × Nat))
    (hinv : h_bond_inv np nh s.1 s.2) :
    (contacts_loop_h_log fl atom_type cutoff minmax it_p p k l s).1
      = contacts_loop_h fl atom_type cutoff minmax it_p p k l s.1
    ∧ h_bond_inv np nh (contacts_loop_h_log fl atom_type cutoff minmax it_p p k l s).1
        (contacts_loop_h_log fl atom_type cutoff minmax it_p p k l s).2 := by
  induction l generalizing k s with
  | nil => exact ⟨rfl, hinv⟩
  | cons h rest ih =>
    rw [contacts_loop_h_log_cons, contacts_loop_h_cons]
    have hlen : k + (rest.length + 1) ≤ nh := hk
    exact ih (k + 1) (by omega) _
      (contact_step_inv fl atom_type cutoff minmax np nh it_p k p h s.1 s.2 hp (by omega) hinv)

/-- The outer loop with the log runs the outer loop of `calc_contacts` on the locals, and
keeps `h_bond_inv`. -/
theorem contacts_loop_p_log_spec (fl : ℚ → ℚ) (atom_type : List Int) (het : List AtomLine) (cutoff : ℚ)
    (minmax : MinMax) (np : Nat) (l : List AtomLine) (k : Nat) (hk : k + l.length ≤ np)
    (s : ContactState × List (Nat × Nat)) (hinv : h_bond_inv np het.length s.1 s.2) :
    (contacts_loop_p_log fl atom_type het cutoff minmax k l s).1
      = contacts_loop_p fl atom_type het cutoff minmax k l s.1
    ∧ h_bond_inv np het.length (contacts_loop_p_log fl atom_type het cutoff minmax k l s).1
        (contacts_loop_p_log fl atom_type het cutoff minmax k l s).2 := by
  induction l generalizing k s with
  | nil => exact ⟨rfl, hinv⟩
  | cons p rest ih =>
    rw [contacts_loop_p_log_cons, contacts_loop_p_cons]
    have hlen : k + (rest.length + 1) ≤ np := hk
    obtain ⟨e1, e2⟩ := contacts_loop_h_log_spec fl atom_type cutoff minmax np het.length k p
      (by omega) het 0 (by omega) s hinv
    obtain ⟨f1, f2⟩ := ih (k + 1) (by omega) _ e2
    rw [e1] at f1
    exact ⟨f1, f2⟩

/-- C12: in a run of `calc_contacts` the pairs that increment `h_bonds` form a matching:
no protein atom index and no ligand atom index belongs to two of these pairs; `h_bonds`
is the number of these pairs, and hence at most the number of protein atoms and at most
the number of ligand atoms. -/
theorem h_bond_pairs_matching (fl sqrt : ℚ → ℚ) (uninit : Nat → Int)
    (prot het : List AtomLine) (cutoff : ℚ) (minmax : MinMax) :
    ((h_bond_pairs fl sqrt uninit prot het cutoff minmax).map Prod.fst).Nodup
    ∧ ((h_bond_pairs fl sqrt uninit prot het cutoff minmax).map Prod.snd).Nodup
    ∧ (∀ pr ∈ h_bond_pairs fl sqrt uninit prot het cutoff minmax,
        pr.1 < prot.length ∧ pr.2 < het.length)
    ∧ (calc_contacts fl sqrt uninit prot het cutoff minmax).2.1
        = ((h_bond_pairs fl sqrt uninit prot het cutoff minmax).length : Int)
    ∧ (calc_contacts fl sqrt uninit prot het cutoff minmax).2.1
        ≤ ((min prot.length het.length : Nat) : Int) := by
  have hinit : h_bond_inv prot.length het.length
      ({ contacts := 0, h_bonds := 0, vdw := 0
         het_h_bonds := List.replicate het.length 0
         prot_h_bonds := List.replicate prot.length 0 } : ContactState) [] :=
    ⟨List.length_replicate _ _, List.length_replicate _ _,
      fun pr hpr => absurd hpr (List.not_mem_nil _), List.nodup_nil, List.nodup_nil, rfl⟩
  obtain ⟨e1, i1, i2, i3, i4, i5, i6⟩ := contacts_loop_p_log_spec fl
    (assign_atom_type sqrt ((List.range het.length).map uninit) het) het cutoff minmax
    prot.length prot 0 (by omega)
    ({ contacts := 0, h_bonds := 0, vdw := 0
       het_h_bonds := List.replicate het.length 0
       prot_h_bonds := List.replicate prot.length 0 }, []) hinit
  have hb : (calc_contacts fl sqrt uninit prot het cutoff minmax).2.1
      = ((h_bond_pairs fl sqrt uninit prot het cutoff minmax).length : Int) := by
    rw [e1] at i6
    exact i6
  have hbound : ∀ pr ∈ h_bond_pairs fl sqrt uninit prot het cutoff minmax,
      pr.1 < prot.length ∧ pr.2 < het.length :=
    fun pr hpr => ⟨(i3 pr hpr).1, (i3 pr hpr).2.1⟩
  have hl1 : (h_bond_pairs fl sqrt uninit prot het cutoff minmax).length ≤ prot.length := by
    have := nodup_length_le _ prot.length i4 (by
      intro x hx
      obtain ⟨pr, hpr, he⟩ := List.mem_map.mp hx
      rw [← he]; exact (hbound pr hpr).1)
    rw [List.length_map] at this
    exact this
  have hl2 : (h_bond_pairs fl sqrt uninit prot het cutoff minmax).length ≤ het.length := by
    have := nodup_length_le _ het.length i5 (by
      intro x hx
      obtain ⟨pr, hpr, he⟩ := List.mem_map.mp hx
      rw [← he]; exact (hbound pr hpr).2)
    rw [List.length_map] at this
    exact this
  refine ⟨i4, i5, hbound, hb, ?_⟩
  rw [hb]
  exact_mod_cast le_min hl1 hl2



end Clashes
